import Mathlib

/-!
# chatworkhook: verification of inbound ChatWork webhooks

A shallow embedding of `chatworkhook.go` (package `chatworkhook`) together with the
parts of the Go standard library that decide its behaviour:

* `encoding/base64` (`StdEncoding.DecodeString`, `StdEncoding.EncodeToString`),
* `crypto/sha256` and `crypto/hmac`,
* `strings.EqualFold` and `net/http.Header.Get`,
* `encoding/json` (`Unmarshal` into the types of the package, `Marshal` of a
  string and of an `int64`), `strconv.ParseInt`, `strconv.FormatInt`,
* `time.Unix` and `Time.Unix`.

Go byte slices and Go strings are lists of byte values (`Bytes`); a Go `error`
is `Option Error`, `none` being `nil`; a nillable pointer is an `Option`.
Machine integers are `Nat`/`Int` reduced explicitly where the Go code wraps.
-/

set_option linter.dupNamespace false

namespace Chatworkhook

/-! ## Bytes and UTF-8 (`unicode/utf8`) -/

/-- A Go `[]byte` or `string`: the sequence of its byte values. -/
abbrev Bytes := List Nat

/-- The constant `utf8.RuneError`, U+FFFD. -/
def RuneError : Nat := 0xFFFD

/-- Go `utf8.AppendRune(nil, r)` for a rune given as a non-negative code point:
surrogates and values above `utf8.MaxRune` are encoded as `RuneError`. -/
def encodeRune (r : Nat) : Bytes :=
  if r ≤ 0x7F then [r]
  else if r ≤ 0x7FF then [0xC0 ||| (r >>> 6), 0x80 ||| (r &&& 0x3F)]
  else if r > 0x10FFFF ∨ (0xD800 ≤ r ∧ r ≤ 0xDFFF) then [0xEF, 0xBF, 0xBD]
  else if r ≤ 0xFFFF then
    [0xE0 ||| (r >>> 12), 0x80 ||| ((r >>> 6) &&& 0x3F), 0x80 ||| (r &&& 0x3F)]
  else
    [0xF0 ||| (r >>> 18), 0x80 ||| ((r >>> 12) &&& 0x3F), 0x80 ||| ((r >>> 6) &&& 0x3F),
      0x80 ||| (r &&& 0x3F)]

/-- Go `utf8.DecodeRune`: the first rune of `p` and its width in bytes;
`(RuneError, 0)` for empty input and `(RuneError, 1)` for an invalid encoding. -/
def decodeRune (p : Bytes) : Nat × Nat :=
  match p with
  | [] => (RuneError, 0)
  | p0 :: rest =>
    if p0 < 0x80 then (p0, 1)
    else if p0 < 0xC2 ∨ 0xF4 < p0 then (RuneError, 1)
    else
      -- size and the accepted range of the second byte (tables `first`, `acceptRanges`)
      let sz := if p0 < 0xE0 then 2 else if p0 < 0xF0 then 3 else 4
      let lo := if p0 = 0xE0 then 0xA0 else if p0 = 0xF0 then 0x90 else 0x80
      let hi := if p0 = 0xED then 0x9F else if p0 = 0xF4 then 0x8F else 0xBF
      if rest.length + 1 < sz then (RuneError, 1)
      else
        match rest with
        | [] => (RuneError, 1)
        | b1 :: rest1 =>
          if b1 < lo ∨ hi < b1 then (RuneError, 1)
          else if sz ≤ 2 then (((p0 &&& 0x1F) <<< 6) ||| (b1 &&& 0x3F), 2)
          else
            match rest1 with
            | [] => (RuneError, 1)
            | b2 :: rest2 =>
              if b2 < 0x80 ∨ 0xBF < b2 then (RuneError, 1)
              else if sz ≤ 3 then
                (((p0 &&& 0x0F) <<< 12) ||| ((b1 &&& 0x3F) <<< 6) ||| (b2 &&& 0x3F), 3)
              else
                match rest2 with
                | [] => (RuneError, 1)
                | b3 :: _ =>
                  if b3 < 0x80 ∨ 0xBF < b3 then (RuneError, 1)
                  else
                    (((p0 &&& 0x07) <<< 18) ||| ((b1 &&& 0x3F) <<< 12) |||
                      ((b2 &&& 0x3F) <<< 6) ||| (b3 &&& 0x3F), 4)

/-- The bytes of a Go string literal: the UTF-8 encoding of its characters. -/
def str (s : String) : Bytes :=
  s.data.flatMap fun c => encodeRune c.toNat

/-! ## `encoding/base64`, `StdEncoding` -/

/-- The alphabet of `base64.StdEncoding`. -/
def encodeStd : Bytes :=
  str "ABCDEFGHIJKLMNOPQRSTUVWXYZabcdefghijklmnopqrstuvwxyz0123456789+/"

/-- The table `enc.decodeMap` of `StdEncoding`: the sextet of an alphabet byte,
`none` where the Go table holds `0xff`. -/
def decodeMap (c : Nat) : Option Nat :=
  if 65 ≤ c ∧ c ≤ 90 then some (c - 65)
  else if 97 ≤ c ∧ c ≤ 122 then some (c - 97 + 26)
  else if 48 ≤ c ∧ c ≤ 57 then some (c - 48 + 52)
  else if c = 43 then some 62
  else if c = 47 then some 63
  else none

/-- The character of a sextet, `enc.encode[v]`. -/
def encodeSextet (v : Nat) : Nat := encodeStd.getD (v % 64) 0

/-- Go `(*Encoding).EncodeToString` for `StdEncoding` (padding character `=`). -/
def EncodeToString : Bytes → Bytes
  | [] => []
  | [a] =>
    let val := a <<< 16
    [encodeSextet (val >>> 18), encodeSextet (val >>> 12), 61, 61]
  | [a, b] =>
    let val := (a <<< 16) ||| (b <<< 8)
    [encodeSextet (val >>> 18), encodeSextet (val >>> 12), encodeSextet (val >>> 6), 61]
  | a :: b :: c :: rest =>
    let val := (a <<< 16) ||| (b <<< 8) ||| c
    encodeSextet (val >>> 18) :: encodeSextet (val >>> 12) :: encodeSextet (val >>> 6) ::
      encodeSextet val :: EncodeToString rest

/-- The loops `for si < len(src) && (src[si] == '\n' || src[si] == '\r') { si++ }`
of `decodeQuantum`: the rest of the input and the index reached. -/
def skipNewlines : Bytes → Nat → Bytes × Nat
  | [], si => ([], si)
  | c :: rest, si => if c = 10 ∨ c = 13 then skipNewlines rest (si + 1) else (c :: rest, si)

/-- The end of `decodeQuantum`: the `dlen - 1` bytes that `dlen` sextets hold. -/
def assemble (dbuf : List Nat) (dlen : Nat) : Bytes :=
  let val := (dbuf.getD 0 0 <<< 18) ||| (dbuf.getD 1 0 <<< 12) ||| (dbuf.getD 2 0 <<< 6) |||
    dbuf.getD 3 0
  ([(val >>> 16) % 256, (val >>> 8) % 256, val % 256]).take (dlen - 1)

/-- Go `(*Encoding).Decode` for `StdEncoding` (padded, not strict), as the repeated
`decodeQuantum` it amounts to: `src` is what is left of the input from index `si`,
`dbuf` the sextets of the quantum being read, `out` the bytes decoded so far.
The result is the decoded bytes and the offset of a `CorruptInputError`, if any. -/
def decodeLoop : Bytes → Nat → List Nat → Bytes → Bytes × Option Nat
  | [], si, dbuf, out =>
    if dbuf.length = 0 then (out, none) else (out, some (si - dbuf.length))
  | c :: rest, si, dbuf, out =>
    match decodeMap c with
    | some v =>
      if dbuf.length = 3 then decodeLoop rest (si + 1) [] (out ++ assemble (dbuf ++ [v]) 4)
      else decodeLoop rest (si + 1) (dbuf ++ [v]) out
    | none =>
      if c = 10 ∨ c = 13 then decodeLoop rest (si + 1) dbuf out
      else if c ≠ 61 then (out, some si)
      else if dbuf.length < 2 then (out, some si)
      else
        -- padding reached: with two sextets read a second `=` is expected
        let afterPad : Nat ⊕ (Bytes × Nat) :=
          if dbuf.length = 2 then
            match skipNewlines rest (si + 1) with
            | ([], s2) => Sum.inl s2
            | (c2 :: r2, s2) => if c2 ≠ 61 then Sum.inl (s2 - 1) else Sum.inr (r2, s2 + 1)
          else Sum.inr (rest, si + 1)
        match afterPad with
        | Sum.inl off => (out, some off)
        | Sum.inr (r3, s3) =>
          match skipNewlines r3 s3 with
          | ([], _) => (out ++ assemble dbuf dbuf.length, none)
          | (_ :: _, s4) => (out ++ assemble dbuf dbuf.length, some s4)

/-- Go `(*Encoding).DecodeString` for `StdEncoding`. -/
def DecodeString (s : Bytes) : Bytes × Option Nat :=
  decodeLoop s 0 [] []

/-! ## `crypto/sha256` and `crypto/hmac` -/

/-- The round constants `_K` of SHA-256. -/
def sha256K : List Nat := [
  0x428a2f98, 0x71374491, 0xb5c0fbcf, 0xe9b5dba5, 0x3956c25b, 0x59f111f1, 0x923f82a4, 0xab1c5ed5,
  0xd807aa98, 0x12835b01, 0x243185be, 0x550c7dc3, 0x72be5d74, 0x80deb1fe, 0x9bdc06a7, 0xc19bf174,
  0xe49b69c1, 0xefbe4786, 0x0fc19dc6, 0x240ca1cc, 0x2de92c6f, 0x4a7484aa, 0x5cb0a9dc, 0x76f988da,
  0x983e5152, 0xa831c66d, 0xb00327c8, 0xbf597fc7, 0xc6e00bf3, 0xd5a79147, 0x06ca6351, 0x14292967,
  0x27b70a85, 0x2e1b2138, 0x4d2c6dfc, 0x53380d13, 0x650a7354, 0x766a0abb, 0x81c2c92e, 0x92722c85,
  0xa2bfe8a1, 0xa81a664b, 0xc24b8b70, 0xc76c51a3, 0xd192e819, 0xd6990624, 0xf40e3585, 0x106aa070,
  0x19a4c116, 0x1e376c08, 0x2748774c, 0x34b0bcb5, 0x391c0cb3, 0x4ed8aa4a, 0x5b9cca4f, 0x682e6ff3,
  0x748f82ee, 0x78a5636f, 0x84c87814, 0x8cc70208, 0x90befffa, 0xa4506ceb, 0xbef9a3f7, 0xc67178f2]

/-- Go `bits.RotateLeft32(x, -n)`: rotation of a 32-bit word to the right. -/
def rotr32 (x n : Nat) : Nat := ((x >>> n) ||| (x <<< (32 - n))) % 2 ^ 32

/-- Addition of `uint32` values. -/
def add32 (a b : Nat) : Nat := (a + b) % 2 ^ 32

/-- The message schedule: `w` holds the words computed so far, newest first;
`n` more words are added, `w[i] = σ1(w[i-2]) + w[i-7] + σ0(w[i-15]) + w[i-16]`. -/
def sha256Schedule : Nat → List Nat → List Nat
  | 0, w => w
  | n + 1, w =>
    let v1 := w.getD 1 0
    let v2 := w.getD 14 0
    let t1 := rotr32 v1 17 ^^^ rotr32 v1 19 ^^^ (v1 >>> 10)
    let t2 := rotr32 v2 7 ^^^ rotr32 v2 18 ^^^ (v2 >>> 3)
    sha256Schedule n (add32 (add32 (add32 t1 (w.getD 6 0)) t2) (w.getD 15 0) :: w)

/-- The eight working variables `a` to `h` of the SHA-256 block function. -/
structure Sha256State where
  a : Nat
  b : Nat
  c : Nat
  d : Nat
  e : Nat
  f : Nat
  g : Nat
  h : Nat
deriving DecidableEq, Repr

/-- One of the 64 rounds of `blockGeneric`. -/
def sha256Round (s : Sha256State) (k w : Nat) : Sha256State :=
  let t1 := add32 (add32 (add32 (add32 s.h (rotr32 s.e 6 ^^^ rotr32 s.e 11 ^^^ rotr32 s.e 25))
    ((s.e &&& s.f) ^^^ ((s.e ^^^ 0xffffffff) &&& s.g))) k) w
  let t2 := add32 (rotr32 s.a 2 ^^^ rotr32 s.a 13 ^^^ rotr32 s.a 22)
    ((s.a &&& s.b) ^^^ (s.a &&& s.c) ^^^ (s.b &&& s.c))
  { a := add32 t1 t2, b := s.a, c := s.b, d := s.c, e := add32 s.d t1, f := s.e, g := s.f,
    h := s.g }

/-- The rounds over the paired lists of constants and schedule words. -/
def sha256Rounds : Sha256State → List Nat → List Nat → Sha256State
  | s, k :: ks, w :: ws => sha256Rounds (sha256Round s k w) ks ws
  | s, _, _ => s

/-- Big-endian 32-bit words of a byte sequence. -/
def beWords : Bytes → List Nat
  | a :: b :: c :: d :: rest => ((a <<< 24) ||| (b <<< 16) ||| (c <<< 8) ||| d) :: beWords rest
  | _ => []

/-- Go `blockGeneric` on one 64-byte chunk. -/
def sha256Block (s : Sha256State) (chunk : Bytes) : Sha256State :=
  let w := (sha256Schedule 48 (beWords chunk).reverse).reverse
  let t := sha256Rounds s sha256K w
  { a := add32 s.a t.a, b := add32 s.b t.b, c := add32 s.c t.c, d := add32 s.d t.d,
    e := add32 s.e t.e, f := add32 s.f t.f, g := add32 s.g t.g, h := add32 s.h t.h }

/-- The block function over `n` consecutive chunks of `p`. -/
def sha256Blocks : Nat → Sha256State → Bytes → Sha256State
  | 0, s, _ => s
  | n + 1, s, p => sha256Blocks n (sha256Block s (p.take 64)) (p.drop 64)

/-- The initial hash value (`init0` to `init7`). -/
def sha256Init : Sha256State :=
  { a := 0x6a09e667, b := 0xbb67ae85, c := 0x3c6ef372, d := 0xa54ff53a,
    e := 0x510e527f, f := 0x9b05688c, g := 0x1f83d9ab, h := 0x5be0cd19 }

/-- The `n` low bytes of `x`, most significant first. -/
def beBytes (n x : Nat) : Bytes :=
  (List.range n).reverse.map fun i => (x >>> (8 * i)) % 256

/-- The padding of `checkSum`: `0x80`, zeros up to 56 modulo 64, the bit length. -/
def sha256Pad (m : Bytes) : Bytes :=
  m ++ [0x80] ++ List.replicate ((119 - m.length % 64) % 64) 0 ++ beBytes 8 (8 * m.length % 2 ^ 64)

/-- Go `sha256.Sum256`. -/
def sha256 (m : Bytes) : Bytes :=
  let p := sha256Pad m
  let s := sha256Blocks (p.length / 64) sha256Init p
  [s.a, s.b, s.c, s.d, s.e, s.f, s.g, s.h].flatMap (beBytes 4)

/-- Go `hmac.New(sha256.New, key)`, `Write(msg)`, `Sum(nil)`: a key longer than
the block size of 64 bytes is hashed first, then padded with zeros. -/
def hmacSHA256 (key msg : Bytes) : Bytes :=
  let k := if key.length > 64 then sha256 key else key
  let k := k ++ List.replicate (64 - k.length) 0
  let ipad := k.map fun b => b ^^^ 0x36
  let opad := k.map fun b => b ^^^ 0x5c
  sha256 (opad ++ sha256 (ipad ++ msg))

/-! ## Errors -/

/-- A non-nil Go `error` as the package can return it. -/
inductive Error where
  /-- The `base64.CorruptInputError` at the given input offset. -/
  | corruptInput (offset : Nat)
  /-- The value of `errors.New(msg)` or `fmt.Errorf`, with its message. -/
  | errorString (msg : Bytes)
  /-- A `*json.SyntaxError`: the input is not valid JSON. -/
  | invalidJSON
  /-- A `*json.UnmarshalTypeError`: a JSON value (`Value`) does not fit the Go type. -/
  | unmarshalType (value : Bytes) (goType : Bytes)
  /-- An error of the request body's reader, identified by a number. -/
  | readError (code : Nat)
deriving DecidableEq, Repr

/-! ## `strings.EqualFold` and `net/http.Header` -/

/-- Go `unicode.SimpleFold` on the fold orbits that hold an ASCII rune:
`A`..`Z` and `a`..`z` pairwise, `K → k → U+212A → K` and `S → s → U+017F → S`.
Every other rune is left as it is: in this package a fold is only ever compared
with ASCII text (`"POST"`, the names of the JSON fields), where the orbit of a
rune outside these holds no ASCII rune. -/
def SimpleFold (r : Nat) : Nat :=
  if r = 0x4B then 0x6B
  else if r = 0x6B then 0x212A
  else if r = 0x212A then 0x4B
  else if r = 0x53 then 0x73
  else if r = 0x73 then 0x17F
  else if r = 0x17F then 0x53
  else if 0x41 ≤ r ∧ r ≤ 0x5A then r + 32
  else if 0x61 ≤ r ∧ r ≤ 0x7A then r - 32
  else r

/-- The loop `for r != sr && r < tr { r = unicode.SimpleFold(r) }` of `EqualFold`;
an orbit has at most four runes. -/
def foldUpTo : Nat → Nat → Nat → Nat → Nat
  | 0, _, _, r => r
  | n + 1, sr, tr, r => if r ≠ sr ∧ r < tr then foldUpTo n sr tr (SimpleFold r) else r

/-- The rune loop of Go `strings.EqualFold(s, t)` (its ASCII fast path computes the
same on ASCII bytes): `s` and `t` are what is left of the two strings. -/
def equalFoldLoop : Nat → Bytes → Bytes → Bool
  | 0, s, t => s.isEmpty && t.isEmpty
  | n + 1, s, t =>
    if s.isEmpty then t.isEmpty
    else if t.isEmpty then false
    else
      let (sr, ssize) := decodeRune s
      let (tr, tsize) := decodeRune t
      let (lo, hi) := if tr < sr then (tr, sr) else (sr, tr)
      if tr = sr then equalFoldLoop n (s.drop ssize) (t.drop tsize)
      else if hi < 0x80 then
        if 0x41 ≤ lo ∧ lo ≤ 0x5A ∧ hi = lo + 32 then equalFoldLoop n (s.drop ssize) (t.drop tsize)
        else false
      else if foldUpTo 4 lo hi (SimpleFold lo) = hi then
        equalFoldLoop n (s.drop ssize) (t.drop tsize)
      else false

/-- Go `strings.EqualFold`. -/
def EqualFold (s t : Bytes) : Bool := equalFoldLoop s.length s t

/-- Go `textproto.validHeaderFieldByte`: the token characters of RFC 7230. -/
def validHeaderFieldByte (c : Nat) : Bool :=
  (0x30 ≤ c ∧ c ≤ 0x39) ∨ (0x41 ≤ c ∧ c ≤ 0x5A) ∨ (0x61 ≤ c ∧ c ≤ 0x7A) ∨
    c ∈ [0x21, 0x23, 0x24, 0x25, 0x26, 0x27, 0x2A, 0x2B, 0x2D, 0x2E, 0x5E, 0x5F, 0x60, 0x7C, 0x7E]

/-- The canonicalising loop of `textproto.canonicalMIMEHeaderKey`: upper case for
the first letter and after each `-`, lower case elsewhere. -/
def canonicalLoop : Bool → Bytes → Bytes
  | _, [] => []
  | upper, c :: rest =>
    let c1 := if upper ∧ 0x61 ≤ c ∧ c ≤ 0x7A then c - 32
      else if ¬ upper ∧ 0x41 ≤ c ∧ c ≤ 0x5A then c + 32 else c
    c1 :: canonicalLoop (c1 = 0x2D) rest

/-- Go `textproto.CanonicalMIMEHeaderKey`: a key holding a byte that is not a
token character is returned as it is. -/
def CanonicalMIMEHeaderKey (s : Bytes) : Bytes :=
  if s.all validHeaderFieldByte then canonicalLoop true s else s

/-- Go `http.Header`, a `map[string][]string`, as an association list. -/
abbrev Header := List (Bytes × List Bytes)

/-- Go `Header.Get`: the first value under the canonical form of `key`, or `""`. -/
def Header.Get (h : Header) (key : Bytes) : Bytes :=
  match h.lookup (CanonicalMIMEHeaderKey key) with
  | some (v :: _) => v
  | _ => []

/-- Go `Header.Add`: appends `value` to the values under the canonical key. -/
def Header.Add (h : Header) (key value : Bytes) : Header :=
  let k := CanonicalMIMEHeaderKey key
  match h.lookup k with
  | some vs => h.map fun kv => if kv.1 = k then (kv.1, vs ++ [value]) else kv
  | none => h ++ [(k, [value])]

/-- The part of an `*http.Request` that `New` reads. `Body` is what
`ioutil.ReadAll(req.Body)` returns: the bytes read and the reader's error, if any. -/
structure Request where
  Method : Bytes
  Header : Header
  Body : Bytes × Option Error
deriving DecidableEq, Repr

/-- Go `http.NewRequest(method, url, strings.NewReader(body))`, as far as `New` sees it. -/
def NewRequest (method body : Bytes) : Request :=
  { Method := method, Header := [], Body := (body, none) }

/-! ## `encoding/json`: the scanner

`json.Unmarshal` first runs `checkValid` over the whole input and then decodes the
value with the same scanner. Here one pass reads the input into a tree that keeps
the text of every value, which is what the decoder hands to `UnmarshalJSON` and to
`strconv.ParseInt`. -/

/-- A JSON value as the decoder sees it. `number` and `string` hold the literal
as written (a string with its quotes), `array` and `object` the whole text of the
value from the opening bracket to where the scanner closed it; the key of a member
is the string literal as written. -/
inductive JSON where
  | null
  | bool (b : Bool)
  | number (lit : Bytes)
  | string (lit : Bytes)
  | array (raw : Bytes) (items : List JSON)
  | object (raw : Bytes) (members : List (Bytes × JSON))
deriving Repr

/-- The text of a value, `d.data[start:d.readIndex()]`. -/
def JSON.raw : JSON → Bytes
  | .null => str "null"
  | .bool true => str "true"
  | .bool false => str "false"
  | .number lit => lit
  | .string lit => lit
  | .array raw _ => raw
  | .object raw _ => raw

mutual
/-- Equality of JSON values, computed. -/
def JSON.beq : JSON → JSON → Bool
  | .null, .null => true
  | .bool a, .bool b => a == b
  | .number a, .number b => a == b
  | .string a, .string b => a == b
  | .array r xs, .array r' ys => r == r' && JSON.beqList xs ys
  | .object r xs, .object r' ys => r == r' && JSON.beqMembers xs ys
  | _, _ => false
/-- Equality of lists of JSON values, computed. -/
def JSON.beqList : List JSON → List JSON → Bool
  | [], [] => true
  | x :: xs, y :: ys => JSON.beq x y && JSON.beqList xs ys
  | _, _ => false
/-- Equality of lists of members, computed. -/
def JSON.beqMembers : List (Bytes × JSON) → List (Bytes × JSON) → Bool
  | [], [] => true
  | (k, x) :: xs, (k', y) :: ys => k == k' && JSON.beq x y && JSON.beqMembers xs ys
  | _, _ => false
end

/-- A JSON value that is not an integer number and not `null`: a string, a
boolean, an array, an object, or a number written with a fraction or an exponent. -/
def JSON.isNonInteger : JSON → Bool
  | .null => false
  | .bool _ => true
  | .number lit => lit.any fun c => c = 0x2E ∨ c = 0x65 ∨ c = 0x45
  | .string _ => true
  | .array _ _ => true
  | .object _ _ => true

/-- Go `isSpace` of the scanner: space, tab, carriage return, line feed. -/
def isSpace (c : Nat) : Bool := c = 0x20 ∨ c = 0x09 ∨ c = 0x0D ∨ c = 0x0A

/-- Skips the white space the scanner skips between tokens. -/
def skipSpace : Bytes → Bytes
  | [] => []
  | c :: rest => if isSpace c then skipSpace rest else c :: rest

/-- A decimal digit. -/
def isDigit (c : Nat) : Bool := 0x30 ≤ c ∧ c ≤ 0x39

/-- A hexadecimal digit, as the scanner accepts after `\u`. -/
def isHex (c : Nat) : Bool :=
  (0x30 ≤ c ∧ c ≤ 0x39) ∨ (0x61 ≤ c ∧ c ≤ 0x66) ∨ (0x41 ≤ c ∧ c ≤ 0x46)

/-- The scanner inside a string (`stateInString` and the escape states), from
the byte after the opening quote: the text up to and including the closing quote,
and what follows it. A byte below `0x20` or a wrong escape is a syntax error. -/
def scanString : Bytes → Option (Bytes × Bytes)
  | [] => none
  | 0x22 :: rest => some ([0x22], rest)
  | 0x5C :: 0x75 :: a :: b :: c :: d :: rest =>
    if isHex a ∧ isHex b ∧ isHex c ∧ isHex d then
      (scanString rest).map fun r => (0x5C :: 0x75 :: a :: b :: c :: d :: r.1, r.2)
    else none
  | 0x5C :: e :: rest =>
    if e ∈ [0x62, 0x66, 0x6E, 0x72, 0x74, 0x5C, 0x2F, 0x22] then
      (scanString rest).map fun r => (0x5C :: e :: r.1, r.2)
    else none
  | c :: rest =>
    if c < 0x20 ∨ c = 0x5C then none
    else (scanString rest).map fun r => (c :: r.1, r.2)

/-- The longest run of decimal digits at the start of the input, and the rest. -/
def spanDigits : Bytes → Bytes × Bytes
  | [] => ([], [])
  | c :: rest =>
    if isDigit c then ((spanDigits rest).map (fun ds => c :: ds) id) else ([], c :: rest)

/-- The integer part of a number (`state0`, `state1`): `0`, or a digit from `1`
to `9` followed by digits. -/
def scanInt : Bytes → Option (Bytes × Bytes)
  | [] => none
  | c :: r =>
    if c = 0x30 then some ([0x30], r)
    else if isDigit c then some (c :: (spanDigits r).1, (spanDigits r).2)
    else none

/-- The optional fraction of a number (`stateDot`, `stateDot0`): `.` and at least
one digit. -/
def scanFrac : Bytes → Option (Bytes × Bytes)
  | [] => some ([], [])
  | c :: r =>
    if c = 0x2E then
      if (spanDigits r).1 = [] then none else some (0x2E :: (spanDigits r).1, (spanDigits r).2)
    else some ([], c :: r)

/-- The digits of an exponent after `e` and the optional sign (`stateESign`,
`stateE0`): at least one. -/
def scanExpDigits (lead r : Bytes) : Option (Bytes × Bytes) :=
  if (spanDigits r).1 = [] then none else some (lead ++ (spanDigits r).1, (spanDigits r).2)

/-- The optional exponent of a number (`stateE`): `e` or `E`, an optional sign, at
least one digit. -/
def scanExp : Bytes → Option (Bytes × Bytes)
  | [] => some ([], [])
  | c :: r =>
    if c = 0x65 ∨ c = 0x45 then
      match r with
      | [] => none
      | s :: r3 =>
        if s = 0x2B ∨ s = 0x2D then scanExpDigits [c, s] r3 else scanExpDigits [c] (s :: r3)
    else some ([], c :: r)

/-- A number after its optional sign: integer part, fraction, exponent. -/
def scanUnsigned (sign r : Bytes) : Option (Bytes × Bytes) :=
  match scanInt r with
  | none => none
  | some (ip, r1) =>
    match scanFrac r1 with
    | none => none
    | some (fp, r2) =>
      match scanExp r2 with
      | none => none
      | some (ep, r3) => some (sign ++ ip ++ fp ++ ep, r3)

/-- The scanner on a number (`stateNeg`, `state0`, `state1`, `stateDot`, `stateE`
and their successors): the literal and what follows it. -/
def scanNumber : Bytes → Option (Bytes × Bytes)
  | [] => none
  | c :: r => if c = 0x2D then scanUnsigned [0x2D] r else scanUnsigned [] (c :: r)

/-- The constant `maxNestingDepth` of the scanner. -/
def maxNestingDepth : Nat := 10000

/-- The items of an array after the first value has been found to start at `inp`
(`pv` reads one value): values separated by `,` up to the closing `]`. `n` bounds
the number of items by the length of the input. -/
def parseItems (pv : Bytes → Option (JSON × Bytes)) : Nat → Bytes → Option (List JSON × Bytes)
  | 0, _ => none
  | n + 1, inp =>
    match pv inp with
    | none => none
    | some (v, rest) =>
      match skipSpace rest with
      | 0x2C :: rest1 => (parseItems pv n (skipSpace rest1)).map fun r => (v :: r.1, r.2)
      | 0x5D :: rest1 => some ([v], rest1)
      | _ => none

/-- The members of an object once the first key has been found to start at `inp`:
`"key" : value` separated by `,` up to the closing `}`. -/
def parseMembers (pv : Bytes → Option (JSON × Bytes)) :
    Nat → Bytes → Option (List (Bytes × JSON) × Bytes)
  | 0, _ => none
  | n + 1, inp =>
    match inp with
    | 0x22 :: rest =>
      match scanString rest with
      | none => none
      | some (k, rest1) =>
        match skipSpace rest1 with
        | 0x3A :: rest2 =>
          match pv (skipSpace rest2) with
          | none => none
          | some (v, rest3) =>
            match skipSpace rest3 with
            | 0x2C :: rest4 =>
              (parseMembers pv n (skipSpace rest4)).map fun r => ((0x22 :: k, v) :: r.1, r.2)
            | 0x7D :: rest4 => some ([(0x22 :: k, v)], rest4)
            | _ => none
        | _ => none
    | _ => none

/-- One JSON value at the start of `inp` (white space already skipped) and the
input after it, by the first byte as in `stateBeginValue`. `depth` is how many
more arrays and objects may be opened around a value before the scanner reports
`exceeded max depth`. -/
def parseValue : Nat → Bytes → Option (JSON × Bytes)
  | depth, inp =>
    match inp with
    | [] => none
    | c :: rest =>
      if c = 0x22 then (scanString rest).map fun r => (JSON.string (0x22 :: r.1), r.2)
      else if c = 0x74 then
        match rest with
        | 0x72 :: 0x75 :: 0x65 :: rest1 => some (JSON.bool true, rest1)
        | _ => none
      else if c = 0x66 then
        match rest with
        | 0x61 :: 0x6C :: 0x73 :: 0x65 :: rest1 => some (JSON.bool false, rest1)
        | _ => none
      else if c = 0x6E then
        match rest with
        | 0x75 :: 0x6C :: 0x6C :: rest1 => some (JSON.null, rest1)
        | _ => none
      else if c = 0x5B then
        match depth with
        | 0 => none
        | d + 1 =>
          match skipSpace rest with
          | 0x5D :: rest1 =>
            some (JSON.array (0x5B :: rest.take (rest.length - rest1.length)) [], rest1)
          | rest1 =>
            (parseItems (parseValue d) rest1.length rest1).map fun r =>
              (JSON.array (0x5B :: rest.take (rest.length - r.2.length)) r.1, r.2)
      else if c = 0x7B then
        match depth with
        | 0 => none
        | d + 1 =>
          match skipSpace rest with
          | 0x7D :: rest1 =>
            some (JSON.object (0x7B :: rest.take (rest.length - rest1.length)) [], rest1)
          | rest1 =>
            (parseMembers (parseValue d) rest1.length rest1).map fun r =>
              (JSON.object (0x7B :: rest.take (rest.length - r.2.length)) r.1, r.2)
      else (scanNumber inp).map fun r => (JSON.number r.1, r.2)

/-- Go `checkValid` together with the reading of the value: white space, one value,
white space, end of input. `none` is a `*json.SyntaxError`. -/
def parseJSON (data : Bytes) : Option JSON :=
  match parseValue maxNestingDepth (skipSpace data) with
  | some (v, rest) => if (skipSpace rest).isEmpty then some v else none
  | none => none

/-- Whether the text kept for a value starts with the byte that opens a value
of its kind: a quote for a string, a digit or a minus sign for a number, a
bracket for an array, a brace for an object. -/
def JSON.wellStarted : JSON → Bool
  | .null => true
  | .bool _ => true
  | .number lit =>
    match lit with
    | c :: _ => isDigit c || c == 0x2D
    | [] => false
  | .string lit => lit.head? == some 0x22
  | .array raw _ => raw.head? == some 0x5B
  | .object raw _ => raw.head? == some 0x7B

/-- The value `v` is one the scanner has read from some input. -/
def JSON.scanned (v : JSON) : Prop :=
  ∃ depth inp rest, parseValue depth inp = some (v, rest)

/-- Whether `data` is valid JSON that the scanner reads as the value `v`. -/
def parsesTo (data : Bytes) (v : JSON) : Bool :=
  match parseJSON data with
  | some w => JSON.beq w v
  | none => false

/-! ## `encoding/json`: strings and numbers -/

/-- The value of a hexadecimal digit. -/
def hexVal (c : Nat) : Nat :=
  if 0x30 ≤ c ∧ c ≤ 0x39 then c - 0x30
  else if 0x61 ≤ c ∧ c ≤ 0x66 then c - 0x61 + 10
  else if 0x41 ≤ c ∧ c ≤ 0x46 then c - 0x41 + 10
  else 0

/-- Go `getu4`: the code unit of a `\uXXXX` escape at the start of `s`, or `none`
(Go returns `-1`). -/
def getu4 : Bytes → Option Nat
  | 0x5C :: 0x75 :: a :: b :: c :: d :: _ =>
    if isHex a ∧ isHex b ∧ isHex c ∧ isHex d then
      some (hexVal a * 4096 + hexVal b * 256 + hexVal c * 16 + hexVal d)
    else none
  | _ => none

/-- Go `utf16.DecodeRune(r1, r2)`: the rune of a surrogate pair, U+FFFD when the
two code units are not one. -/
def utf16DecodeRune (r1 : Nat) (r2 : Option Nat) : Nat :=
  match r2 with
  | some r2 =>
    if 0xD800 ≤ r1 ∧ r1 < 0xDC00 ∧ 0xDC00 ≤ r2 ∧ r2 < 0xE000 then
      (((r1 - 0xD800) <<< 10) ||| (r2 - 0xDC00)) + 0x10000
    else RuneError
  | none => RuneError

/-- The main loop of Go `unquoteBytes` over the text between the quotes
(`for r < len(s)`): escapes are replaced, invalid UTF-8 is coerced to U+FFFD;
`none` where Go returns `ok = false`. Every round consumes at least one byte, so
the length of the text bounds the number of rounds. -/
def unquoteLoop : Nat → Bytes → Option Bytes
  | 0, s => if s.isEmpty then some [] else none
  | fuel + 1, s =>
    match s with
    | [] => some []
    | c :: rest =>
      if c = 0x5C then
        match rest with
        | [] => none
        | e :: rest1 =>
          if e = 0x75 then
            match getu4 s with
            | none => none
            | some rr =>
              if 0xD800 ≤ rr ∧ rr < 0xE000 then
                -- a surrogate: a valid pair consumes the next escape as well
                let dec := utf16DecodeRune rr (getu4 (s.drop 6))
                if dec ≠ RuneError then
                  (unquoteLoop fuel (s.drop 12)).map fun t => encodeRune dec ++ t
                else (unquoteLoop fuel (s.drop 6)).map fun t => encodeRune RuneError ++ t
              else (unquoteLoop fuel (s.drop 6)).map fun t => encodeRune rr ++ t
          else
            let out : Option Nat :=
              if e = 0x22 ∨ e = 0x5C ∨ e = 0x2F ∨ e = 0x27 then some e
              else if e = 0x62 then some 0x08
              else if e = 0x66 then some 0x0C
              else if e = 0x6E then some 0x0A
              else if e = 0x72 then some 0x0D
              else if e = 0x74 then some 0x09
              else none
            match out with
            | none => none
            | some b => (unquoteLoop fuel rest1).map fun t => b :: t
      else if c = 0x22 ∨ c < 0x20 then none
      else if c < 0x80 then (unquoteLoop fuel rest).map fun t => c :: t
      else
        -- coerce to well-formed UTF-8: one rune is decoded and encoded again
        (unquoteLoop fuel (s.drop (decodeRune s).2)).map fun t =>
          encodeRune (decodeRune s).1 ++ t

/-- Go `unquoteBytes`: the value of a quoted JSON string literal. -/
def unquoteBytes (s : Bytes) : Option Bytes :=
  match s with
  | 0x22 :: rest =>
    if rest.getLast? = some 0x22 then unquoteLoop rest.length rest.dropLast else none
  | _ => none

/-- The text between the quotes of a string literal as the scanner accepts it:
`\\u` escapes with four hexadecimal digits, the eight simple escapes, and any
other byte from `0x20` on except the quote and the backslash. -/
inductive StringBody : Bytes → Prop where
  | nil : StringBody []
  | unicode (a b c d : Nat) (rest : Bytes) :
    isHex a = true ∧ isHex b = true ∧ isHex c = true ∧ isHex d = true →
    StringBody rest → StringBody (0x5C :: 0x75 :: a :: b :: c :: d :: rest)
  | escape (e : Nat) (rest : Bytes) :
    e ∈ [0x62, 0x66, 0x6E, 0x72, 0x74, 0x5C, 0x2F, 0x22] →
    StringBody rest → StringBody (0x5C :: e :: rest)
  | plain (c : Nat) (rest : Bytes) :
    ¬ (c < 0x20 ∨ c = 0x5C) → c ≠ 0x22 → StringBody rest → StringBody (c :: rest)

/-- The value of a run of decimal digits. -/
def digitsValue (ds : Bytes) : Nat := ds.foldl (fun n c => 10 * n + (c - 0x30)) 0

/-- Go `strconv.ParseInt` after the sign: `ParseUint` on the digits (a syntax
error when there is none or one is not a decimal digit) and the range check of
`int64` for the sign `neg`. -/
def parseIntDigits (neg : Bool) (ds : Bytes) : Option Int :=
  if ds.isEmpty ∨ ¬ ds.all isDigit then none
  else if ¬ neg ∧ digitsValue ds ≥ 2 ^ 63 then none
  else if neg ∧ digitsValue ds > 2 ^ 63 then none
  else some (if neg then -(digitsValue ds : Int) else (digitsValue ds : Int))

/-- Go `strconv.ParseInt(s, 10, 64)`: an optional sign and decimal digits, within
the range of `int64`; `none` for a syntax or range error. -/
def ParseInt : Bytes → Option Int
  | [] => none
  | c :: r =>
    if c = 0x2B then parseIntDigits false r
    else if c = 0x2D then parseIntDigits true r
    else parseIntDigits false (c :: r)

/-- The digit loop of Go `strconv.formatBits` in base 10: the digits of `n`, most
significant first, in front of `acc`. A `uint64` has at most 20 digits. -/
def formatBits : Nat → Nat → Bytes → Bytes
  | 0, _, acc => acc
  | fuel + 1, n, acc =>
    if n < 10 then (0x30 + n) :: acc else formatBits fuel (n / 10) ((0x30 + n % 10) :: acc)

/-- Go `strconv.FormatInt(i, 10)` for an `int64`. -/
def FormatInt (i : Int) : Bytes :=
  if i < 0 then 0x2D :: formatBits 20 (-i).toNat [] else formatBits 20 i.toNat []

/-- The hexadecimal digit `hex[v]` of the encoder. -/
def hexDigit (v : Nat) : Nat := (str "0123456789abcdef").getD (v % 16) 0

/-- The loop of the encoder's `appendString` with HTML escaping on, which is what
`json.Marshal` uses: quotes, backslashes, control characters, `<`, `>`, `&`,
U+2028, U+2029 and invalid UTF-8 are escaped. -/
def appendStringLoop : Bytes → Bytes
  | [] => []
  | c :: rest =>
    if c < 0x80 then
      if 0x20 ≤ c ∧ c ≠ 0x22 ∧ c ≠ 0x5C ∧ c ≠ 0x3C ∧ c ≠ 0x3E ∧ c ≠ 0x26 then
        c :: appendStringLoop rest
      else if c = 0x5C ∨ c = 0x22 then 0x5C :: c :: appendStringLoop rest
      else if c = 0x08 then 0x5C :: 0x62 :: appendStringLoop rest
      else if c = 0x0C then 0x5C :: 0x66 :: appendStringLoop rest
      else if c = 0x0A then 0x5C :: 0x6E :: appendStringLoop rest
      else if c = 0x0D then 0x5C :: 0x72 :: appendStringLoop rest
      else if c = 0x09 then 0x5C :: 0x74 :: appendStringLoop rest
      else
        0x5C :: 0x75 :: 0x30 :: 0x30 :: hexDigit (c >>> 4) :: hexDigit (c &&& 0xF) ::
          appendStringLoop rest
    else
      let (rr, size) := decodeRune (c :: rest)
      match size, rest with
      | 2, b1 :: r => c :: b1 :: appendStringLoop r
      | 3, b1 :: b2 :: r =>
        if rr = 0x2028 ∨ rr = 0x2029 then
          str "\\u202" ++ hexDigit (rr &&& 0xF) :: appendStringLoop r
        else c :: b1 :: b2 :: appendStringLoop r
      | 4, b1 :: b2 :: b3 :: r => c :: b1 :: b2 :: b3 :: appendStringLoop r
      | _, r => str "\\ufffd" ++ appendStringLoop r

/-- Go `json.Marshal(s)` for a `string`: never an error. -/
def MarshalString (s : Bytes) : Bytes × Option Error :=
  (0x22 :: appendStringLoop s ++ [0x22], none)

/-- Go `json.Marshal(i)` for an `int64`: never an error. -/
def MarshalInt64 (i : Int) : Bytes × Option Error :=
  (FormatInt i, none)

/-! ## `time` -/

/-- Wraps an integer into the range of `int64` (two's complement). -/
def wrapInt64 (x : Int) : Int := (x + 2 ^ 63) % 2 ^ 64 - 2 ^ 63

/-- The `*time.Location` of a `time.Time`: `nil` (UTC) or `&localLoc`. -/
inductive Location where
  | UTC
  | Local
deriving DecidableEq, Repr

/-- Go `time.Time`: `wall` (a `uint64`: the `hasMonotonic` flag, 33 bits of
seconds, 30 bits of nanoseconds), `ext` (an `int64`: with the flag clear, the
seconds since January 1, year 1) and the location. -/
structure GoTime where
  wall : Nat
  ext : Int
  loc : Location
deriving DecidableEq, Repr

/-- The zero `time.Time`, January 1, year 1, 00:00:00 UTC. -/
def GoTime.zero : GoTime := { wall := 0, ext := 0, loc := Location.UTC }

/-- The constant `unixToInternal`: seconds from year 1 to 1970. -/
def unixToInternal : Int := (1969 * 365 + 1969 / 4 - 1969 / 100 + 1969 / 400) * 86400

/-- The constant `wallToInternal`: seconds from year 1 to 1885. -/
def wallToInternal : Int := (1884 * 365 + 1884 / 4 - 1884 / 100 + 1884 / 400) * 86400

/-- Go `time.Unix(sec, nsec)` for `int64` arguments: `nsec` outside `[0, 1e9)` is
carried into `sec`; the result is in the local location. -/
def timeUnix (sec nsec : Int) : GoTime :=
  let (sec, nsec) :=
    if nsec < 0 ∨ nsec ≥ 1000000000 then
      let n := Int.tdiv nsec 1000000000
      let sec1 := wrapInt64 (sec + n)
      let nsec1 := nsec - n * 1000000000
      if nsec1 < 0 then (wrapInt64 (sec1 - 1), nsec1 + 1000000000) else (sec1, nsec1)
    else (sec, nsec)
  { wall := nsec.toNat, ext := wrapInt64 (sec + unixToInternal), loc := Location.Local }

/-- Go `(*Time).sec`: seconds since January 1, year 1. -/
def GoTime.sec (t : GoTime) : Int :=
  if t.wall &&& 2 ^ 63 ≠ 0 then wallToInternal + (((t.wall <<< 1) % 2 ^ 64) >>> 31 : Nat)
  else t.ext

/-- Go `Time.Unix`: seconds since January 1, 1970 UTC, as an `int64`. -/
def GoTime.Unix (t : GoTime) : Int := wrapInt64 (t.sec - unixToInternal)

/-- Go `Time.Nanosecond`: the nanosecond offset within the second. -/
def GoTime.Nanosecond (t : GoTime) : Nat := t.wall &&& (2 ^ 30 - 1)

/-- Go `Time.UnixNano` before the result is cut to an `int64`: the instant in
nanoseconds since January 1, 1970 UTC, `(t.sec() - unixToInternal)*1e9 + t.nsec()`. -/
def GoTime.unixNanoseconds (t : GoTime) : Int :=
  (t.sec - unixToInternal) * 1000000000 + t.Nanosecond

/-- The Unix time of the instant in seconds, the fraction of a second cut off toward
zero: the conversion as the specification words it. -/
def GoTime.truncatedUnix (t : GoTime) : Int := Int.tdiv t.unixNanoseconds 1000000000

/-! ## The types of the package -/

/-- Go `type EventType int`: any value of the machine integer type. -/
abbrev EventType := Int

/-- The constant `MessageCreated = iota`. -/
def MessageCreated : EventType := 0

/-- The constant `MessageUpdated`. -/
def MessageUpdated : EventType := 1

/-- The constant `MentionToMe`. -/
def MentionToMe : EventType := 2

/-- Go `type Time struct { time.Time }`. -/
structure Time where
  Time : GoTime
deriving DecidableEq, Repr

/-- Go `WebhookEvent`: every field is a pointer, `none` is `nil`. -/
structure WebhookEvent where
  MessageID : Option Bytes
  RoomID : Option Int
  Body : Option Bytes
  SendTime : Option Time
  UpdateTime : Option Time
  AccountID : Option Int
  FromAccountID : Option Int
  ToAccountID : Option Int
deriving DecidableEq, Repr

/-- Go `WebhookPayload`; the field `Type` is written `Typ` here. -/
structure WebhookPayload where
  SettingID : Bytes
  Typ : EventType
  Time : Time
  Event : WebhookEvent
deriving DecidableEq, Repr

/-- Go `Hook`. -/
structure Hook where
  Signature : Bytes
  RawPayload : Bytes
  Payload : WebhookPayload
deriving DecidableEq, Repr

/-- The zero value of `Time`. -/
def Time.zero : Chatworkhook.Time := { Time := GoTime.zero }

/-- The zero value of `WebhookEvent`: every pointer is `nil`. -/
def WebhookEvent.zero : WebhookEvent :=
  { MessageID := none, RoomID := none, Body := none, SendTime := none, UpdateTime := none,
    AccountID := none, FromAccountID := none, ToAccountID := none }

/-- The zero value of `WebhookPayload`, what `var payload WebhookPayload` declares. -/
def WebhookPayload.zero : WebhookPayload :=
  { SettingID := [], Typ := 0, Time := Chatworkhook.Time.zero, Event := WebhookEvent.zero }

/-! ## `Hook.SignedBy` and `New` -/

/-- Go `(h *Hook) SignedBy(secret)`: `none` is the `nil` error. -/
def Hook.SignedBy (h : Hook) (secret : Bytes) : Option Error :=
  match DecodeString secret with
  | (_, some offset) => some (Error.corruptInput offset)
  | (key, none) =>
    let expectedSignature := EncodeToString (hmacSHA256 key h.RawPayload)
    if h.Signature ≠ expectedSignature then some (Error.errorString (str "invalid signature"))
    else none

/-- Go `New(req)`: the hook (`none` is the `nil` pointer) and the error. -/
def New (req : Request) : Option Hook × Option Error :=
  if ¬ EqualFold req.Method (str "POST") then (none, some (Error.errorString (str "unknown method")))
  else
    let signature := req.Header.Get (str "X-ChatWorkWebhookSignature")
    if signature.length = 0 then (none, some (Error.errorString (str "no signature")))
    else
      (some { Signature := signature, RawPayload := req.Body.1, Payload := WebhookPayload.zero },
        req.Body.2)

/-! ## `EventType` and `Time` as JSON -/

/-- Go `(e EventType) String()`. -/
def EventType.String (e : EventType) : Bytes :=
  if e = MessageCreated then str "message_created"
  else if e = MessageUpdated then str "message_updated"
  else if e = MentionToMe then str "mention_to_me"
  else str "unknown"

/-- Go `(e EventType) MarshalJSON()`. -/
def EventType.MarshalJSON (e : EventType) : Bytes × Option Error :=
  MarshalString (EventType.String e)

/-- The `*json.UnmarshalTypeError` for a JSON value of the given kind and a Go type. -/
def typeError (v : JSON) (goType : String) : Error :=
  match v with
  | .null => Error.unmarshalType (str "null") (str goType)
  | .bool _ => Error.unmarshalType (str "bool") (str goType)
  | .number _ => Error.unmarshalType (str "number") (str goType)
  | .string _ => Error.unmarshalType (str "string") (str goType)
  | .array _ _ => Error.unmarshalType (str "array") (str goType)
  | .object _ _ => Error.unmarshalType (str "object") (str goType)

/-- The decoder storing a JSON value into a Go `string` holding `cur`
(`literalStore`, `array`, `object` on a value of kind `reflect.String`): the new
value and the error the decoder saves, if any. `null` leaves the string as it is.
A literal that does not unquote cannot come from the scanner (Go panics there). -/
def storeString (v : JSON) (cur : Bytes) : Bytes × Option Error :=
  match v with
  | .null => (cur, none)
  | .string lit =>
    match unquoteBytes lit with
    | some t => (t, none)
    | none => (cur, some Error.invalidJSON)
  | _ => (cur, some (typeError v "string"))

/-- The decoder storing a JSON value into a Go integer of `bits` bits holding
`cur`: a number is read by `strconv.ParseInt` from its literal, so a fraction, an
exponent or a value out of range is a type error. `null` leaves it as it is. -/
def storeInt (bits : Nat) (goType : String) (v : JSON) (cur : Int) : Int × Option Error :=
  match v with
  | .null => (cur, none)
  | .number lit =>
    match ParseInt lit with
    | some n =>
      if n < -(2 ^ (bits - 1) : Int) ∨ n ≥ (2 ^ (bits - 1) : Int) then
        (cur, some (Error.unmarshalType (str "number " ++ lit) (str goType)))
      else (n, none)
    | none => (cur, some (Error.unmarshalType (str "number " ++ lit) (str goType)))
  | _ => (cur, some (typeError v goType))

/-- Go `json.Unmarshal(data, &s)` for `var s string` holding `cur`. -/
def UnmarshalString (data : Bytes) (cur : Bytes) : Bytes × Option Error :=
  match parseJSON data with
  | none => (cur, some Error.invalidJSON)
  | some v => storeString v cur

/-- Go `json.Unmarshal(data, &s)` for `var s int64` holding `cur`. -/
def UnmarshalInt64 (data : Bytes) (cur : Int) : Int × Option Error :=
  match parseJSON data with
  | none => (cur, some Error.invalidJSON)
  | some v => storeInt 64 "int64" v cur

/-- Go `(e *EventType) UnmarshalJSON(data)`: the value of `*e` after the call and
the error. -/
def EventType.UnmarshalJSON (e : EventType) (data : Bytes) : EventType × Option Error :=
  match UnmarshalString data [] with
  | (_, some _) => (e, some (Error.errorString (str "data should be a string, got " ++ data)))
  | (s, none) =>
    if s = str "message_created" then (MessageCreated, none)
    else if s = str "message_updated" then (MessageUpdated, none)
    else if s = str "mention_to_me" then (MentionToMe, none)
    else (e, some (Error.errorString (str "invalid EventType " ++ s)))

/-- Go `(t *Time) MarshalJSON()`. -/
def Time.MarshalJSON (t : Chatworkhook.Time) : Bytes × Option Error :=
  MarshalInt64 t.Time.Unix

/-- Go `(t *Time) UnmarshalJSON(data)`: the value of `*t` after the call and the
error. -/
def Time.UnmarshalJSON (t : Chatworkhook.Time) (data : Bytes) :
    Chatworkhook.Time × Option Error :=
  match UnmarshalInt64 data 0 with
  | (_, some _) => (t, some (Error.errorString (str "data should be number, got " ++ data)))
  | (s, none) => ({ Time := timeUnix s 0 }, none)

/-! ## `encoding/json`: decoding into `WebhookPayload` -/

/-- The loop of Go `foldRune`: the smallest rune of the fold orbit of `r`. -/
def foldRuneLoop : Nat → Nat → Nat
  | 0, r => r
  | n + 1, r => if SimpleFold r ≤ r then SimpleFold r else foldRuneLoop n (SimpleFold r)

/-- Go `foldRune` of the decoder. -/
def foldRune (r : Nat) : Nat := foldRuneLoop 4 r

/-- Go `foldName` of the decoder: ASCII letters in upper case, every other rune
replaced by the smallest rune of its fold orbit. -/
def foldName : Bytes → Bytes
  | [] => []
  | c :: rest =>
    if c < 0x80 then (if 0x61 ≤ c ∧ c ≤ 0x7A then c - 32 else c) :: foldName rest
    else
      let (r, size) := decodeRune (c :: rest)
      match size, rest with
      | 2, _ :: rest1 => encodeRune (foldRune r) ++ foldName rest1
      | 3, _ :: _ :: rest1 => encodeRune (foldRune r) ++ foldName rest1
      | 4, _ :: _ :: _ :: rest1 => encodeRune (foldRune r) ++ foldName rest1
      | _, rest1 => encodeRune (foldRune r) ++ foldName rest1

/-- The field of a struct that a JSON key selects: `fields.byExactName[key]`, and
failing that `fields.byFoldedName[foldName(key)]`. -/
def lookupField {α : Type} (fields : List (Bytes × α)) (key : Bytes) : Option α :=
  match fields.lookup key with
  | some f => some f
  | none => (fields.map fun nf => (foldName nf.1, nf.2)).lookup (foldName key)

/-- The fields of `WebhookEvent`. -/
inductive EventField where
  | MessageID
  | RoomID
  | Body
  | SendTime
  | UpdateTime
  | AccountID
  | FromAccountID
  | ToAccountID
deriving DecidableEq, Repr

/-- The fields of `WebhookPayload`. -/
inductive PayloadField where
  | SettingID
  | Typ
  | Time
  | Event
deriving DecidableEq, Repr

/-- The JSON names of the fields of `WebhookEvent`, from the struct tags. -/
def eventFields : List (Bytes × EventField) :=
  [(str "message_id", EventField.MessageID), (str "room_id", EventField.RoomID),
    (str "body", EventField.Body), (str "send_time", EventField.SendTime),
    (str "update_time", EventField.UpdateTime), (str "account_id", EventField.AccountID),
    (str "from_account_id", EventField.FromAccountID),
    (str "to_account_id", EventField.ToAccountID)]

/-- The JSON names of the fields of `WebhookPayload`, from the struct tags. -/
def payloadFields : List (Bytes × PayloadField) :=
  [(str "webhook_setting_id", PayloadField.SettingID),
    (str "webhook_event_type", PayloadField.Typ),
    (str "webhook_event_time", PayloadField.Time),
    (str "webhook_event", PayloadField.Event)]

/-- Go `(d *decodeState) saveError`: the first error saved is kept. -/
def saveError (saved new : Option Error) : Option Error :=
  match saved with
  | some e => some e
  | none => new

/-- The decoder on a `*string` field: `null` sets the pointer to `nil`; any other
value allocates the string when the pointer is `nil` (`indirect`) and stores into it. -/
def storeStringPtr (v : JSON) (cur : Option Bytes) : Option Bytes × Option Error :=
  match v with
  | .null => (none, none)
  | _ => (some (storeString v (cur.getD [])).1, (storeString v (cur.getD [])).2)

/-- The decoder on a `*int` field (`int` has 64 bits): as `storeStringPtr`. -/
def storeIntPtr (v : JSON) (cur : Option Int) : Option Int × Option Error :=
  match v with
  | .null => (none, none)
  | _ => (some (storeInt 64 "int" v (cur.getD 0)).1, (storeInt 64 "int" v (cur.getD 0)).2)

/-- The decoder on a `*Time` field: `null` sets the pointer to `nil`; any other
value allocates the `Time` when the pointer is `nil` and calls its `UnmarshalJSON`
with the text of the value. The error is the one `UnmarshalJSON` returns. -/
def storeTimePtr (v : JSON) (cur : Option Time) : Option Time × Option Error :=
  match v with
  | .null => (none, none)
  | _ =>
    (some (Time.UnmarshalJSON (cur.getD Time.zero) v.raw).1,
      (Time.UnmarshalJSON (cur.getD Time.zero) v.raw).2)

/-- What decoding one value does to the struct being filled. -/
structure Step (α : Type) where
  /-- The struct after the value has been stored. -/
  val : α
  /-- An error the decoder saves and goes on (`d.saveError`). -/
  saved : Option Error
  /-- An error returned by an `UnmarshalJSON` method, which stops the decoder. -/
  abort : Option Error

/-- Decoding the value `v` of a member into the field `f` of a `WebhookEvent`. -/
def storeEventField (f : EventField) (v : JSON) (ev : WebhookEvent) : Step WebhookEvent :=
  match f with
  | .MessageID =>
    { val := { ev with MessageID := (storeStringPtr v ev.MessageID).1 },
      saved := (storeStringPtr v ev.MessageID).2, abort := none }
  | .RoomID =>
    { val := { ev with RoomID := (storeIntPtr v ev.RoomID).1 },
      saved := (storeIntPtr v ev.RoomID).2, abort := none }
  | .Body =>
    { val := { ev with Body := (storeStringPtr v ev.Body).1 },
      saved := (storeStringPtr v ev.Body).2, abort := none }
  | .SendTime =>
    { val := { ev with SendTime := (storeTimePtr v ev.SendTime).1 },
      saved := none, abort := (storeTimePtr v ev.SendTime).2 }
  | .UpdateTime =>
    { val := { ev with UpdateTime := (storeTimePtr v ev.UpdateTime).1 },
      saved := none, abort := (storeTimePtr v ev.UpdateTime).2 }
  | .AccountID =>
    { val := { ev with AccountID := (storeIntPtr v ev.AccountID).1 },
      saved := (storeIntPtr v ev.AccountID).2, abort := none }
  | .FromAccountID =>
    { val := { ev with FromAccountID := (storeIntPtr v ev.FromAccountID).1 },
      saved := (storeIntPtr v ev.FromAccountID).2, abort := none }
  | .ToAccountID =>
    { val := { ev with ToAccountID := (storeIntPtr v ev.ToAccountID).1 },
      saved := (storeIntPtr v ev.ToAccountID).2, abort := none }

/-- The loop of `(d *decodeState) object` over the members of a JSON object decoded
into a `WebhookEvent`: a key that selects no field has its value skipped; an error
returned by `UnmarshalJSON` ends the loop. `saved` is `d.savedError`. -/
def objectEvent : List (Bytes × JSON) → WebhookEvent → Option Error → Step WebhookEvent
  | [], ev, saved => { val := ev, saved := saved, abort := none }
  | (k, v) :: ms, ev, saved =>
    match lookupField eventFields ((unquoteBytes k).getD []) with
    | none => objectEvent ms ev saved
    | some f =>
      match (storeEventField f v ev).abort with
      | some e => { val := (storeEventField f v ev).val, saved := saved, abort := some e }
      | none =>
        objectEvent ms (storeEventField f v ev).val
          (saveError saved (storeEventField f v ev).saved)

/-- Decoding a value into the field `Event`, a `WebhookEvent` struct: `null` is
ignored, an object is decoded member by member, anything else is a type error. -/
def storeEvent (v : JSON) (ev : WebhookEvent) (saved : Option Error) : Step WebhookEvent :=
  match v with
  | .null => { val := ev, saved := saved, abort := none }
  | .object _ ms => objectEvent ms ev saved
  | _ =>
    { val := ev, saved := saveError saved (some (typeError v "chatworkhook.WebhookEvent")),
      abort := none }

/-- Decoding the value `v` of a member into the field `f` of a `WebhookPayload`.
`Type` and `Time` have an `UnmarshalJSON` method, which gets the text of the value
whatever its kind, `null` included. -/
def storePayloadField (f : PayloadField) (v : JSON) (p : WebhookPayload)
    (saved : Option Error) : Step WebhookPayload :=
  match f with
  | .SettingID =>
    { val := { p with SettingID := (storeString v p.SettingID).1 },
      saved := saveError saved (storeString v p.SettingID).2, abort := none }
  | .Typ =>
    { val := { p with Typ := (EventType.UnmarshalJSON p.Typ v.raw).1 },
      saved := saved, abort := (EventType.UnmarshalJSON p.Typ v.raw).2 }
  | .Time =>
    { val := { p with Time := (Time.UnmarshalJSON p.Time v.raw).1 },
      saved := saved, abort := (Time.UnmarshalJSON p.Time v.raw).2 }
  | .Event =>
    { val := { p with Event := (storeEvent v p.Event saved).val },
      saved := (storeEvent v p.Event saved).saved, abort := (storeEvent v p.Event saved).abort }

/-- The loop of `(d *decodeState) object` over the members of a JSON object decoded
into a `WebhookPayload`. -/
def objectPayload : List (Bytes × JSON) → WebhookPayload → Option Error → Step WebhookPayload
  | [], p, saved => { val := p, saved := saved, abort := none }
  | (k, v) :: ms, p, saved =>
    match lookupField payloadFields ((unquoteBytes k).getD []) with
    | none => objectPayload ms p saved
    | some f =>
      match (storePayloadField f v p saved).abort with
      | some e =>
        { val := (storePayloadField f v p saved).val,
          saved := (storePayloadField f v p saved).saved, abort := some e }
      | none =>
        objectPayload ms (storePayloadField f v p saved).val (storePayloadField f v p saved).saved

/-- Go `json.Unmarshal(data, &payload)` for a `WebhookPayload` holding `payload`:
the payload after the call and the error. Invalid JSON is reported before anything
is stored; `null` stores nothing and is no error; an error of an `UnmarshalJSON`
method is returned as it is, otherwise the first saved type error. -/
def Unmarshal (data : Bytes) (payload : WebhookPayload) : WebhookPayload × Option Error :=
  match parseJSON data with
  | none => (payload, some Error.invalidJSON)
  | some JSON.null => (payload, none)
  | some (JSON.object _ ms) =>
    ((objectPayload ms payload none).val,
      match (objectPayload ms payload none).abort with
      | some e => some e
      | none => (objectPayload ms payload none).saved)
  | some v => (payload, some (typeError v "chatworkhook.WebhookPayload"))

/-- What one member of an event object does to the `WebhookEvent` being filled
when the decoder goes on after it. -/
def eventStep (ev : WebhookEvent) (m : Bytes × JSON) : WebhookEvent :=
  match lookupField eventFields ((unquoteBytes m.1).getD []) with
  | none => ev
  | some f => (storeEventField f m.2 ev).val

/-- What one member of a payload object does to the `WebhookPayload` being filled
when the decoder goes on after it. -/
def payloadStep (p : WebhookPayload) (m : Bytes × JSON) : WebhookPayload :=
  match lookupField payloadFields ((unquoteBytes m.1).getD []) with
  | none => p
  | some f => (storePayloadField f m.2 p none).val

/-- What a pointer field of `WebhookEvent` points to: a `string`, an `int` or a
`Time`. -/
inductive FieldValue where
  | string (s : Bytes)
  | int (n : Int)
  | time (t : Time)
deriving DecidableEq, Repr

/-- The field `f` of a `WebhookEvent` read by its name: `none` where the pointer
is `nil`, else the value it points to. -/
def WebhookEvent.get (ev : WebhookEvent) (f : EventField) : Option FieldValue :=
  match f with
  | .MessageID => ev.MessageID.map FieldValue.string
  | .RoomID => ev.RoomID.map FieldValue.int
  | .Body => ev.Body.map FieldValue.string
  | .SendTime => ev.SendTime.map FieldValue.time
  | .UpdateTime => ev.UpdateTime.map FieldValue.time
  | .AccountID => ev.AccountID.map FieldValue.int
  | .FromAccountID => ev.FromAccountID.map FieldValue.int
  | .ToAccountID => ev.ToAccountID.map FieldValue.int

/-! ## `Parse` -/

/-- Go `Parse(secret, req)`. The error of `hook.SignedBy(secret)` is assigned to
`err`, and the next statement assigns the result of `json.Unmarshal` to the same
variable. -/
def Parse (secret : Bytes) (req : Request) : Option Hook × Option Error :=
  match New req with
  | (hook, some err) => (hook, some err)
  | (none, none) => (none, none)
  | (some hook, none) =>
    -- `err = hook.SignedBy(secret)`
    let err := hook.SignedBy secret
    -- `var payload WebhookPayload`
    let payload := WebhookPayload.zero
    -- `err = json.Unmarshal(hook.RawPayload, &payload)`: the earlier value of `err` is lost
    let (payload, err) := (fun (_ : Option Error) => Unmarshal hook.RawPayload payload) err
    -- `hook.Payload = payload`
    (some { hook with Payload := payload }, err)

/-! ## The request of the tests -/

/-- The constant `testToken` of the tests. -/
def testToken : Bytes := str "A9ne+ygvdV0IZBaPFV2zC1e5Bk+IsI14BPwieRoBQNU="

/-- The `body` of `TestValidSignature` and `TestEventParse`. -/
def testBody : Bytes :=
  str ("\x7b\"webhook_setting_id\":\"246\",\"webhook_event_type\":\"message_created\"," ++
    "\"webhook_event_time\":1511238729,\"webhook_event\":\x7b\"message_id\":\"984676321621704704\"," ++
    "\"room_id\":36818150,\"account_id\":1484814,\"body\":\"test\",\"send_time\":1511238729," ++
    "\"update_time\":0\x7d\x7d")

/-- The `signature` of `TestValidSignature` and `TestEventParse`. -/
def testSignature : Bytes := str "G7Gtrh5Ee6d8erOVXhWPtUrkNJqqIT5vwLU50KhyLQk="

/-- A request built as the tests build theirs: `http.NewRequest("POST", "/path",
strings.NewReader(body))` and `r.Header.Add("X-ChatWorkWebhookSignature", signature)`. -/
def postRequest (body signature : Bytes) : Request :=
  let r := NewRequest (str "POST") body
  { r with Header := r.Header.Add (str "X-ChatWorkWebhookSignature") signature }

/-- The body of the tests with `webhook_event_time` set to `9223372036854775808`,
the first integer above the range of `int64`. -/
def bigTimeBody : Bytes :=
  str ("\x7b\"webhook_setting_id\":\"246\",\"webhook_event_type\":\"message_created\"," ++
    "\"webhook_event_time\":9223372036854775808,\"webhook_event\":\x7b" ++
    "\"message_id\":\"984676321621704704\"," ++
    "\"room_id\":36818150,\"account_id\":1484814,\"body\":\"test\",\"send_time\":1511238729," ++
    "\"update_time\":0\x7d\x7d")

/-- The text of the `webhook_event` object in the body of the tests. -/
def testEventText : Bytes :=
  str ("\x7b\"message_id\":\"984676321621704704\"," ++
    "\"room_id\":36818150,\"account_id\":1484814,\"body\":\"test\",\"send_time\":1511238729," ++
    "\"update_time\":0\x7d")

/-- The members of the `webhook_event` object in the body of the tests. -/
def testEventMembers : List (Bytes × JSON) :=
  [(str "\"message_id\"", JSON.string (str "\"984676321621704704\"")),
    (str "\"room_id\"", JSON.number (FormatInt 36818150)),
    (str "\"account_id\"", JSON.number (FormatInt 1484814)),
    (str "\"body\"", JSON.string (str "\"test\"")),
    (str "\"send_time\"", JSON.number (FormatInt 1511238729)),
    (str "\"update_time\"", JSON.number (FormatInt 0))]

/-- The members of the body of the tests. -/
def testMembers : List (Bytes × JSON) :=
  [(str "\"webhook_setting_id\"", JSON.string (str "\"246\"")),
    (str "\"webhook_event_type\"", JSON.string (EventType.MarshalJSON MessageCreated).1),
    (str "\"webhook_event_time\"", JSON.number (FormatInt 1511238729)),
    (str "\"webhook_event\"", JSON.object testEventText testEventMembers)]

/-- The hook that `New` fills in for a signature and a body: `new(Hook)` with the
two fields set, the payload still the zero value. -/
def newHook (signature body : Bytes) : Hook :=
  { Signature := signature, RawPayload := body, Payload := WebhookPayload.zero }

/-- The body of the tests with one byte changed: `"test"` has become `"tesu"`. -/
def tamperedBody : Bytes :=
  str ("\x7b\"webhook_setting_id\":\"246\",\"webhook_event_type\":\"message_created\"," ++
    "\"webhook_event_time\":1511238729,\"webhook_event\":\x7b\"message_id\":\"984676321621704704\"," ++
    "\"room_id\":36818150,\"account_id\":1484814,\"body\":\"tesu\",\"send_time\":1511238729," ++
    "\"update_time\":0\x7d\x7d")

/-- The signature of the tests with one byte changed: the last `k` has become `l`. -/
def tamperedSignature : Bytes := str "G7Gtrh5Ee6d8erOVXhWPtUrkNJqqIT5vwLU50KhyLQl="

/-- The payload that `TestEventParse` expects for the body of the tests. -/
def testPayload : WebhookPayload :=
  { SettingID := str "246", Typ := MessageCreated, Time := { Time := timeUnix 1511238729 0 },
    Event :=
      { MessageID := some (str "984676321621704704"), RoomID := some 36818150,
        Body := some (str "test"), SendTime := some { Time := timeUnix 1511238729 0 },
        UpdateTime := some { Time := timeUnix 0 0 }, AccountID := some 1484814,
        FromAccountID := none, ToAccountID := none } }

/-- The body `\x7b\x7d`: an object with no member. -/
def emptyObjectBody : Bytes := str "\x7b\x7d"

/-- A body whose only member is `webhook_event_type`, set to `message_created`. -/
def typeOnlyBody : Bytes := str "\x7b\"webhook_event_type\":\"message_created\"\x7d"

/-- The text of the `webhook_event` object of `mentionBody`. -/
def mentionEventText : Bytes :=
  str ("\x7b\"from_account_id\":1484814,\"to_account_id\":1484815,\"room_id\":36818150," ++
    "\"message_id\":\"984676321621704704\",\"body\":\"test\",\"send_time\":1511238729," ++
    "\"update_time\":0\x7d")

/-- A body of type `mention_to_me`: the event has no `account_id`, it has
`from_account_id` and `to_account_id`, and its `update_time` is `0`. -/
def mentionBody : Bytes :=
  str ("\x7b\"webhook_setting_id\":\"246\",\"webhook_event_type\":\"mention_to_me\"," ++
    "\"webhook_event_time\":1511238729,\"webhook_event\":") ++ mentionEventText ++ str "\x7d"

/-- The members of the `webhook_event` object of `mentionBody`. -/
def mentionEventMembers : List (Bytes × JSON) :=
  [(str "\"from_account_id\"", JSON.number (FormatInt 1484814)),
    (str "\"to_account_id\"", JSON.number (FormatInt 1484815)),
    (str "\"room_id\"", JSON.number (FormatInt 36818150)),
    (str "\"message_id\"", JSON.string (str "\"984676321621704704\"")),
    (str "\"body\"", JSON.string (str "\"test\"")),
    (str "\"send_time\"", JSON.number (FormatInt 1511238729)),
    (str "\"update_time\"", JSON.number (FormatInt 0))]

/-- The members of `mentionBody`. -/
def mentionMembers : List (Bytes × JSON) :=
  [(str "\"webhook_setting_id\"", JSON.string (str "\"246\"")),
    (str "\"webhook_event_type\"", JSON.string (EventType.MarshalJSON MentionToMe).1),
    (str "\"webhook_event_time\"", JSON.number (FormatInt 1511238729)),
    (str "\"webhook_event\"", JSON.object mentionEventText mentionEventMembers)]

/-! ## Equality of JSON values -/

mutual
theorem JSON.beq_sound : ∀ a b : JSON, JSON.beq a b = true → a = b
  | .null, .null, _ => rfl
  | .bool a, .bool b, h => by simp [JSON.beq] at h; simp [h]
  | .number a, .number b, h => by simp [JSON.beq] at h; simp [h]
  | .string a, .string b, h => by simp [JSON.beq] at h; simp [h]
  | .array r xs, .array r' ys, h => by
    simp [JSON.beq] at h
    have := JSON.beqList_sound xs ys h.2
    simp [h.1, this]
  | .object r xs, .object r' ys, h => by
    simp [JSON.beq] at h
    have := JSON.beqMembers_sound xs ys h.2
    simp [h.1, this]
  | .null, .bool _, h | .null, .number _, h | .null, .string _, h | .null, .array _ _, h
  | .null, .object _ _, h => by simp [JSON.beq] at h
  | .bool _, .null, h | .bool _, .number _, h | .bool _, .string _, h | .bool _, .array _ _, h
  | .bool _, .object _ _, h => by simp [JSON.beq] at h
  | .number _, .null, h | .number _, .bool _, h | .number _, .string _, h
  | .number _, .array _ _, h | .number _, .object _ _, h => by simp [JSON.beq] at h
  | .string _, .null, h | .string _, .bool _, h | .string _, .number _, h
  | .string _, .array _ _, h | .string _, .object _ _, h => by simp [JSON.beq] at h
  | .array _ _, .null, h | .array _ _, .bool _, h | .array _ _, .number _, h
  | .array _ _, .string _, h | .array _ _, .object _ _, h => by simp [JSON.beq] at h
  | .object _ _, .null, h | .object _ _, .bool _, h | .object _ _, .number _, h
  | .object _ _, .string _, h | .object _ _, .array _ _, h => by simp [JSON.beq] at h
theorem JSON.beqList_sound : ∀ a b : List JSON, JSON.beqList a b = true → a = b
  | [], [], _ => rfl
  | x :: xs, y :: ys, h => by
    simp [JSON.beqList] at h
    rw [JSON.beq_sound x y h.1, JSON.beqList_sound xs ys h.2]
  | [], _ :: _, h | _ :: _, [], h => by simp [JSON.beqList] at h
theorem JSON.beqMembers_sound :
    ∀ a b : List (Bytes × JSON), JSON.beqMembers a b = true → a = b
  | [], [], _ => rfl
  | (k, x) :: xs, (k', y) :: ys, h => by
    simp [JSON.beqMembers] at h
    rw [h.1.1, JSON.beq_sound x y h.1.2, JSON.beqMembers_sound xs ys h.2]
  | [], _ :: _, h | _ :: _, [], h => by simp [JSON.beqMembers] at h
end

/-- A computed `parsesTo` proves what the scanner reads. -/
theorem parseJSON_of_parsesTo {data : Bytes} {v : JSON} (h : parsesTo data v = true) :
    parseJSON data = some v := by
  unfold parsesTo at h
  rcases hp : parseJSON data with _ | w
  · simp [hp] at h
  · rw [hp] at h
    rw [JSON.beq_sound w v h]

/-- A computed `isNone` proves that the scanner refuses the input. -/
theorem parseJSON_of_isNone {data : Bytes} (h : (parseJSON data).isNone = true) :
    parseJSON data = none := by
  simpa using h

/-! ## Signature verification -/

/-- C1. `Hook.SignedBy` returns `nil` exactly when the secret decodes as standard
base64 to a key `k` and the signature equals the base64 encoding of
`HMAC-SHA256(k, RawPayload)`; a secret that does not decode gives the decode error,
whatever the signature and the payload are; a decoded secret with a different
signature gives the error `invalid signature`. -/
theorem SignedBy_correct (h : Hook) (secret : Bytes) :
    (h.SignedBy secret = none ↔
      ∃ k, DecodeString secret = (k, none) ∧
        h.Signature = EncodeToString (hmacSHA256 k h.RawPayload)) ∧
    (∀ partialOut offset, DecodeString secret = (partialOut, some offset) →
      h.SignedBy secret = some (Error.corruptInput offset)) ∧
    (∀ k, DecodeString secret = (k, none) →
      h.Signature ≠ EncodeToString (hmacSHA256 k h.RawPayload) →
      h.SignedBy secret = some (Error.errorString (str "invalid signature"))) := by
  unfold Hook.SignedBy
  rcases hd : DecodeString secret with ⟨k, _ | off⟩
  · refine ⟨?_, ?_, ?_⟩
    · constructor
      · intro hs
        refine ⟨k, rfl, ?_⟩
        by_contra hne
        simp [hne] at hs
      · rintro ⟨k', hk', hsig⟩
        simp only [Prod.mk.injEq, and_true] at hk'
        subst hk'
        simp [hsig]
    · intro p o ho
      simp at ho
    · intro k' hk' hne
      simp only [Prod.mk.injEq, and_true] at hk'
      subst hk'
      simp [hne]
  · refine ⟨?_, ?_, ?_⟩
    · constructor
      · intro hs
        simp at hs
      · rintro ⟨k', hk', _⟩
        simp at hk'
    · intro p o ho
      simp only [Prod.mk.injEq, Option.some.injEq] at ho
      simp [ho.2]
    · intro k' hk'
      simp at hk'

/-- The key of the tests decodes, and the signature of the tests is the one
`SignedBy` computes for the body of the tests. -/
theorem testSignature_expected :
    (DecodeString testToken).2 = none ∧
      EncodeToString (hmacSHA256 (DecodeString testToken).1 testBody) = testSignature := by
  set_option maxRecDepth 1000000 in decide!

/-- `SignedBy` once the secret is known to decode. -/
theorem SignedBy_of_decoded (h : Hook) (secret : Bytes) (hd : (DecodeString secret).2 = none) :
    h.SignedBy secret =
      if h.Signature ≠ EncodeToString (hmacSHA256 (DecodeString secret).1 h.RawPayload) then
        some (Error.errorString (str "invalid signature"))
      else none := by
  unfold Hook.SignedBy
  rcases hs : DecodeString secret with ⟨k, _ | off⟩
  · simp
  · rw [hs] at hd
    simp at hd

/-- C2. A request whose body decodes but whose signature does not verify: the
error of `SignedBy` is non-nil, and `Parse` returns the populated hook with a
`nil` error, the error of `SignedBy` having been overwritten. -/
theorem Parse_discards_signature_error :
    (newHook (str "invalid") testBody).SignedBy testToken =
      some (Error.errorString (str "invalid signature")) ∧
    Parse testToken (postRequest testBody (str "invalid")) =
      (some { Signature := str "invalid", RawPayload := testBody, Payload := testPayload },
        none) := by
  set_option maxRecDepth 1000000 in decide!

/-- C4. With the secret, body and signature of the tests `SignedBy` succeeds and
every other signature is refused by `SignedBy`, as is the body with one byte
changed; `Parse` nevertheless returns a `nil` error for the request with the
signature changed in one byte and for the request with the body changed in one
byte. -/
theorem Parse_accepts_tampered_request :
    (newHook testSignature testBody).SignedBy testToken = none ∧
    (∀ sig, sig ≠ testSignature →
      (newHook sig testBody).SignedBy testToken =
        some (Error.errorString (str "invalid signature"))) ∧
    (newHook testSignature tamperedBody).SignedBy testToken =
      some (Error.errorString (str "invalid signature")) ∧
    (Parse testToken (postRequest testBody tamperedSignature)).2 = none ∧
    (Parse testToken (postRequest tamperedBody testSignature)).2 = none := by
  refine ⟨?_, ?_, ?_, ?_, ?_⟩
  · set_option maxRecDepth 1000000 in decide!
  · intro sig hne
    rw [SignedBy_of_decoded _ _ testSignature_expected.1]
    simp only [newHook, testSignature_expected.2]
    simp [hne]
  · set_option maxRecDepth 1000000 in decide!
  · set_option maxRecDepth 1000000 in decide!
  · set_option maxRecDepth 1000000 in decide!

/-! ## The event type round trip and request extraction -/

/-- `EventType.UnmarshalJSON` once `json.Unmarshal(data, &s)` is known to succeed. -/
theorem EventType_UnmarshalJSON_of_string (e : EventType) (data s : Bytes)
    (h : UnmarshalString data [] = (s, none)) :
    EventType.UnmarshalJSON e data =
      if s = str "message_created" then (MessageCreated, none)
      else if s = str "message_updated" then (MessageUpdated, none)
      else if s = str "mention_to_me" then (MentionToMe, none)
      else (e, some (Error.errorString (str "invalid EventType " ++ s))) := by
  unfold EventType.UnmarshalJSON
  rw [h]

/-- C5. Each of the three valid event types is marshalled, without error, to the
JSON string of its lower-case literal, and `UnmarshalJSON` applied to that output
succeeds and stores the event type it started from, whatever the target held. -/
theorem EventType_roundtrip (x e : EventType)
    (hx : x = MessageCreated ∨ x = MessageUpdated ∨ x = MentionToMe) :
    EventType.MarshalJSON x = (0x22 :: EventType.String x ++ [0x22], none) ∧
    EventType.String x ∈
      [str "message_created", str "message_updated", str "mention_to_me"] ∧
    EventType.UnmarshalJSON e (EventType.MarshalJSON x).1 = (x, none) := by
  rcases hx with rfl | rfl | rfl
  · refine ⟨by decide!, by decide!, ?_⟩
    rw [EventType_UnmarshalJSON_of_string e _ (str "message_created") (by decide!)]
    rfl
  · refine ⟨by decide!, by decide!, ?_⟩
    rw [EventType_UnmarshalJSON_of_string e _ (str "message_updated") (by decide!)]
    rfl
  · refine ⟨by decide!, by decide!, ?_⟩
    rw [EventType_UnmarshalJSON_of_string e _ (str "mention_to_me") (by decide!)]
    rfl

/-- The round trip of C5 at `MessageUpdated`, into a target holding `MentionToMe`. -/
theorem EventType_roundtrip_witness :
    EventType.MarshalJSON MessageUpdated =
      (0x22 :: EventType.String MessageUpdated ++ [0x22], none) ∧
    EventType.String MessageUpdated ∈
      [str "message_created", str "message_updated", str "mention_to_me"] ∧
    EventType.UnmarshalJSON MentionToMe (EventType.MarshalJSON MessageUpdated).1 =
      (MessageUpdated, none) :=
  EventType_roundtrip MessageUpdated MentionToMe (Or.inr (Or.inl rfl))

/-- `Header.Get` is empty exactly when the canonical key is absent, has no
values, or has the empty string as its first value. -/
theorem Header_Get_eq_nil (h : Header) (key : Bytes) :
    h.Get key = [] ↔
      h.lookup (CanonicalMIMEHeaderKey key) = none ∨
      h.lookup (CanonicalMIMEHeaderKey key) = some [] ∨
      ∃ vs, h.lookup (CanonicalMIMEHeaderKey key) = some ([] :: vs) := by
  unfold Header.Get
  rcases hl : List.lookup (CanonicalMIMEHeaderKey key) h with _ | vs
  · simp
  · cases vs with
    | nil => simp
    | cons v vs => simp

/-- C8. `New` returns a `nil` hook and `unknown method` when the method is not
equal to `POST` under case folding; otherwise a `nil` hook and `no signature`
when the header `X-ChatWorkWebhookSignature` is absent or empty; otherwise a hook
holding the header value and the bytes read from the body. In the two failing
cases `Parse` returns that same pair, whatever the secret. -/
theorem New_extraction (req : Request) :
    (EqualFold req.Method (str "POST") = false →
      New req = (none, some (Error.errorString (str "unknown method"))) ∧
      ∀ secret, Parse secret req = (none, some (Error.errorString (str "unknown method")))) ∧
    (EqualFold req.Method (str "POST") = true →
      req.Header.Get (str "X-ChatWorkWebhookSignature") = [] →
      New req = (none, some (Error.errorString (str "no signature"))) ∧
      ∀ secret, Parse secret req = (none, some (Error.errorString (str "no signature")))) ∧
    (EqualFold req.Method (str "POST") = true →
      req.Header.Get (str "X-ChatWorkWebhookSignature") ≠ [] →
      New req =
        (some (newHook (req.Header.Get (str "X-ChatWorkWebhookSignature")) req.Body.1),
          req.Body.2)) ∧
    (req.Header.Get (str "X-ChatWorkWebhookSignature") = [] ↔
      req.Header.lookup (str "X-Chatworkwebhooksignature") = none ∨
      req.Header.lookup (str "X-Chatworkwebhooksignature") = some [] ∨
      ∃ vs, req.Header.lookup (str "X-Chatworkwebhooksignature") = some ([] :: vs)) := by
  refine ⟨?_, ?_, ?_, ?_⟩
  · intro hm
    have hnew : New req = (none, some (Error.errorString (str "unknown method"))) := by
      simp [New, hm]
    exact ⟨hnew, fun secret => by simp [Parse, hnew]⟩
  · intro hm hsig
    have hnew : New req = (none, some (Error.errorString (str "no signature"))) := by
      simp [New, hm, hsig]
    exact ⟨hnew, fun secret => by simp [Parse, hnew]⟩
  · intro hm hsig
    have hlen : (req.Header.Get (str "X-ChatWorkWebhookSignature")).length ≠ 0 := by
      simpa [List.length_eq_zero] using hsig
    simp [New, hm, hlen, newHook]
  · have hk : CanonicalMIMEHeaderKey (str "X-ChatWorkWebhookSignature") =
        str "X-Chatworkwebhooksignature" := by decide!
    have := Header_Get_eq_nil req.Header (str "X-ChatWorkWebhookSignature")
    rw [hk] at this
    exact this

/-! ## Decoding an event type -/

/-- What `json.Unmarshal(data, &s)` gives for a `string` when `data` is a JSON
string literal. -/
theorem UnmarshalString_of_string (data lit cur : Bytes)
    (h : parseJSON data = some (JSON.string lit)) :
    UnmarshalString data cur =
      match unquoteBytes lit with
      | some t => (t, none)
      | none => (cur, some Error.invalidJSON) := by
  simp [UnmarshalString, h, storeString]

/-- C6. `EventType.UnmarshalJSON` succeeds exactly when its input is a JSON string
whose value is one of the three literals, and then stores the matching event
type; for a JSON string with any other value `s` it leaves the target as it was
and returns the error `invalid EventType ` followed by `s`. -/
theorem EventType_UnmarshalJSON_spec (e : EventType) (data : Bytes) :
    ((EventType.UnmarshalJSON e data).2 = none ↔
      ∃ lit s, parseJSON data = some (JSON.string lit) ∧ unquoteBytes lit = some s ∧
        (s = str "message_created" ∨ s = str "message_updated" ∨ s = str "mention_to_me")) ∧
    (∀ lit s, parseJSON data = some (JSON.string lit) → unquoteBytes lit = some s →
      s ≠ str "message_created" → s ≠ str "message_updated" → s ≠ str "mention_to_me" →
      EventType.UnmarshalJSON e data =
        (e, some (Error.errorString (str "invalid EventType " ++ s)))) ∧
    (∀ lit, parseJSON data = some (JSON.string lit) →
      (unquoteBytes lit = some (str "message_created") →
        EventType.UnmarshalJSON e data = (MessageCreated, none)) ∧
      (unquoteBytes lit = some (str "message_updated") →
        EventType.UnmarshalJSON e data = (MessageUpdated, none)) ∧
      (unquoteBytes lit = some (str "mention_to_me") →
        EventType.UnmarshalJSON e data = (MentionToMe, none))) := by
  have h01 : str "message_updated" ≠ str "message_created" := by decide!
  have h02 : str "mention_to_me" ≠ str "message_created" := by decide!
  have h12 : str "mention_to_me" ≠ str "message_updated" := by decide!
  have hn0 : ([] : Bytes) ≠ str "message_created" := by decide!
  have hn1 : ([] : Bytes) ≠ str "message_updated" := by decide!
  have hn2 : ([] : Bytes) ≠ str "mention_to_me" := by decide!
  refine ⟨?_, ?_, ?_⟩
  · constructor
    · intro hok
      unfold EventType.UnmarshalJSON UnmarshalString at hok
      rcases hp : parseJSON data with _ | v
      · simp [hp] at hok
      · cases v with
        | null => simp [hp, storeString, hn0, hn1, hn2] at hok
        | bool b => simp [hp, storeString] at hok
        | number l => simp [hp, storeString] at hok
        | array r l => simp [hp, storeString] at hok
        | object r l => simp [hp, storeString] at hok
        | string lit =>
          rcases hu : unquoteBytes lit with _ | s
          · simp [hp, storeString, hu] at hok
          · refine ⟨lit, s, rfl, hu, ?_⟩
            simp only [hp, storeString, hu] at hok
            by_contra hnot
            simp only [not_or] at hnot
            simp [hnot.1, hnot.2.1, hnot.2.2] at hok
    · rintro ⟨lit, s, hp, hu, hs⟩
      rw [EventType_UnmarshalJSON_of_string e data s
        (by rw [UnmarshalString_of_string data lit [] hp, hu])]
      rcases hs with rfl | rfl | rfl
      · simp
      · simp [h01]
      · simp [h02, h12]
  · intro lit s hp hu h0 h1 h2
    rw [EventType_UnmarshalJSON_of_string e data s
      (by rw [UnmarshalString_of_string data lit [] hp, hu])]
    simp [h0, h1, h2]
  · intro lit hp
    refine ⟨?_, ?_, ?_⟩
    · intro hu
      rw [EventType_UnmarshalJSON_of_string e data _
        (by rw [UnmarshalString_of_string data lit [] hp, hu])]
      simp
    · intro hu
      rw [EventType_UnmarshalJSON_of_string e data _
        (by rw [UnmarshalString_of_string data lit [] hp, hu])]
      simp [h01]
    · intro hu
      rw [EventType_UnmarshalJSON_of_string e data _
        (by rw [UnmarshalString_of_string data lit [] hp, hu])]
      simp [h02, h12]

/-! ## Decimal integers: formatting, scanning and parsing -/

theorem digitsValue_append (ds : Bytes) (c : Nat) :
    digitsValue (ds ++ [c]) = 10 * digitsValue ds + (c - 0x30) := by
  simp [digitsValue, List.foldl_append]

/-- The digits that `formatBits` writes for a number that fits the fuel: they are
decimal digits, there is at least one, they stand for the number, and the first is
`0` only for the number zero. -/
theorem formatBits_spec (fuel n : Nat) (acc : Bytes) (hn : n < 10 ^ (fuel + 1)) :
    ∃ ds : Bytes, formatBits (fuel + 1) n acc = ds ++ acc ∧ ds ≠ [] ∧
      (∀ c ∈ ds, isDigit c = true) ∧ digitsValue ds = n ∧
      (n ≠ 0 → ds.head? ≠ some 0x30) ∧ (n = 0 → ds = [0x30]) := by
  induction fuel generalizing n acc with
  | zero =>
    have h10 : n < 10 := by simpa using hn
    refine ⟨[0x30 + n], ?_, by simp, ?_, ?_, ?_, ?_⟩
    · simp [formatBits, h10]
    · intro c hc
      simp only [List.mem_singleton] at hc
      subst hc
      simp [isDigit]
      omega
    · simp [digitsValue]
    · intro h0
      simp
      omega
    · intro h0
      simp [h0]
  | succ f ih =>
    by_cases h10 : n < 10
    · refine ⟨[0x30 + n], ?_, by simp, ?_, ?_, ?_, ?_⟩
      · rw [formatBits]
        simp [h10]
      · intro c hc
        simp only [List.mem_singleton] at hc
        subst hc
        simp [isDigit]
        omega
      · simp [digitsValue]
      · intro h0
        simp
        omega
      · intro h0
        simp [h0]
    · have hdiv : n / 10 < 10 ^ (f + 1) := by
        rw [Nat.div_lt_iff_lt_mul (by norm_num)]
        calc n < 10 ^ (f + 1 + 1) := hn
          _ = 10 ^ (f + 1) * 10 := by ring
      obtain ⟨ds, hds, hne, hdig, hval, hhead, _⟩ := ih (n / 10) ((0x30 + n % 10) :: acc) hdiv
      refine ⟨ds ++ [0x30 + n % 10], ?_, by simp, ?_, ?_, ?_, ?_⟩
      · rw [formatBits]
        simp only [h10, if_false]
        rw [hds]
        simp
      · intro c hc
        rcases List.mem_append.mp hc with hc | hc
        · exact hdig c hc
        · simp only [List.mem_singleton] at hc
          subst hc
          simp [isDigit]
          omega
      · rw [digitsValue_append, hval]
        omega
      · intro _
        have hq : n / 10 ≠ 0 := by omega
        have := hhead hq
        cases ds with
        | nil => exact absurd rfl hne
        | cons d ds' => simpa using this
      · intro h0
        omega

theorem spanDigits_of_all (ds : Bytes) (h : ∀ c ∈ ds, isDigit c = true) :
    spanDigits ds = (ds, []) := by
  induction ds with
  | nil => rfl
  | cons c tl ih =>
    have hc : isDigit c = true := h c (List.mem_cons_self _ _)
    have htl := ih (fun x hx => h x (List.mem_cons_of_mem _ hx))
    simp [spanDigits, hc, htl]

/-- The scanner accepts a run of digits without a leading zero as a number and
consumes all of it. -/
theorem scanUnsigned_digits (sign ds : Bytes) (hne : ds ≠ [])
    (hdig : ∀ c ∈ ds, isDigit c = true) (hzero : ds.head? = some 0x30 → ds = [0x30]) :
    scanUnsigned sign ds = some (sign ++ ds, []) := by
  cases ds with
  | nil => exact absurd rfl hne
  | cons c tl =>
    have hc : isDigit c = true := hdig c (List.mem_cons_self _ _)
    have htl : spanDigits tl = (tl, []) :=
      spanDigits_of_all tl (fun x hx => hdig x (List.mem_cons_of_mem _ hx))
    by_cases h0 : c = 0x30
    · subst h0
      have : tl = [] := by simpa using hzero rfl
      subst this
      simp [scanUnsigned, scanInt, scanFrac, scanExp]
    · simp [scanUnsigned, scanInt, scanFrac, scanExp, h0, hc, htl]

/-- A value that starts with a digit or a minus sign is read as a number. -/
theorem parseValue_number (depth c : Nat) (rest : Bytes)
    (hc : isDigit c = true ∨ c = 0x2D) :
    parseValue depth (c :: rest) =
      (scanNumber (c :: rest)).map fun r => (JSON.number r.1, r.2) := by
  have h : c ≠ 0x22 ∧ c ≠ 0x74 ∧ c ≠ 0x66 ∧ c ≠ 0x6E ∧ c ≠ 0x5B ∧ c ≠ 0x7B := by
    rcases hc with hc | hc
    · simp only [isDigit, decide_eq_true_eq] at hc
      omega
    · omega
  unfold parseValue
  simp [h.1, h.2.1, h.2.2.1, h.2.2.2.1, h.2.2.2.2.1, h.2.2.2.2.2]

/-- The decimal text that `strconv.FormatInt` writes for an `int64` is a JSON
number, and `json.Unmarshal` reads it as that literal. -/
theorem parseJSON_FormatInt (N : Int) (hlo : -2 ^ 63 ≤ N) (hhi : N < 2 ^ 63) :
    parseJSON (FormatInt N) = some (JSON.number (FormatInt N)) ∧
      ParseInt (FormatInt N) = some N := by
  by_cases hneg : N < 0
  · have hn : (-N).toNat < 10 ^ (19 + 1) := by
      have : (-N).toNat ≤ 2 ^ 63 := by omega
      calc (-N).toNat ≤ 2 ^ 63 := this
        _ < 10 ^ (19 + 1) := by norm_num
    obtain ⟨ds, hds, hne, hdig, hval, hhead, hz⟩ := formatBits_spec 19 (-N).toNat [] hn
    have hpos : (-N).toNat ≠ 0 := by omega
    have hF : FormatInt N = 0x2D :: ds := by
      simp only [FormatInt, hneg, if_true]
      rw [hds]
      simp
    have hsc := scanUnsigned_digits [0x2D] ds hne hdig
      (fun h => absurd h (hhead hpos))
    rw [hF]
    constructor
    · unfold parseJSON
      have hsp : skipSpace (0x2D :: ds) = 0x2D :: ds := by simp [skipSpace, isSpace]
      rw [hsp, parseValue_number _ _ _ (Or.inr rfl)]
      simp [scanNumber, hsc, skipSpace]
    · have hall : ds.all isDigit = true := by
        simpa [List.all_eq_true] using hdig
      have hemp : ds.isEmpty = false := by
        cases ds with
        | nil => exact absurd rfl hne
        | cons _ _ => rfl
      have h1 : ¬ ((-N).toNat > 2 ^ 63) := by omega
      simp only [ParseInt, parseIntDigits, hall, hemp, hval]
      simp [h1]
      omega
  · have hn : N.toNat < 10 ^ (19 + 1) := by
      have : N.toNat < 2 ^ 63 := by omega
      calc N.toNat < 2 ^ 63 := this
        _ < 10 ^ (19 + 1) := by norm_num
    obtain ⟨ds, hds, hne, hdig, hval, hhead, hz⟩ := formatBits_spec 19 N.toNat [] hn
    have hF : FormatInt N = ds := by
      simp only [FormatInt, hneg, if_false]
      rw [hds]
      simp
    have hzero : ds.head? = some 0x30 → ds = [0x30] := by
      intro h
      by_cases h0 : N.toNat = 0
      · exact hz h0
      · exact absurd h (hhead h0)
    have hsc := scanUnsigned_digits [] ds hne hdig hzero
    rw [hF]
    cases ds with
    | nil => exact absurd rfl hne
    | cons c tl =>
      have hc : isDigit c = true := hdig c (List.mem_cons_self _ _)
      have hc' : 0x30 ≤ c ∧ c ≤ 0x39 := by simpa [isDigit] using hc
      constructor
      · unfold parseJSON
        have hsp : skipSpace (c :: tl) = c :: tl := by
          have : isSpace c = false := by
            simp only [isSpace, decide_eq_false_iff_not]
            omega
          simp [skipSpace, this]
        rw [hsp, parseValue_number _ _ _ (Or.inl hc)]
        have hm : c ≠ 0x2D := by omega
        simp [scanNumber, hm, hsc, skipSpace]
      · have hall : (c :: tl).all isDigit = true := by
          simpa [List.all_eq_true] using hdig
        have hp : c ≠ 0x2B := by omega
        have hm : c ≠ 0x2D := by omega
        have h1 : ¬ (N.toNat ≥ 2 ^ 63) := by omega
        simp only [ParseInt, parseIntDigits, hp, hm, if_false, hall, hval]
        simp [h1]
        omega

/-! ## The time stamp round trip -/

theorem unixToInternal_eq : unixToInternal = 62135596800 := by decide

/-- `time.Unix(N, 0)` for an `int64`: no nanoseconds, and `Unix()` gives `N` back
(the seconds since year 1 may wrap around, the difference does not). -/
theorem timeUnix_Unix (N : Int) (hlo : -2 ^ 63 ≤ N) (hhi : N < 2 ^ 63) :
    (timeUnix N 0).wall = 0 ∧ (timeUnix N 0).Nanosecond = 0 ∧ (timeUnix N 0).Unix = N := by
  have hw : (timeUnix N 0).wall = 0 := by simp [timeUnix]
  have he : (timeUnix N 0).ext = wrapInt64 (N + unixToInternal) := by simp [timeUnix]
  refine ⟨hw, ?_, ?_⟩
  · simp [GoTime.Nanosecond, hw]
  · simp only [GoTime.Unix, GoTime.sec, hw, he, unixToInternal_eq, wrapInt64]
    norm_num
    omega

/-- C7. For every `N` in the range of `int64`, `Time.UnmarshalJSON` applied to
the decimal number `N` succeeds and stores `time.Unix(N, 0)`, the instant `N`
seconds after the epoch with no nanoseconds, and `Time.MarshalJSON` of that
instant gives the decimal number `N` again. -/
theorem Time_roundtrip (t : Time) (N : Int) (hlo : -2 ^ 63 ≤ N) (hhi : N < 2 ^ 63) :
    Time.UnmarshalJSON t (FormatInt N) = ({ Time := timeUnix N 0 }, none) ∧
    (timeUnix N 0).Nanosecond = 0 ∧ (timeUnix N 0).Unix = N ∧
    Time.MarshalJSON { Time := timeUnix N 0 } = (FormatInt N, none) := by
  obtain ⟨hp, hi⟩ := parseJSON_FormatInt N hlo hhi
  obtain ⟨_, hns, hu⟩ := timeUnix_Unix N hlo hhi
  refine ⟨?_, hns, hu, ?_⟩
  · have hr : ¬ (N < -9223372036854775808 ∨ 9223372036854775808 ≤ N) := by
      norm_num at hlo hhi
      omega
    simp [Time.UnmarshalJSON, UnmarshalInt64, hp, storeInt, hi, hr]
  · simp [Time.MarshalJSON, MarshalInt64, hu]

/-- The round trip of C7 at the time stamp of the tests, into a zero `Time`. -/
theorem Time_roundtrip_witness :
    Time.UnmarshalJSON Time.zero (FormatInt 1511238729) =
      ({ Time := timeUnix 1511238729 0 }, none) ∧
    (timeUnix 1511238729 0).Nanosecond = 0 ∧ (timeUnix 1511238729 0).Unix = 1511238729 ∧
    Time.MarshalJSON { Time := timeUnix 1511238729 0 } = (FormatInt 1511238729, none) :=
  Time_roundtrip Time.zero 1511238729 (by norm_num) (by norm_num)

/-- The decimal text of some `int64` values, among them the two extremes. -/
theorem FormatInt_examples :
    FormatInt 1511238729 = str "1511238729" ∧ FormatInt 0 = str "0" ∧
    FormatInt (-42) = str "-42" ∧
    FormatInt (-9223372036854775808) = str "-9223372036854775808" ∧
    FormatInt 9223372036854775807 = str "9223372036854775807" := by
  decide!

/-! ## Bodies that are not JSON objects -/

/-- `Parse` once `New` has returned a hook and no error: the error is the one of
`json.Unmarshal`, the payload the one it decoded. -/
theorem Parse_of_New (secret : Bytes) (req : Request) (hook : Hook)
    (hnew : New req = (some hook, none)) :
    Parse secret req =
      (some { hook with Payload := (Unmarshal hook.RawPayload WebhookPayload.zero).1 },
        (Unmarshal hook.RawPayload WebhookPayload.zero).2) := by
  simp [Parse, hnew]

/-- `New` on a `POST` request with a non-empty signature header. -/
theorem New_of_post (req : Request) (hm : EqualFold req.Method (str "POST") = true)
    (hs : req.Header.Get (str "X-ChatWorkWebhookSignature") ≠ []) :
    New req =
      (some (newHook (req.Header.Get (str "X-ChatWorkWebhookSignature")) req.Body.1),
        req.Body.2) := by
  have hlen : (req.Header.Get (str "X-ChatWorkWebhookSignature")).length ≠ 0 := by
    simpa [List.length_eq_zero] using hs
  simp [New, hm, hlen, newHook]

/-- The error of `Parse` on a `POST` request with a non-empty signature header:
the error of reading the body if there is one, else the error of `json.Unmarshal`. -/
theorem Parse_of_post (secret : Bytes) (req : Request)
    (hm : EqualFold req.Method (str "POST") = true)
    (hs : req.Header.Get (str "X-ChatWorkWebhookSignature") ≠ []) :
    (Parse secret req).2 =
      match req.Body.2 with
      | some e => some e
      | none => (Unmarshal req.Body.1 WebhookPayload.zero).2 := by
  have hn := New_of_post req hm hs
  rcases hb : req.Body.2 with _ | e
  · rw [hb] at hn
    rw [Parse_of_New secret req _ hn]
    simp [newHook]
  · rw [hb] at hn
    simp [Parse, hn]

/-- C10, counterexample. The body `null` is not a JSON object, yet decoding it as a
`WebhookPayload` returns no error, and neither does `Parse` for a `POST` request
carrying it with a non-empty signature header. -/
theorem Parse_null_body_no_error :
    Unmarshal (str "null") WebhookPayload.zero = (WebhookPayload.zero, none) ∧
    Parse testToken (postRequest (str "null") testSignature) =
      (some (newHook testSignature (str "null")), none) := by
  set_option maxRecDepth 1000000 in decide!

/-- C10, amended. A body that is not valid JSON, or is a JSON array, string,
number or boolean, fails to decode as a `WebhookPayload` and leaves the payload
as it was, and `Parse` returns a non-nil error for a `POST` request with a
non-empty signature header that carries it; the body `null` decodes without error
and leaves the payload as it was. -/
theorem Parse_malformed_body (secret : Bytes) (req : Request)
    (hm : EqualFold req.Method (str "POST") = true)
    (hs : req.Header.Get (str "X-ChatWorkWebhookSignature") ≠ []) :
    (parseJSON req.Body.1 = none →
      (∀ p, Unmarshal req.Body.1 p = (p, some Error.invalidJSON)) ∧
      (Parse secret req).2 ≠ none) ∧
    (∀ v, parseJSON req.Body.1 = some v → v ≠ JSON.null →
      (∀ raw ms, v ≠ JSON.object raw ms) →
      (∀ p, Unmarshal req.Body.1 p =
        (p, some (typeError v "chatworkhook.WebhookPayload"))) ∧
      (Parse secret req).2 ≠ none) ∧
    (parseJSON req.Body.1 = some JSON.null → ∀ p, Unmarshal req.Body.1 p = (p, none)) := by
  have hP := Parse_of_post secret req hm hs
  refine ⟨?_, ?_, ?_⟩
  · intro hp
    have hU : ∀ p, Unmarshal req.Body.1 p = (p, some Error.invalidJSON) := by
      intro p
      simp [Unmarshal, hp]
    refine ⟨hU, ?_⟩
    rw [hP]
    rcases req.Body.2 with _ | e
    · simp [hU]
    · simp
  · intro v hp hnull hobj
    have hU : ∀ p, Unmarshal req.Body.1 p =
        (p, some (typeError v "chatworkhook.WebhookPayload")) := by
      intro p
      unfold Unmarshal
      rw [hp]
      cases v with
      | null => exact absurd rfl hnull
      | object raw ms => exact absurd rfl (hobj raw ms)
      | bool b => rfl
      | number l => rfl
      | string l => rfl
      | array r l => rfl
    refine ⟨hU, ?_⟩
    rw [hP]
    rcases req.Body.2 with _ | e
    · simp [hU]
    · simp
  · intro hp p
    simp [Unmarshal, hp]

/-- The signature header of a request built as the tests build theirs. -/
theorem postRequest_Get (body signature : Bytes) :
    (postRequest body signature).Header.Get (str "X-ChatWorkWebhookSignature") = signature := by
  have hk : CanonicalMIMEHeaderKey (str "X-ChatWorkWebhookSignature") =
      str "X-Chatworkwebhooksignature" := by decide!
  simp [postRequest, NewRequest, Header.Add, Header.Get, hk, List.lookup]

/-- The method of a request built as the tests build theirs passes `New`. -/
theorem postRequest_Method (body signature : Bytes) :
    EqualFold (postRequest body signature).Method (str "POST") = true := by
  have : EqualFold (str "POST") (str "POST") = true := by decide!
  simpa [postRequest, NewRequest] using this

/-- The amended C10 at a truncated body and at the body `[]`. -/
theorem Parse_malformed_body_witness :
    (parseJSON (str "\x7b\"webhook_setting_id\":") = none ∧
      (Parse testToken (postRequest (str "\x7b\"webhook_setting_id\":") testSignature)).2
        ≠ none) ∧
    (parseJSON (str "[]") = some (JSON.array (str "[]") []) ∧
      (Parse testToken (postRequest (str "[]") testSignature)).2 ≠ none) :=
  have hs (b : Bytes) : (postRequest b testSignature).Header.Get
      (str "X-ChatWorkWebhookSignature") ≠ [] := by
    rw [postRequest_Get]
    decide!
  have h1 : parseJSON (str "\x7b\"webhook_setting_id\":") = none :=
    parseJSON_of_isNone (by decide!)
  have h2 : parseJSON (str "[]") = some (JSON.array (str "[]") []) :=
    parseJSON_of_parsesTo (by decide!)
  ⟨⟨h1, ((Parse_malformed_body testToken _ (postRequest_Method _ _) (hs _)).1 h1).2⟩,
    ⟨h2, ((Parse_malformed_body testToken _ (postRequest_Method _ _) (hs _)).2.1 _ h2
      (by simp) (by simp)).2⟩⟩

/-! ## What the scanner returns -/

theorem scanInt_head (inp ip r : Bytes) (h : scanInt inp = some (ip, r)) :
    ∃ c tl, ip = c :: tl ∧ isDigit c = true := by
  cases inp with
  | nil => simp [scanInt] at h
  | cons c tl =>
    simp only [scanInt] at h
    split_ifs at h with h0 hd
    · simp only [Option.some.injEq, Prod.mk.injEq] at h
      exact ⟨0x30, [], h.1.symm, by decide⟩
    · simp only [Option.some.injEq, Prod.mk.injEq] at h
      exact ⟨c, _, h.1.symm, hd⟩

/-- A number literal that the scanner returns starts with a digit or a minus sign. -/
theorem scanNumber_head (inp lit r : Bytes) (h : scanNumber inp = some (lit, r)) :
    ∃ c tl, lit = c :: tl ∧ (isDigit c = true ∨ c = 0x2D) := by
  cases inp with
  | nil => simp [scanNumber] at h
  | cons c tl =>
    simp only [scanNumber] at h
    split_ifs at h with hm
    · simp only [scanUnsigned] at h
      rcases hi : scanInt tl with _ | ⟨ip, r1⟩
      · simp [hi] at h
      · rcases hf : scanFrac r1 with _ | ⟨fp, r2⟩
        · simp [hi, hf] at h
        · rcases he : scanExp r2 with _ | ⟨ep, r3⟩
          · simp [hi, hf, he] at h
          · simp only [hi, hf, he, Option.some.injEq, Prod.mk.injEq] at h
            exact ⟨0x2D, ip ++ fp ++ ep, by rw [← h.1]; simp, Or.inr rfl⟩
    · simp only [scanUnsigned] at h
      rcases hi : scanInt (c :: tl) with _ | ⟨ip, r1⟩
      · simp [hi] at h
      · rcases hf : scanFrac r1 with _ | ⟨fp, r2⟩
        · simp [hi, hf] at h
        · rcases he : scanExp r2 with _ | ⟨ep, r3⟩
          · simp [hi, hf, he] at h
          · simp only [hi, hf, he, Option.some.injEq, Prod.mk.injEq] at h
            obtain ⟨d, dtl, hip, hd⟩ := scanInt_head _ _ _ hi
            exact ⟨d, dtl ++ fp ++ ep, by rw [← h.1, hip]; simp, Or.inl hd⟩

/-- Every value the scanner returns keeps a text that starts as a value of its
kind does. -/
theorem parseValue_wellStarted (depth : Nat) (inp rest : Bytes) (v : JSON)
    (h : parseValue depth inp = some (v, rest)) : v.wellStarted = true := by
  unfold parseValue at h
  cases inp with
  | nil => simp at h
  | cons c tl =>
    simp only at h
    split_ifs at h
    · simp only [Option.map_eq_some'] at h
      obtain ⟨r, _, hr⟩ := h
      simp only [Prod.mk.injEq] at hr
      rw [← hr.1]
      simp [JSON.wellStarted]
    · split at h
      · simp only [Option.some.injEq, Prod.mk.injEq] at h
        rw [← h.1]; rfl
      · simp at h
    · split at h
      · simp only [Option.some.injEq, Prod.mk.injEq] at h
        rw [← h.1]; rfl
      · simp at h
    · split at h
      · simp only [Option.some.injEq, Prod.mk.injEq] at h
        rw [← h.1]; rfl
      · simp at h
    · split at h
      · simp at h
      · split at h
        · simp only [Option.some.injEq, Prod.mk.injEq] at h
          rw [← h.1]; simp [JSON.wellStarted]
        · simp only [Option.map_eq_some'] at h
          obtain ⟨r, _, hr⟩ := h
          simp only [Prod.mk.injEq] at hr
          rw [← hr.1]; simp [JSON.wellStarted]
    · split at h
      · simp at h
      · split at h
        · simp only [Option.some.injEq, Prod.mk.injEq] at h
          rw [← h.1]; simp [JSON.wellStarted]
        · simp only [Option.map_eq_some'] at h
          obtain ⟨r, _, hr⟩ := h
          simp only [Prod.mk.injEq] at hr
          rw [← hr.1]; simp [JSON.wellStarted]
    · simp only [Option.map_eq_some'] at h
      obtain ⟨r, hs, hr⟩ := h
      simp only [Prod.mk.injEq] at hr
      obtain ⟨d, dtl, hlit, hd⟩ := scanNumber_head _ r.1 r.2 (by simpa using hs)
      rw [← hr.1]
      simp only [JSON.wellStarted, hlit]
      rcases hd with hd | hd
      · simp [hd]
      · simp [hd]

theorem spanDigits_append (inp : Bytes) : (spanDigits inp).1 ++ (spanDigits inp).2 = inp := by
  induction inp with
  | nil => rfl
  | cons c tl ih =>
    simp only [spanDigits]
    split_ifs
    · simp [ih]
    · rfl

theorem scanInt_append (inp ip r : Bytes) (h : scanInt inp = some (ip, r)) : inp = ip ++ r := by
  cases inp with
  | nil => simp [scanInt] at h
  | cons c tl =>
    simp only [scanInt] at h
    split_ifs at h with h0 hd
    · simp only [Option.some.injEq, Prod.mk.injEq] at h
      rw [← h.1, ← h.2, h0]; rfl
    · simp only [Option.some.injEq, Prod.mk.injEq] at h
      rw [← h.1, ← h.2]
      simp [spanDigits_append]

theorem scanFrac_append (inp fp r : Bytes) (h : scanFrac inp = some (fp, r)) :
    inp = fp ++ r := by
  cases inp with
  | nil =>
    simp only [scanFrac, Option.some.injEq, Prod.mk.injEq] at h
    rw [← h.1, ← h.2]; rfl
  | cons c tl =>
    simp only [scanFrac] at h
    split_ifs at h with h0 hd
    · simp only [Option.some.injEq, Prod.mk.injEq] at h
      rw [← h.1, ← h.2, h0]
      simp [spanDigits_append]
    · simp only [Option.some.injEq, Prod.mk.injEq] at h
      rw [← h.1, ← h.2]; rfl

theorem scanExpDigits_append (lead inp ep r : Bytes)
    (h : scanExpDigits lead inp = some (ep, r)) : lead ++ inp = ep ++ r := by
  simp only [scanExpDigits] at h
  split_ifs at h
  simp only [Option.some.injEq, Prod.mk.injEq] at h
  rw [← h.1, ← h.2]
  simp [spanDigits_append]

theorem scanExp_append (inp ep r : Bytes) (h : scanExp inp = some (ep, r)) :
    inp = ep ++ r := by
  cases inp with
  | nil =>
    simp only [scanExp, Option.some.injEq, Prod.mk.injEq] at h
    rw [← h.1, ← h.2]; rfl
  | cons c tl =>
    simp only [scanExp] at h
    split_ifs at h with h0
    · cases tl with
      | nil => simp at h
      | cons s r3 =>
        simp only at h
        split_ifs at h
        · have := scanExpDigits_append _ _ _ _ h
          simpa using this
        · have := scanExpDigits_append _ _ _ _ h
          simpa using this
    · simp only [Option.some.injEq, Prod.mk.injEq] at h
      rw [← h.1, ← h.2]; rfl

theorem scanUnsigned_append (sign inp lit r : Bytes)
    (h : scanUnsigned sign inp = some (lit, r)) : sign ++ inp = lit ++ r := by
  simp only [scanUnsigned] at h
  rcases hi : scanInt inp with _ | ⟨ip, r1⟩
  · simp [hi] at h
  · rcases hf : scanFrac r1 with _ | ⟨fp, r2⟩
    · simp [hi, hf] at h
    · rcases he : scanExp r2 with _ | ⟨ep, r3⟩
      · simp [hi, hf, he] at h
      · simp only [hi, hf, he, Option.some.injEq, Prod.mk.injEq] at h
        rw [← h.1, ← h.2, scanInt_append _ _ _ hi, scanFrac_append _ _ _ hf,
          scanExp_append _ _ _ he]
        simp

/-- The scanner splits its input into the number literal and what follows it. -/
theorem scanNumber_append (inp lit r : Bytes) (h : scanNumber inp = some (lit, r)) :
    inp = lit ++ r := by
  cases inp with
  | nil => simp [scanNumber] at h
  | cons c tl =>
    simp only [scanNumber] at h
    split_ifs at h with hm
    · have := scanUnsigned_append _ _ _ _ h
      rw [hm]
      simpa using this
    · have := scanUnsigned_append _ _ _ _ h
      simpa using this

theorem skipSpace_eq_nil (r : Bytes) (h : skipSpace r = []) : ∀ c ∈ r, isSpace c = true := by
  induction r with
  | nil => simp
  | cons c tl ih =>
    simp only [skipSpace] at h
    split_ifs at h with hc
    intro x hx
    rcases List.mem_cons.mp hx with rfl | hx
    · exact hc
    · exact ih h x hx

theorem skipSpace_cons (c : Nat) (tl : Bytes) (h : isSpace c = false) :
    skipSpace (c :: tl) = c :: tl := by
  simp [skipSpace, h]

/-- `strconv.ParseInt` refuses text that holds a `.`, an `e` or an `E`. -/
theorem ParseInt_of_mem (lit : Bytes) (x : Nat) (hx : x ∈ lit)
    (hk : x = 0x2E ∨ x = 0x65 ∨ x = 0x45) : ParseInt lit = none := by
  have hnd : isDigit x = false := by
    rcases hk with rfl | rfl | rfl <;> decide
  have key : ∀ ds : Bytes, x ∈ ds → ∀ neg, parseIntDigits neg ds = none := by
    intro ds hds neg
    have : ds.all isDigit = false := by
      rw [List.all_eq_false]
      exact ⟨x, hds, by simp [hnd]⟩
    simp [parseIntDigits, this]
  cases lit with
  | nil => simp at hx
  | cons c r =>
    simp only [ParseInt]
    split_ifs with hp hm
    · rcases List.mem_cons.mp hx with rfl | hx
      · rcases hk with h | h | h <;> omega
      · exact key r hx false
    · rcases List.mem_cons.mp hx with rfl | hx
      · rcases hk with h | h | h <;> omega
      · exact key r hx true
    · exact key (c :: r) hx false

/-- The kind of the value the scanner returns is decided by the first byte. -/
theorem parseValue_head (depth c : Nat) (tl rest : Bytes) (v : JSON)
    (h : parseValue depth (c :: tl) = some (v, rest)) :
    (c = 0x22 → ∃ lit, v = JSON.string lit) ∧
    (c = 0x5B → ∃ raw items, v = JSON.array raw items) ∧
    (c = 0x7B → ∃ raw ms, v = JSON.object raw ms) := by
  unfold parseValue at h
  simp only at h
  refine ⟨?_, ?_, ?_⟩
  · intro hc
    simp only [hc, if_true, Option.map_eq_some'] at h
    obtain ⟨r, _, hr⟩ := h
    simp only [Prod.mk.injEq] at hr
    exact ⟨_, hr.1.symm⟩
  · intro hc
    subst hc
    simp only [show (0x5B : Nat) ≠ 0x22 by decide, show (0x5B : Nat) ≠ 0x74 by decide,
      show (0x5B : Nat) ≠ 0x66 by decide, show (0x5B : Nat) ≠ 0x6E by decide, if_false,
      if_true] at h
    split at h
    · simp at h
    · split at h
      · simp only [Option.some.injEq, Prod.mk.injEq] at h
        exact ⟨_, _, h.1.symm⟩
      · simp only [Option.map_eq_some'] at h
        obtain ⟨r, _, hr⟩ := h
        simp only [Prod.mk.injEq] at hr
        exact ⟨_, _, hr.1.symm⟩
  · intro hc
    subst hc
    simp only [show (0x7B : Nat) ≠ 0x22 by decide, show (0x7B : Nat) ≠ 0x74 by decide,
      show (0x7B : Nat) ≠ 0x66 by decide, show (0x7B : Nat) ≠ 0x6E by decide,
      show (0x7B : Nat) ≠ 0x5B by decide, if_false, if_true] at h
    split at h
    · simp at h
    · split at h
      · simp only [Option.some.injEq, Prod.mk.injEq] at h
        exact ⟨_, _, h.1.symm⟩
      · simp only [Option.map_eq_some'] at h
        obtain ⟨r, _, hr⟩ := h
        simp only [Prod.mk.injEq] at hr
        exact ⟨_, _, hr.1.symm⟩

/-- Storing a value that is not an integer number into a Go integer is an error. -/
theorem storeInt_nonInteger (bits : Nat) (goType : String) (v : JSON) (cur : Int)
    (hn : v.isNonInteger = true) :
    (storeInt bits goType v cur).1 = cur ∧ (storeInt bits goType v cur).2 ≠ none := by
  cases v with
  | null => simp [JSON.isNonInteger] at hn
  | bool b => simp [storeInt]
  | string l => simp [storeInt]
  | array r l => simp [storeInt]
  | object r l => simp [storeInt]
  | number lit =>
    simp only [JSON.isNonInteger, List.any_eq_true, decide_eq_true_eq] at hn
    obtain ⟨x, hx, hk⟩ := hn
    simp [storeInt, ParseInt_of_mem lit x hx hk]

/-- `json.Unmarshal` into an `int64` fails on the text of a value of the scanner
that is not an integer number. -/
theorem UnmarshalInt64_raw_error (v : JSON) (cur : Int) (hw : v.wellStarted = true)
    (hn : v.isNonInteger = true) : (UnmarshalInt64 v.raw cur).2 ≠ none := by
  have hstore : ∀ w : JSON, w.isNonInteger = true → (storeInt 64 "int64" w cur).2 ≠ none :=
    fun w hw => (storeInt_nonInteger 64 "int64" w cur hw).2
  cases v with
  | null => simp [JSON.isNonInteger] at hn
  | bool b =>
    cases b with
    | true =>
      have hp : parseJSON (JSON.bool true).raw = some (JSON.bool true) :=
        parseJSON_of_parsesTo (by decide!)
      simp [UnmarshalInt64, hp, storeInt]
    | false =>
      have hp : parseJSON (JSON.bool false).raw = some (JSON.bool false) :=
        parseJSON_of_parsesTo (by decide!)
      simp [UnmarshalInt64, hp, storeInt]
  | string lit =>
    simp only [JSON.wellStarted, beq_iff_eq] at hw
    cases lit with
    | nil => simp at hw
    | cons c tl =>
      simp only [List.head?_cons, Option.some.injEq] at hw
      subst hw
      simp only [JSON.raw, UnmarshalInt64, parseJSON]
      rw [skipSpace_cons _ _ (by decide)]
      rcases hp : parseValue maxNestingDepth (0x22 :: tl) with _ | ⟨w, r⟩
      · simp
      · obtain ⟨l, hl⟩ := (parseValue_head _ _ _ _ _ hp).1 rfl
        subst hl
        simp only
        split_ifs
        · exact hstore _ rfl
        · simp
  | array raw items =>
    simp only [JSON.wellStarted, beq_iff_eq] at hw
    cases raw with
    | nil => simp at hw
    | cons c tl =>
      simp only [List.head?_cons, Option.some.injEq] at hw
      subst hw
      simp only [JSON.raw, UnmarshalInt64, parseJSON]
      rw [skipSpace_cons _ _ (by decide)]
      rcases hp : parseValue maxNestingDepth (0x5B :: tl) with _ | ⟨w, r⟩
      · simp
      · obtain ⟨l, i, hl⟩ := (parseValue_head _ _ _ _ _ hp).2.1 rfl
        subst hl
        simp only
        split_ifs
        · exact hstore _ rfl
        · simp
  | object raw ms =>
    simp only [JSON.wellStarted, beq_iff_eq] at hw
    cases raw with
    | nil => simp at hw
    | cons c tl =>
      simp only [List.head?_cons, Option.some.injEq] at hw
      subst hw
      simp only [JSON.raw, UnmarshalInt64, parseJSON]
      rw [skipSpace_cons _ _ (by decide)]
      rcases hp : parseValue maxNestingDepth (0x7B :: tl) with _ | ⟨w, r⟩
      · simp
      · obtain ⟨l, i, hl⟩ := (parseValue_head _ _ _ _ _ hp).2.2 rfl
        subst hl
        simp only
        split_ifs
        · exact hstore _ rfl
        · simp
  | number lit =>
    cases lit with
    | nil => simp [JSON.wellStarted] at hw
    | cons c tl =>
      simp only [JSON.wellStarted, Bool.or_eq_true, beq_iff_eq] at hw
      have hsp : isSpace c = false := by
        rcases hw with hw | hw
        · simp only [isDigit, decide_eq_true_eq] at hw
          simp only [isSpace, decide_eq_false_iff_not]
          omega
        · subst hw; decide
      simp only [JSON.raw, UnmarshalInt64, parseJSON]
      rw [skipSpace_cons _ _ hsp, parseValue_number _ _ _ hw]
      rcases hs : scanNumber (c :: tl) with _ | ⟨lit', r⟩
      · simp
      · simp only [Option.map_some']
        split_ifs with hr
        · simp only [JSON.isNonInteger, List.any_eq_true, decide_eq_true_eq] at hn
          obtain ⟨x, hx, hk⟩ := hn
          have happ := scanNumber_append _ _ _ hs
          rw [happ] at hx
          have hr' : skipSpace r = [] := by
            cases hq : skipSpace r with
            | nil => rfl
            | cons _ _ => simp [hq] at hr
          rcases List.mem_append.mp hx with hx | hx
          · apply hstore
            simp only [JSON.isNonInteger, List.any_eq_true, decide_eq_true_eq]
            exact ⟨x, hx, hk⟩
          · have := skipSpace_eq_nil r hr' x hx
            rcases hk with rfl | rfl | rfl <;> simp [isSpace] at this
        · simp

/-- `Time.UnmarshalJSON` whenever `json.Unmarshal` into the `int64` fails: the
target keeps its value and the error quotes the input. -/
theorem Time_UnmarshalJSON_of_error (t : Time) (data : Bytes)
    (h : (UnmarshalInt64 data 0).2 ≠ none) :
    Time.UnmarshalJSON t data =
      (t, some (Error.errorString (str "data should be number, got " ++ data))) := by
  unfold Time.UnmarshalJSON
  rcases hu : UnmarshalInt64 data 0 with ⟨s, _ | e⟩
  · rw [hu] at h
    exact absurd rfl h
  · rfl

/-- Every member value that `parseMembers` returns was read by the value scanner
it was given. -/
theorem parseMembers_values (pv : Bytes → Option (JSON × Bytes)) :
    ∀ (n : Nat) (inp : Bytes) (ms : List (Bytes × JSON)) (rest : Bytes),
      parseMembers pv n inp = some (ms, rest) →
      ∀ kv ∈ ms, ∃ i r, pv i = some (kv.2, r) := by
  intro n
  induction n with
  | zero => intro inp ms rest h; simp [parseMembers] at h
  | succ n ih =>
    intro inp ms rest h
    unfold parseMembers at h
    split at h
    · split at h
      · simp at h
      · split at h
        · rename_i k rest1 _ rest2 _
          rcases hv : pv (skipSpace rest2) with _ | ⟨v, rest3⟩
          · simp [hv] at h
          · simp only [hv] at h
            split at h
            · rename_i rest4 _
              simp only [Option.map_eq_some'] at h
              obtain ⟨r, hr, hrr⟩ := h
              simp only [Prod.mk.injEq] at hrr
              intro kv hkv
              rw [← hrr.1] at hkv
              rcases List.mem_cons.mp hkv with rfl | hkv
              · exact ⟨_, _, hv⟩
              · exact ih _ r.1 r.2 hr kv hkv
            · simp only [Option.some.injEq, Prod.mk.injEq] at h
              intro kv hkv
              rw [← h.1] at hkv
              simp only [List.mem_singleton] at hkv
              subst hkv
              exact ⟨_, _, hv⟩
            · simp at h
        · simp at h
    · simp at h

/-- The member values of an object that the scanner returns were read by the
scanner. -/
theorem parseValue_object_scanned (depth : Nat) (inp rest raw : Bytes)
    (ms : List (Bytes × JSON)) (h : parseValue depth inp = some (JSON.object raw ms, rest)) :
    ∀ kv ∈ ms, kv.2.scanned := by
  unfold parseValue at h
  cases inp with
  | nil => simp at h
  | cons c tl =>
    simp only at h
    split_ifs at h
    · simp at h
    · split at h <;> simp at h
    · split at h <;> simp at h
    · split at h <;> simp at h
    · split at h
      · simp at h
      · split at h
        · simp at h
        · simp at h
    · split at h
      · simp at h
      · rename_i d
        split at h
        · simp only [Option.some.injEq, Prod.mk.injEq, JSON.object.injEq] at h
          rw [← h.1.2]
          simp
        · simp only [Option.map_eq_some'] at h
          obtain ⟨r, hr, hrr⟩ := h
          simp only [Prod.mk.injEq, JSON.object.injEq] at hrr
          intro kv hkv
          rw [← hrr.1.2] at hkv
          obtain ⟨i, r', hi⟩ := parseMembers_values _ _ _ _ _ hr kv hkv
          exact ⟨d, i, r', hi⟩
    · simp at h

/-- What `parseJSON` returns was read by the scanner. -/
theorem parseJSON_scanned (data : Bytes) (v : JSON) (h : parseJSON data = some v) :
    v.scanned := by
  unfold parseJSON at h
  rcases hp : parseValue maxNestingDepth (skipSpace data) with _ | ⟨w, r⟩
  · simp [hp] at h
  · simp only [hp] at h
    split_ifs at h
    simp only [Option.some.injEq] at h
    subst h
    exact ⟨_, _, _, hp⟩

theorem scanned_wellStarted (v : JSON) (h : v.scanned) : v.wellStarted = true := by
  obtain ⟨d, i, r, hp⟩ := h
  exact parseValue_wellStarted d i r v hp

theorem scanned_members (raw : Bytes) (ms : List (Bytes × JSON))
    (h : (JSON.object raw ms).scanned) : ∀ kv ∈ ms, kv.2.scanned := by
  obtain ⟨d, i, r, hp⟩ := h
  exact parseValue_object_scanned d i r raw ms hp

/-! ## Time stamps that are not integers -/

/-- Decoding a scanned value that is not an integer number into a `*Time` field
returns the error of `UnmarshalJSON`. -/
theorem storeTimePtr_error (v : JSON) (cur : Option Time) (hs : v.scanned)
    (hn : v.isNonInteger = true) : (storeTimePtr v cur).2 ≠ none := by
  have herr := Time_UnmarshalJSON_of_error (cur.getD Time.zero) v.raw
    (UnmarshalInt64_raw_error v 0 (scanned_wellStarted v hs) hn)
  cases v with
  | null => simp [JSON.isNonInteger] at hn
  | bool b => simp only [storeTimePtr, herr]; simp
  | number l => simp only [storeTimePtr, herr]; simp
  | string l => simp only [storeTimePtr, herr]; simp
  | array r l => simp only [storeTimePtr, herr]; simp
  | object r l => simp only [storeTimePtr, herr]; simp

/-- The decoder stops with an error on an event object that has a member for
`send_time` or `update_time` whose value is not an integer number. -/
theorem objectEvent_abort_of_bad_time (k : Bytes) (v : JSON) (f : EventField)
    (hf : lookupField eventFields ((unquoteBytes k).getD []) = some f)
    (hft : f = EventField.SendTime ∨ f = EventField.UpdateTime) (hs : v.scanned)
    (hn : v.isNonInteger = true) :
    ∀ (es : List (Bytes × JSON)) (ev : WebhookEvent) (saved : Option Error),
      (k, v) ∈ es → (objectEvent es ev saved).abort ≠ none := by
  intro es
  induction es with
  | nil => intro ev saved hmem; simp at hmem
  | cons m ms ih =>
    intro ev saved hmem
    obtain ⟨k', v'⟩ := m
    simp only [objectEvent]
    rcases hl : lookupField eventFields ((unquoteBytes k').getD []) with _ | g
    · rcases List.mem_cons.mp hmem with heq | hmem
      · simp only [Prod.mk.injEq] at heq
        rw [← heq.1, hf] at hl
        simp at hl
      · exact ih ev saved hmem
    · simp only
      rcases ha : (storeEventField g v' ev).abort with _ | e
      · simp only
        rcases List.mem_cons.mp hmem with heq | hmem
        · simp only [Prod.mk.injEq] at heq
          obtain ⟨rfl, rfl⟩ := heq
          rw [hf] at hl
          simp only [Option.some.injEq] at hl
          subst hl
          exfalso
          rcases hft with rfl | rfl
          · exact storeTimePtr_error v ev.SendTime hs hn (by simpa [storeEventField] using ha)
          · exact storeTimePtr_error v ev.UpdateTime hs hn (by simpa [storeEventField] using ha)
        · exact ih _ _ hmem
      · simp

/-- The decoder stops with an error on a payload object that has a member for
`webhook_event_time` whose value is not an integer number, or a member for
`webhook_event` that is an object with such a `send_time` or `update_time`. -/
theorem objectPayload_abort_of_bad_time (k : Bytes) (v : JSON) (hs : v.scanned)
    (hbad : (lookupField payloadFields ((unquoteBytes k).getD []) = some PayloadField.Time ∧
        v.isNonInteger = true) ∨
      (lookupField payloadFields ((unquoteBytes k).getD []) = some PayloadField.Event ∧
        ∃ raw es k' v' f, v = JSON.object raw es ∧ (k', v') ∈ es ∧
          lookupField eventFields ((unquoteBytes k').getD []) = some f ∧
          (f = EventField.SendTime ∨ f = EventField.UpdateTime) ∧
          v'.isNonInteger = true)) :
    ∀ (ms : List (Bytes × JSON)) (p : WebhookPayload) (saved : Option Error),
      (k, v) ∈ ms → (objectPayload ms p saved).abort ≠ none := by
  have hstep : ∀ (p : WebhookPayload) (saved : Option Error) (g : PayloadField),
      lookupField payloadFields ((unquoteBytes k).getD []) = some g →
      (storePayloadField g v p saved).abort ≠ none := by
    intro p saved g hg
    rcases hbad with ⟨hf, hn⟩ | ⟨hf, raw, es, k', v', f, hv, hmem, hf', hft, hn⟩
    · rw [hf] at hg
      simp only [Option.some.injEq] at hg
      subst hg
      simp only [storePayloadField]
      rw [Time_UnmarshalJSON_of_error p.Time v.raw
        (UnmarshalInt64_raw_error v 0 (scanned_wellStarted v hs) hn)]
      simp
    · rw [hf] at hg
      simp only [Option.some.injEq] at hg
      subst hg
      subst hv
      simp only [storePayloadField, storeEvent]
      exact objectEvent_abort_of_bad_time k' v' f hf' hft
        (scanned_members raw es hs (k', v') hmem) hn es p.Event saved hmem
  intro ms
  induction ms with
  | nil => intro p saved hmem; simp at hmem
  | cons m ms ih =>
    intro p saved hmem
    obtain ⟨k', v'⟩ := m
    simp only [objectPayload]
    rcases hl : lookupField payloadFields ((unquoteBytes k').getD []) with _ | g
    · rcases List.mem_cons.mp hmem with heq | hmem
      · simp only [Prod.mk.injEq] at heq
        rw [← heq.1] at hl
        rcases hbad with ⟨hf, _⟩ | ⟨hf, _⟩ <;> simp [hf] at hl
      · exact ih p saved hmem
    · simp only
      rcases ha : (storePayloadField g v' p saved).abort with _ | e
      · simp only
        rcases List.mem_cons.mp hmem with heq | hmem
        · simp only [Prod.mk.injEq] at heq
          obtain ⟨rfl, rfl⟩ := heq
          exact absurd ha (hstep p saved g hl)
        · exact ih _ _ hmem
      · simp

/-- The error of `json.Unmarshal` when the decoder stops on a member. -/
theorem Unmarshal_error_of_abort (body raw : Bytes) (ms : List (Bytes × JSON))
    (p : WebhookPayload) (hp : parseJSON body = some (JSON.object raw ms))
    (ha : (objectPayload ms p none).abort ≠ none) : (Unmarshal body p).2 ≠ none := by
  simp only [Unmarshal, hp]
  rcases hab : (objectPayload ms p none).abort with _ | e
  · exact absurd hab ha
  · simp

/-- C9, counterexample. `null` is not an integer number, yet
`Time.UnmarshalJSON` accepts it and stores `time.Unix(0, 0)`, and a payload whose
`send_time` and `webhook_event_time` are `null` decodes without error, leaving
`SendTime` nil. -/
theorem Time_accepts_null :
    Time.UnmarshalJSON Time.zero (str "null") = ({ Time := timeUnix 0 0 }, none) ∧
    Unmarshal (str ("\x7b\"webhook_event_time\":null," ++
        "\"webhook_event\":\x7b\"send_time\":null\x7d\x7d")) WebhookPayload.zero =
      ({ WebhookPayload.zero with Time := { Time := timeUnix 0 0 } }, none) := by
  set_option maxRecDepth 1000000 in decide!

/-- C9, amended. For every JSON value that is a string, a boolean, a number with a
fraction or an exponent, an object or an array, `Time.UnmarshalJSON` leaves the
target as it was and returns the error `data should be number, got ` followed by
the input; a payload whose `webhook_event_time`, or whose `send_time` or
`update_time` inside `webhook_event`, is such a value fails to decode; a `null`
`send_time` or `update_time` sets the pointer to nil without error. -/
theorem Time_rejects_non_integer :
    (∀ (t : Time) (data : Bytes) (v : JSON), parseJSON data = some v →
      v.isNonInteger = true →
      Time.UnmarshalJSON t data =
        (t, some (Error.errorString (str "data should be number, got " ++ data)))) ∧
    (∀ (body raw : Bytes) (ms : List (Bytes × JSON)) (p : WebhookPayload) (k : Bytes)
      (v : JSON), parseJSON body = some (JSON.object raw ms) → (k, v) ∈ ms →
      lookupField payloadFields ((unquoteBytes k).getD []) = some PayloadField.Time →
      v.isNonInteger = true → (Unmarshal body p).2 ≠ none) ∧
    (∀ (body raw rawE : Bytes) (ms es : List (Bytes × JSON)) (p : WebhookPayload)
      (k k' : Bytes) (v : JSON) (f : EventField),
      parseJSON body = some (JSON.object raw ms) → (k, JSON.object rawE es) ∈ ms →
      lookupField payloadFields ((unquoteBytes k).getD []) = some PayloadField.Event →
      (k', v) ∈ es → lookupField eventFields ((unquoteBytes k').getD []) = some f →
      f = EventField.SendTime ∨ f = EventField.UpdateTime →
      v.isNonInteger = true → (Unmarshal body p).2 ≠ none) ∧
    (∀ cur : Option Time, storeTimePtr JSON.null cur = (none, none)) := by
  refine ⟨?_, ?_, ?_, ?_⟩
  · intro t data v hp hn
    apply Time_UnmarshalJSON_of_error
    simp only [UnmarshalInt64, hp]
    exact (storeInt_nonInteger 64 "int64" v 0 hn).2
  · intro body raw ms p k v hp hmem hf hn
    have hsc := scanned_members raw ms (parseJSON_scanned body _ hp) (k, v) hmem
    exact Unmarshal_error_of_abort body raw ms p hp
      (objectPayload_abort_of_bad_time k v hsc (Or.inl ⟨hf, hn⟩) ms p none hmem)
  · intro body raw rawE ms es p k k' v f hp hmem hf hmem' hf' hft hn
    have hsc := scanned_members raw ms (parseJSON_scanned body _ hp) _ hmem
    exact Unmarshal_error_of_abort body raw ms p hp
      (objectPayload_abort_of_bad_time k _ hsc
        (Or.inr ⟨hf, rawE, es, k', v, f, rfl, hmem', hf', hft, hn⟩) ms p none hmem)
  · intro cur
    rfl

/-- The amended C9 at the text `1.5`, at a payload whose `webhook_event_time` is a
string and at a payload whose `update_time` is an array. -/
theorem Time_rejects_non_integer_witness :
    Time.UnmarshalJSON Time.zero (str "1.5") =
      (Time.zero, some (Error.errorString (str "data should be number, got 1.5"))) ∧
    (Unmarshal (str "\x7b\"webhook_event_time\":\"2017-11-21\"\x7d") WebhookPayload.zero).2
      ≠ none ∧
    (Unmarshal (str "\x7b\"webhook_event\":\x7b\"update_time\":[0]\x7d\x7d")
      WebhookPayload.zero).2 ≠ none :=
  ⟨Time_rejects_non_integer.1 Time.zero (str "1.5") (JSON.number (str "1.5"))
      (parseJSON_of_parsesTo (by decide!)) (by decide!),
    Time_rejects_non_integer.2.1 (str "\x7b\"webhook_event_time\":\"2017-11-21\"\x7d")
      (str "\x7b\"webhook_event_time\":\"2017-11-21\"\x7d")
      [(str "\"webhook_event_time\"", JSON.string (str "\"2017-11-21\""))]
      WebhookPayload.zero (str "\"webhook_event_time\"") (JSON.string (str "\"2017-11-21\""))
      (parseJSON_of_parsesTo (by decide!)) (List.mem_singleton.mpr rfl) (by decide!) rfl,
    Time_rejects_non_integer.2.2.1 (str "\x7b\"webhook_event\":\x7b\"update_time\":[0]\x7d\x7d")
      (str "\x7b\"webhook_event\":\x7b\"update_time\":[0]\x7d\x7d")
      (str "\x7b\"update_time\":[0]\x7d")
      [(str "\"webhook_event\"", JSON.object (str "\x7b\"update_time\":[0]\x7d")
        [(str "\"update_time\"", JSON.array (str "[0]") [JSON.number (str "0")])])]
      [(str "\"update_time\"", JSON.array (str "[0]") [JSON.number (str "0")])]
      WebhookPayload.zero (str "\"webhook_event\"") (str "\"update_time\"")
      (JSON.array (str "[0]") [JSON.number (str "0")]) EventField.UpdateTime
      (parseJSON_of_parsesTo (by decide!)) (List.mem_singleton.mpr rfl) (by decide!)
      (List.mem_singleton.mpr rfl) (by decide!) (Or.inr rfl) rfl⟩

/-! ## Decoding a complete payload -/

theorem saveError_none (saved : Option Error) : saveError saved none = saved := by
  cases saved <;> rfl

/-- An event object none of whose members makes the decoder stop or save an
error is decoded by folding `eventStep` over the members. -/
theorem objectEvent_of_clean (es : List (Bytes × JSON))
    (hclean : ∀ m ∈ es, ∀ f, lookupField eventFields ((unquoteBytes m.1).getD []) = some f →
      ∀ ev, (storeEventField f m.2 ev).abort = none ∧ (storeEventField f m.2 ev).saved = none) :
    ∀ (ev : WebhookEvent) (saved : Option Error),
      (objectEvent es ev saved).val = es.foldl eventStep ev ∧
      (objectEvent es ev saved).saved = saved ∧ (objectEvent es ev saved).abort = none := by
  induction es with
  | nil => intro ev saved; simp [objectEvent]
  | cons m ms ih =>
    intro ev saved
    obtain ⟨k, v⟩ := m
    have ih' := ih (fun m hm => hclean m (List.mem_cons_of_mem _ hm))
    simp only [objectEvent, List.foldl_cons, eventStep]
    rcases hl : lookupField eventFields ((unquoteBytes k).getD []) with _ | f
    · exact ih' ev saved
    · obtain ⟨ha, hsv⟩ := hclean (k, v) (List.mem_cons_self _ _) f hl ev
      simp only [ha, hsv, saveError_none]
      exact ih' _ saved

/-- A payload object none of whose members makes the decoder stop or save an
error is decoded by folding `payloadStep` over the members. -/
theorem objectPayload_of_clean (ms : List (Bytes × JSON))
    (hclean : ∀ m ∈ ms, ∀ f, lookupField payloadFields ((unquoteBytes m.1).getD []) = some f →
      ∀ p saved, (storePayloadField f m.2 p saved).abort = none ∧
        (storePayloadField f m.2 p saved).saved = saved ∧
        (storePayloadField f m.2 p saved).val = (storePayloadField f m.2 p none).val) :
    ∀ (p : WebhookPayload) (saved : Option Error),
      (objectPayload ms p saved).val = ms.foldl payloadStep p ∧
      (objectPayload ms p saved).saved = saved ∧ (objectPayload ms p saved).abort = none := by
  induction ms with
  | nil => intro p saved; simp [objectPayload]
  | cons m ms ih =>
    intro p saved
    obtain ⟨k, v⟩ := m
    have ih' := ih (fun m hm => hclean m (List.mem_cons_of_mem _ hm))
    simp only [objectPayload, List.foldl_cons, payloadStep]
    rcases hl : lookupField payloadFields ((unquoteBytes k).getD []) with _ | f
    · exact ih' p saved
    · obtain ⟨ha, hsv, hval⟩ := hclean (k, v) (List.mem_cons_self _ _) f hl p saved
      simp only [ha, hsv, hval]
      exact ih' _ saved

/-- `Time.UnmarshalJSON` on the decimal text of an `int64`. -/
theorem Time_UnmarshalJSON_FormatInt (t : Time) (N : Int) (hlo : -2 ^ 63 ≤ N)
    (hhi : N < 2 ^ 63) :
    Time.UnmarshalJSON t (FormatInt N) = ({ Time := timeUnix N 0 }, none) := by
  obtain ⟨hp, hi⟩ := parseJSON_FormatInt N hlo hhi
  have hr : ¬ (N < -9223372036854775808 ∨ 9223372036854775808 ≤ N) := by
    norm_num at hlo hhi
    omega
  simp [Time.UnmarshalJSON, UnmarshalInt64, hp, storeInt, hi, hr]

/-- `EventType.UnmarshalJSON` on what `MarshalJSON` writes for a valid event type. -/
theorem EventType_UnmarshalJSON_Marshal (x e : EventType)
    (hx : x = MessageCreated ∨ x = MessageUpdated ∨ x = MentionToMe) :
    EventType.UnmarshalJSON e (EventType.MarshalJSON x).1 = (x, none) := by
  rcases hx with rfl | rfl | rfl
  · rw [EventType_UnmarshalJSON_of_string e _ (str "message_created") (by decide!)]
    rfl
  · rw [EventType_UnmarshalJSON_of_string e _ (str "message_updated") (by decide!)]
    rfl
  · rw [EventType_UnmarshalJSON_of_string e _ (str "mention_to_me") (by decide!)]
    rfl

/-- Decoding a string literal into a `*string` field. -/
theorem storeStringPtr_string (lit s : Bytes) (cur : Option Bytes)
    (h : unquoteBytes lit = some s) : storeStringPtr (JSON.string lit) cur = (some s, none) := by
  simp [storeStringPtr, storeString, h]

/-- Decoding the decimal text of an integer of the range of `int` into a `*int`
field. -/
theorem storeIntPtr_FormatInt (n : Int) (cur : Option Int) (hlo : -2 ^ 63 ≤ n)
    (hhi : n < 2 ^ 63) : storeIntPtr (JSON.number (FormatInt n)) cur = (some n, none) := by
  have hi := (parseJSON_FormatInt n hlo hhi).2
  have hr : ¬ (n < -9223372036854775808 ∨ 9223372036854775808 ≤ n) := by
    norm_num at hlo hhi
    omega
  simp [storeIntPtr, storeInt, hi, hr]

/-- Decoding the decimal text of an `int64` into a `*Time` field. -/
theorem storeTimePtr_FormatInt (n : Int) (cur : Option Time) (hlo : -2 ^ 63 ≤ n)
    (hhi : n < 2 ^ 63) :
    storeTimePtr (JSON.number (FormatInt n)) cur = (some { Time := timeUnix n 0 }, none) := by
  simp [storeTimePtr, JSON.raw, Time_UnmarshalJSON_FormatInt _ n hlo hhi]

/-- An event object whose members are, in any order, `message_id` and `body` with
string values and `room_id`, `account_id`, `send_time` and `update_time` with
the decimal text of integers in range: the decoder stores the six values and
neither stops nor saves an error. -/
theorem objectEvent_full (es : List (Bytes × JSON))
    (k1 v1 k2 k3 k4 v4 k5 k6 mid b : Bytes) (rid aid st ut : Int)
    (hes : es.Perm [(k1, JSON.string v1), (k2, JSON.number (FormatInt rid)),
      (k3, JSON.number (FormatInt aid)), (k4, JSON.string v4),
      (k5, JSON.number (FormatInt st)), (k6, JSON.number (FormatInt ut))])
    (hk1 : unquoteBytes k1 = some (str "message_id"))
    (hk2 : unquoteBytes k2 = some (str "room_id"))
    (hk3 : unquoteBytes k3 = some (str "account_id"))
    (hk4 : unquoteBytes k4 = some (str "body"))
    (hk5 : unquoteBytes k5 = some (str "send_time"))
    (hk6 : unquoteBytes k6 = some (str "update_time"))
    (hv1 : unquoteBytes v1 = some mid) (hv4 : unquoteBytes v4 = some b)
    (hrid : -2 ^ 63 ≤ rid ∧ rid < 2 ^ 63) (haid : -2 ^ 63 ≤ aid ∧ aid < 2 ^ 63)
    (hst : -2 ^ 63 ≤ st ∧ st < 2 ^ 63) (hut : -2 ^ 63 ≤ ut ∧ ut < 2 ^ 63)
    (ev : WebhookEvent) (saved : Option Error) :
    (objectEvent es ev saved).val =
      { ev with MessageID := some mid, RoomID := some rid, Body := some b,
                SendTime := some { Time := timeUnix st 0 },
                UpdateTime := some { Time := timeUnix ut 0 }, AccountID := some aid } ∧
    (objectEvent es ev saved).saved = saved ∧ (objectEvent es ev saved).abort = none := by
  have l1 : lookupField eventFields (str "message_id") = some EventField.MessageID := by decide!
  have l2 : lookupField eventFields (str "room_id") = some EventField.RoomID := by decide!
  have l3 : lookupField eventFields (str "account_id") = some EventField.AccountID := by decide!
  have l4 : lookupField eventFields (str "body") = some EventField.Body := by decide!
  have l5 : lookupField eventFields (str "send_time") = some EventField.SendTime := by decide!
  have l6 : lookupField eventFields (str "update_time") = some EventField.UpdateTime := by decide!
  have s1 := fun cur => storeStringPtr_string v1 mid cur hv1
  have s2 := fun cur => storeIntPtr_FormatInt rid cur hrid.1 hrid.2
  have s3 := fun cur => storeIntPtr_FormatInt aid cur haid.1 haid.2
  have s4 := fun cur => storeStringPtr_string v4 b cur hv4
  have s5 := fun cur => storeTimePtr_FormatInt st cur hst.1 hst.2
  have s6 := fun cur => storeTimePtr_FormatInt ut cur hut.1 hut.2
  have e1 : ∀ z, eventStep z (k1, JSON.string v1) = { z with MessageID := some mid } := by
    intro z; simp [eventStep, hk1, l1, storeEventField, s1]
  have e2 : ∀ z, eventStep z (k2, JSON.number (FormatInt rid)) = { z with RoomID := some rid } := by
    intro z; simp [eventStep, hk2, l2, storeEventField, s2]
  have e3 : ∀ z, eventStep z (k3, JSON.number (FormatInt aid)) =
      { z with AccountID := some aid } := by
    intro z; simp [eventStep, hk3, l3, storeEventField, s3]
  have e4 : ∀ z, eventStep z (k4, JSON.string v4) = { z with Body := some b } := by
    intro z; simp [eventStep, hk4, l4, storeEventField, s4]
  have e5 : ∀ z, eventStep z (k5, JSON.number (FormatInt st)) =
      { z with SendTime := some { Time := timeUnix st 0 } } := by
    intro z; simp [eventStep, hk5, l5, storeEventField, s5]
  have e6 : ∀ z, eventStep z (k6, JSON.number (FormatInt ut)) =
      { z with UpdateTime := some { Time := timeUnix ut 0 } } := by
    intro z; simp [eventStep, hk6, l6, storeEventField, s6]
  have hclean : ∀ m ∈ es, ∀ f, lookupField eventFields ((unquoteBytes m.1).getD []) = some f →
      ∀ ev, (storeEventField f m.2 ev).abort = none ∧ (storeEventField f m.2 ev).saved = none := by
    intro m hm f hf z
    have hm' := hes.mem_iff.mp hm
    simp only [List.mem_cons, List.mem_singleton, List.not_mem_nil, or_false] at hm'
    rcases hm' with rfl | rfl | rfl | rfl | rfl | rfl
    · simp only [hk1, Option.getD_some, l1, Option.some.injEq] at hf
      subst hf; simp [storeEventField, s1]
    · simp only [hk2, Option.getD_some, l2, Option.some.injEq] at hf
      subst hf; simp [storeEventField, s2]
    · simp only [hk3, Option.getD_some, l3, Option.some.injEq] at hf
      subst hf; simp [storeEventField, s3]
    · simp only [hk4, Option.getD_some, l4, Option.some.injEq] at hf
      subst hf; simp [storeEventField, s4]
    · simp only [hk5, Option.getD_some, l5, Option.some.injEq] at hf
      subst hf; simp [storeEventField, s5]
    · simp only [hk6, Option.getD_some, l6, Option.some.injEq] at hf
      subst hf; simp [storeEventField, s6]
  obtain ⟨hval, hsv, hab⟩ := objectEvent_of_clean es hclean ev saved
  refine ⟨?_, hsv, hab⟩
  rw [hval, ← List.Perm.foldl_eq' hes.symm ?_ ev]
  · simp only [List.foldl_cons, List.foldl_nil, e1, e2, e3, e4, e5, e6]
  · intro x hx y hy z
    simp only [List.mem_cons, List.mem_singleton, List.not_mem_nil, or_false] at hx hy
    rcases hx with rfl | rfl | rfl | rfl | rfl | rfl <;>
      rcases hy with rfl | rfl | rfl | rfl | rfl | rfl <;>
        simp only [e1, e2, e3, e4, e5, e6]

/-- A payload object whose members are, in any order, the setting id as a string,
the event type as written by `MarshalJSON`, the event time as the decimal text of
an `int64` and a complete event object: `json.Unmarshal` stores the four fields
and returns no error. -/
theorem Unmarshal_full (body raw rawE : Bytes) (ms es : List (Bytes × JSON))
    (kS vS kT kN kE k1 v1 k2 k3 k4 v4 k5 k6 s mid b : Bytes) (ty : EventType)
    (N rid aid st ut : Int)
    (hparse : parseJSON body = some (JSON.object raw ms))
    (hms : ms.Perm [(kS, JSON.string vS), (kT, JSON.string (EventType.MarshalJSON ty).1),
      (kN, JSON.number (FormatInt N)), (kE, JSON.object rawE es)])
    (hes : es.Perm [(k1, JSON.string v1), (k2, JSON.number (FormatInt rid)),
      (k3, JSON.number (FormatInt aid)), (k4, JSON.string v4),
      (k5, JSON.number (FormatInt st)), (k6, JSON.number (FormatInt ut))])
    (hkS : unquoteBytes kS = some (str "webhook_setting_id"))
    (hkT : unquoteBytes kT = some (str "webhook_event_type"))
    (hkN : unquoteBytes kN = some (str "webhook_event_time"))
    (hkE : unquoteBytes kE = some (str "webhook_event"))
    (hk1 : unquoteBytes k1 = some (str "message_id"))
    (hk2 : unquoteBytes k2 = some (str "room_id"))
    (hk3 : unquoteBytes k3 = some (str "account_id"))
    (hk4 : unquoteBytes k4 = some (str "body"))
    (hk5 : unquoteBytes k5 = some (str "send_time"))
    (hk6 : unquoteBytes k6 = some (str "update_time"))
    (hvS : unquoteBytes vS = some s) (hv1 : unquoteBytes v1 = some mid)
    (hv4 : unquoteBytes v4 = some b)
    (hty : ty = MessageCreated ∨ ty = MessageUpdated ∨ ty = MentionToMe)
    (hN : -2 ^ 63 ≤ N ∧ N < 2 ^ 63)
    (hrid : -2 ^ 63 ≤ rid ∧ rid < 2 ^ 63) (haid : -2 ^ 63 ≤ aid ∧ aid < 2 ^ 63)
    (hst : -2 ^ 63 ≤ st ∧ st < 2 ^ 63) (hut : -2 ^ 63 ≤ ut ∧ ut < 2 ^ 63) :
    Unmarshal body WebhookPayload.zero =
      ({ SettingID := s, Typ := ty, Time := { Time := timeUnix N 0 },
         Event :=
          { MessageID := some mid, RoomID := some rid, Body := some b,
            SendTime := some { Time := timeUnix st 0 },
            UpdateTime := some { Time := timeUnix ut 0 }, AccountID := some aid,
            FromAccountID := none, ToAccountID := none } }, none) := by
  have lS : lookupField payloadFields (str "webhook_setting_id") = some PayloadField.SettingID := by
    decide!
  have lT : lookupField payloadFields (str "webhook_event_type") = some PayloadField.Typ := by
    decide!
  have lN : lookupField payloadFields (str "webhook_event_time") = some PayloadField.Time := by
    decide!
  have lE : lookupField payloadFields (str "webhook_event") = some PayloadField.Event := by
    decide!
  have hev := objectEvent_full es k1 v1 k2 k3 k4 v4 k5 k6 mid b rid aid st ut hes
    hk1 hk2 hk3 hk4 hk5 hk6 hv1 hv4 hrid haid hst hut
  have hT := fun e => EventType_UnmarshalJSON_Marshal ty e hty
  have hTime := fun t => Time_UnmarshalJSON_FormatInt t N hN.1 hN.2
  have pS : ∀ z, payloadStep z (kS, JSON.string vS) = { z with SettingID := s } := by
    intro z; simp [payloadStep, hkS, lS, storePayloadField, storeString, hvS]
  have pT : ∀ z, payloadStep z (kT, JSON.string (EventType.MarshalJSON ty).1) =
      { z with Typ := ty } := by
    intro z; simp [payloadStep, hkT, lT, storePayloadField, JSON.raw, hT]
  have pN : ∀ z, payloadStep z (kN, JSON.number (FormatInt N)) =
      { z with Time := { Time := timeUnix N 0 } } := by
    intro z; simp [payloadStep, hkN, lN, storePayloadField, JSON.raw, hTime]
  have pE : ∀ z, payloadStep z (kE, JSON.object rawE es) =
      { z with Event :=
          { z.Event with MessageID := some mid, RoomID := some rid, Body := some b,
                         SendTime := some { Time := timeUnix st 0 },
                         UpdateTime := some { Time := timeUnix ut 0 },
                         AccountID := some aid } } := by
    intro z
    simp [payloadStep, hkE, lE, storePayloadField, storeEvent, (hev z.Event none).1]
  have hclean : ∀ m ∈ ms, ∀ f,
      lookupField payloadFields ((unquoteBytes m.1).getD []) = some f →
      ∀ p saved, (storePayloadField f m.2 p saved).abort = none ∧
        (storePayloadField f m.2 p saved).saved = saved ∧
        (storePayloadField f m.2 p saved).val = (storePayloadField f m.2 p none).val := by
    intro m hm f hf p saved
    have hm' := hms.mem_iff.mp hm
    simp only [List.mem_cons, List.mem_singleton, List.not_mem_nil, or_false] at hm'
    rcases hm' with rfl | rfl | rfl | rfl
    · simp only [hkS, Option.getD_some, lS, Option.some.injEq] at hf
      subst hf; simp [storePayloadField, storeString, hvS, saveError_none]
    · simp only [hkT, Option.getD_some, lT, Option.some.injEq] at hf
      subst hf; simp [storePayloadField, JSON.raw, hT]
    · simp only [hkN, Option.getD_some, lN, Option.some.injEq] at hf
      subst hf; simp [storePayloadField, JSON.raw, hTime]
    · simp only [hkE, Option.getD_some, lE, Option.some.injEq] at hf
      subst hf
      simp [storePayloadField, storeEvent, (hev p.Event saved).1, (hev p.Event saved).2.1,
        (hev p.Event saved).2.2, (hev p.Event none).1]
  obtain ⟨hval, hsv, hab⟩ := objectPayload_of_clean ms hclean WebhookPayload.zero none
  simp only [Unmarshal, hparse, hval, hsv, hab]
  rw [← List.Perm.foldl_eq' hms.symm ?_ WebhookPayload.zero]
  · simp only [List.foldl_cons, List.foldl_nil, pS, pT, pN, pE]
    rfl
  · intro x hx y hy z
    simp only [List.mem_cons, List.mem_singleton, List.not_mem_nil, or_false] at hx hy
    rcases hx with rfl | rfl | rfl | rfl <;> rcases hy with rfl | rfl | rfl | rfl <;>
      simp only [pS, pT, pN, pE]

/-- C3, counterexample. The body of the tests with `webhook_event_time` set to the
integer `9223372036854775808`: every member is as the claim describes, yet `Parse`
returns the error of `Time.UnmarshalJSON`. -/
theorem Parse_event_time_out_of_range :
    (Parse testToken (postRequest bigTimeBody testSignature)).2 =
      some (Error.errorString (str "data should be number, got 9223372036854775808")) := by
  set_option maxRecDepth 1000000 in decide!

/-- C3, amended. For a `POST` request with a non-empty signature header whose body
is read without error and is a JSON object with, in any order, `webhook_setting_id`
a string of value `s`, `webhook_event_type` one of the three literals,
`webhook_event_time` the decimal text of an integer `N` of the range of `int64`, and
`webhook_event` an object with, in any order, `message_id` and `body` strings and
`room_id`, `account_id`, `send_time`, `update_time` decimal integers of the
range of their Go types: `Parse` returns a `nil` error and a hook whose payload
holds these values, the times being `time.Unix(n, 0)`, which has no nanoseconds
and whose `Unix()` is `n`. -/
theorem Parse_full_payload (secret : Bytes) (req : Request) (raw rawE : Bytes)
    (ms es : List (Bytes × JSON))
    (kS vS kT kN kE k1 v1 k2 k3 k4 v4 k5 k6 s mid b : Bytes) (ty : EventType)
    (N rid aid st ut : Int)
    (hm : EqualFold req.Method (str "POST") = true)
    (hs : req.Header.Get (str "X-ChatWorkWebhookSignature") ≠ [])
    (hb : req.Body.2 = none)
    (hparse : parseJSON req.Body.1 = some (JSON.object raw ms))
    (hms : ms.Perm [(kS, JSON.string vS), (kT, JSON.string (EventType.MarshalJSON ty).1),
      (kN, JSON.number (FormatInt N)), (kE, JSON.object rawE es)])
    (hes : es.Perm [(k1, JSON.string v1), (k2, JSON.number (FormatInt rid)),
      (k3, JSON.number (FormatInt aid)), (k4, JSON.string v4),
      (k5, JSON.number (FormatInt st)), (k6, JSON.number (FormatInt ut))])
    (hkS : unquoteBytes kS = some (str "webhook_setting_id"))
    (hkT : unquoteBytes kT = some (str "webhook_event_type"))
    (hkN : unquoteBytes kN = some (str "webhook_event_time"))
    (hkE : unquoteBytes kE = some (str "webhook_event"))
    (hk1 : unquoteBytes k1 = some (str "message_id"))
    (hk2 : unquoteBytes k2 = some (str "room_id"))
    (hk3 : unquoteBytes k3 = some (str "account_id"))
    (hk4 : unquoteBytes k4 = some (str "body"))
    (hk5 : unquoteBytes k5 = some (str "send_time"))
    (hk6 : unquoteBytes k6 = some (str "update_time"))
    (hvS : unquoteBytes vS = some s) (hv1 : unquoteBytes v1 = some mid)
    (hv4 : unquoteBytes v4 = some b)
    (hty : ty = MessageCreated ∨ ty = MessageUpdated ∨ ty = MentionToMe)
    (hN : -2 ^ 63 ≤ N ∧ N < 2 ^ 63)
    (hrid : -2 ^ 63 ≤ rid ∧ rid < 2 ^ 63) (haid : -2 ^ 63 ≤ aid ∧ aid < 2 ^ 63)
    (hst : -2 ^ 63 ≤ st ∧ st < 2 ^ 63) (hut : -2 ^ 63 ≤ ut ∧ ut < 2 ^ 63) :
    Parse secret req =
      (some { Signature := req.Header.Get (str "X-ChatWorkWebhookSignature"),
              RawPayload := req.Body.1,
              Payload :=
                { SettingID := s, Typ := ty, Time := { Time := timeUnix N 0 },
                  Event :=
                    { MessageID := some mid, RoomID := some rid, Body := some b,
                      SendTime := some { Time := timeUnix st 0 },
                      UpdateTime := some { Time := timeUnix ut 0 }, AccountID := some aid,
                      FromAccountID := none, ToAccountID := none } } }, none) ∧
    ((timeUnix N 0).Nanosecond = 0 ∧ (timeUnix N 0).Unix = N) ∧
    ((timeUnix st 0).Nanosecond = 0 ∧ (timeUnix st 0).Unix = st) ∧
    ((timeUnix ut 0).Nanosecond = 0 ∧ (timeUnix ut 0).Unix = ut) := by
  have hU := Unmarshal_full req.Body.1 raw rawE ms es kS vS kT kN kE k1 v1 k2 k3 k4 v4 k5 k6
    s mid b ty N rid aid st ut hparse hms hes hkS hkT hkN hkE hk1 hk2 hk3 hk4 hk5 hk6
    hvS hv1 hv4 hty hN hrid haid hst hut
  have hn := New_of_post req hm hs
  rw [hb] at hn
  refine ⟨?_, (timeUnix_Unix N hN.1 hN.2).2, (timeUnix_Unix st hst.1 hst.2).2,
    (timeUnix_Unix ut hut.1 hut.2).2⟩
  rw [Parse_of_New secret req _ hn]
  simp [newHook, hU]

/-- The amended C3 at the request of `TestEventParse`: the payload is the one the
test expects. -/
theorem Parse_full_payload_witness :
    Parse testToken (postRequest testBody testSignature) =
      (some { Signature := testSignature, RawPayload := testBody, Payload := testPayload },
        none) := by
  have h := (Parse_full_payload testToken (postRequest testBody testSignature)
    testBody testEventText testMembers testEventMembers
    (str "\"webhook_setting_id\"") (str "\"246\"") (str "\"webhook_event_type\"")
    (str "\"webhook_event_time\"") (str "\"webhook_event\"")
    (str "\"message_id\"") (str "\"984676321621704704\"") (str "\"room_id\"")
    (str "\"account_id\"") (str "\"body\"") (str "\"test\"") (str "\"send_time\"")
    (str "\"update_time\"") (str "246") (str "984676321621704704") (str "test")
    MessageCreated 1511238729 36818150 1484814 1511238729 0
    (postRequest_Method _ _) (by rw [postRequest_Get]; decide!) rfl
    (parseJSON_of_parsesTo (by set_option maxRecDepth 1000000 in decide!))
    (List.Perm.refl _) (List.Perm.refl _)
    (by decide!) (by decide!) (by decide!) (by decide!) (by decide!) (by decide!)
    (by decide!) (by decide!) (by decide!) (by decide!) (by decide!) (by decide!)
    (by decide!) (Or.inl rfl) (by norm_num) (by norm_num) (by norm_num) (by norm_num)
    (by norm_num)).1
  rw [postRequest_Get] at h
  exact h

/-! ## The scanner consumes input, and its bounds are never reached -/

theorem skipSpace_length (inp : Bytes) : (skipSpace inp).length ≤ inp.length := by
  induction inp with
  | nil => simp [skipSpace]
  | cons c tl ih =>
    simp only [skipSpace]
    split_ifs
    · simp only [List.length_cons]; omega
    · simp

/-- The scanner consumes at least the closing quote of a string. -/
theorem scanString_length (inp k r : Bytes) (h : scanString inp = some (k, r)) :
    r.length < inp.length := by
  induction inp using scanString.induct generalizing k r with
  | case1 => simp [scanString] at h
  | case2 rest =>
    simp only [scanString, Option.some.injEq, Prod.mk.injEq] at h
    rw [← h.2]; simp
  | case3 a b c d rest hhex ih =>
    simp only [scanString, hhex, and_self, if_true, Option.map_eq_some'] at h
    obtain ⟨x, hx, hxr⟩ := h
    simp only [Prod.mk.injEq] at hxr
    have := ih x.1 x.2 hx
    rw [← hxr.2]
    simp only [List.length_cons]; omega
  | case4 a b c d rest hhex =>
    simp [scanString, hhex] at h
  | case5 e rest hne he ih =>
    rw [scanString] at h
    · simp only [he, if_true, Option.map_eq_some'] at h
      obtain ⟨x, hx, hxr⟩ := h
      simp only [Prod.mk.injEq] at hxr
      have := ih x.1 x.2 hx
      rw [← hxr.2]
      simp only [List.length_cons]; omega
    · exact hne
  | case6 e rest hne he =>
    rw [scanString] at h
    · simp [he] at h
    · exact hne
  | case7 c rest h1 h2 h3 hc =>
    rw [scanString] at h
    · simp [hc] at h
    · exact h1
    · exact h2
    · exact h3
  | case8 c rest h1 h2 h3 hc ih =>
    rw [scanString] at h
    · simp only [hc, if_false, Option.map_eq_some'] at h
      obtain ⟨x, hx, hxr⟩ := h
      simp only [Prod.mk.injEq] at hxr
      have := ih x.1 x.2 hx
      rw [← hxr.2]
      simp only [List.length_cons]; omega
    · exact h1
    · exact h2
    · exact h3

/-- A number literal holds at least one byte, so the scanner consumes input. -/
theorem scanNumber_length (inp lit r : Bytes) (h : scanNumber inp = some (lit, r)) :
    r.length < inp.length := by
  obtain ⟨c, tl, hlit, _⟩ := scanNumber_head inp lit r h
  have := scanNumber_append inp lit r h
  rw [this, hlit]
  simp only [List.cons_append, List.length_cons, List.length_append]
  omega

/-- If the value scanner consumes input, so does the scanner of array items. -/
theorem parseItems_length (pv : Bytes → Option (JSON × Bytes))
    (hpv : ∀ i v r, pv i = some (v, r) → r.length < i.length) :
    ∀ (n : Nat) (inp : Bytes) (vs : List JSON) (rest : Bytes),
      parseItems pv n inp = some (vs, rest) → rest.length < inp.length := by
  intro n
  induction n with
  | zero => intro inp vs rest h; simp [parseItems] at h
  | succ n ih =>
    intro inp vs rest h
    unfold parseItems at h
    rcases hv : pv inp with _ | ⟨v, r1⟩
    · simp [hv] at h
    · simp only [hv] at h
      have h1 := hpv _ _ _ hv
      have h2 := skipSpace_length r1
      split at h
      · rename_i rest1 heq
        simp only [Option.map_eq_some'] at h
        obtain ⟨x, hx, hxr⟩ := h
        simp only [Prod.mk.injEq] at hxr
        have h3 := ih _ _ _ hx
        have h4 := skipSpace_length rest1
        rw [heq] at h2
        simp only [List.length_cons] at h2
        rw [← hxr.2]
        omega
      · rename_i rest1 heq
        simp only [Option.some.injEq, Prod.mk.injEq] at h
        rw [heq] at h2
        simp only [List.length_cons] at h2
        rw [← h.2]
        omega
      · simp at h

/-- If the value scanner consumes input, so does the scanner of object members. -/
theorem parseMembers_length (pv : Bytes → Option (JSON × Bytes))
    (hpv : ∀ i v r, pv i = some (v, r) → r.length < i.length) :
    ∀ (n : Nat) (inp : Bytes) (ms : List (Bytes × JSON)) (rest : Bytes),
      parseMembers pv n inp = some (ms, rest) → rest.length < inp.length := by
  intro n
  induction n with
  | zero => intro inp ms rest h; simp [parseMembers] at h
  | succ n ih =>
    intro inp ms rest h
    unfold parseMembers at h
    split at h
    · rename_i rest0
      rcases hk : scanString rest0 with _ | ⟨k, rest1⟩
      · simp [hk] at h
      · simp only [hk] at h
        have h0 := scanString_length _ _ _ hk
        have h1 := skipSpace_length rest1
        split at h
        · rename_i rest2 heq2
          rw [heq2] at h1
          simp only [List.length_cons] at h1
          have h2 := skipSpace_length rest2
          rcases hv : pv (skipSpace rest2) with _ | ⟨v, rest3⟩
          · simp [hv] at h
          · simp only [hv] at h
            have h3 := hpv _ _ _ hv
            have h4 := skipSpace_length rest3
            split at h
            · rename_i rest4 heq4
              rw [heq4] at h4
              simp only [List.length_cons] at h4
              simp only [Option.map_eq_some'] at h
              obtain ⟨x, hx, hxr⟩ := h
              simp only [Prod.mk.injEq] at hxr
              have h5 := ih _ _ _ hx
              have h6 := skipSpace_length rest4
              rw [← hxr.2]
              simp only [List.length_cons]
              omega
            · rename_i rest4 heq4
              rw [heq4] at h4
              simp only [List.length_cons] at h4
              simp only [Option.some.injEq, Prod.mk.injEq] at h
              rw [← h.2]
              simp only [List.length_cons]
              omega
            · simp at h
        · simp at h
    · simp at h

/-- The scanner consumes at least one byte for every value it returns. -/
theorem parseValue_length :
    ∀ (depth : Nat) (inp : Bytes) (v : JSON) (rest : Bytes),
      parseValue depth inp = some (v, rest) → rest.length < inp.length := by
  intro depth
  induction depth with
  | zero =>
    intro inp v rest h
    unfold parseValue at h
    cases inp with
    | nil => simp at h
    | cons c tl =>
      simp only at h
      split_ifs at h
      · simp only [Option.map_eq_some'] at h
        obtain ⟨x, hx, hxr⟩ := h
        simp only [Prod.mk.injEq] at hxr
        have := scanString_length _ _ _ hx
        rw [← hxr.2]; simp only [List.length_cons]; omega
      · split at h
        · simp only [Option.some.injEq, Prod.mk.injEq] at h
          rw [← h.2]; simp only [List.length_cons]; omega
        · simp at h
      · split at h
        · simp only [Option.some.injEq, Prod.mk.injEq] at h
          rw [← h.2]; simp only [List.length_cons]; omega
        · simp at h
      · split at h
        · simp only [Option.some.injEq, Prod.mk.injEq] at h
          rw [← h.2]; simp only [List.length_cons]; omega
        · simp at h
      · simp only [Option.map_eq_some'] at h
        obtain ⟨x, hx, hxr⟩ := h
        simp only [Prod.mk.injEq] at hxr
        have := scanNumber_length _ x.1 x.2 (by simpa using hx)
        rw [← hxr.2]; exact this
  | succ d ih =>
    intro inp v rest h
    unfold parseValue at h
    cases inp with
    | nil => simp at h
    | cons c tl =>
      simp only at h
      have hsk := skipSpace_length tl
      split_ifs at h
      · simp only [Option.map_eq_some'] at h
        obtain ⟨x, hx, hxr⟩ := h
        simp only [Prod.mk.injEq] at hxr
        have := scanString_length _ _ _ hx
        rw [← hxr.2]; simp only [List.length_cons]; omega
      · split at h
        · simp only [Option.some.injEq, Prod.mk.injEq] at h
          rw [← h.2]; simp only [List.length_cons]; omega
        · simp at h
      · split at h
        · simp only [Option.some.injEq, Prod.mk.injEq] at h
          rw [← h.2]; simp only [List.length_cons]; omega
        · simp at h
      · split at h
        · simp only [Option.some.injEq, Prod.mk.injEq] at h
          rw [← h.2]; simp only [List.length_cons]; omega
        · simp at h
      · split at h
        · rename_i rest1 heq
          rw [heq] at hsk
          simp only [List.length_cons] at hsk
          simp only [Option.some.injEq, Prod.mk.injEq] at h
          rw [← h.2]; simp only [List.length_cons]; omega
        · simp only [Option.map_eq_some'] at h
          obtain ⟨x, hx, hxr⟩ := h
          simp only [Prod.mk.injEq] at hxr
          have := parseItems_length _ ih _ _ _ _ hx
          rw [← hxr.2]; simp only [List.length_cons]; omega
      · split at h
        · rename_i rest1 heq
          rw [heq] at hsk
          simp only [List.length_cons] at hsk
          simp only [Option.some.injEq, Prod.mk.injEq] at h
          rw [← h.2]; simp only [List.length_cons]; omega
        · simp only [Option.map_eq_some'] at h
          obtain ⟨x, hx, hxr⟩ := h
          simp only [Prod.mk.injEq] at hxr
          have := parseMembers_length _ ih _ _ _ _ hx
          rw [← hxr.2]; simp only [List.length_cons]; omega
      · simp only [Option.map_eq_some'] at h
        obtain ⟨x, hx, hxr⟩ := h
        simp only [Prod.mk.injEq] at hxr
        have := scanNumber_length _ x.1 x.2 (by simpa using hx)
        rw [← hxr.2]; exact this
/-- The bound on the number of array items never cuts a scan short: any bound that
is at least the length of the input gives the same result. -/
theorem parseItems_fuel (pv : Bytes → Option (JSON × Bytes))
    (hpv : ∀ i v r, pv i = some (v, r) → r.length < i.length) :
    ∀ (n m : Nat) (inp : Bytes), inp.length ≤ n → inp.length ≤ m →
      parseItems pv n inp = parseItems pv m inp := by
  have hnil : pv [] = none := by
    rcases h : pv [] with _ | ⟨v, r⟩
    · rfl
    · have := hpv _ _ _ h
      simp at this
  intro n
  induction n with
  | zero =>
    intro m inp hn _
    have : inp = [] := List.length_eq_zero.mp (Nat.le_zero.mp hn)
    subst this
    cases m with
    | zero => rfl
    | succ m => simp [parseItems, hnil]
  | succ n ih =>
    intro m inp hn hm
    cases m with
    | zero =>
      have : inp = [] := List.length_eq_zero.mp (Nat.le_zero.mp hm)
      subst this
      simp [parseItems, hnil]
    | succ m =>
      unfold parseItems
      rcases hv : pv inp with _ | ⟨v, r1⟩
      · rfl
      · simp only
        have h1 := hpv _ _ _ hv
        have h2 := skipSpace_length r1
        split
        · rename_i rest1 heq
          rw [heq] at h2
          simp only [List.length_cons] at h2
          have h3 := skipSpace_length rest1
          rw [ih m (skipSpace rest1) (by omega) (by omega)]
        · rfl
        · rfl

/-- The bound on the number of object members never cuts a scan short. -/
theorem parseMembers_fuel (pv : Bytes → Option (JSON × Bytes))
    (hpv : ∀ i v r, pv i = some (v, r) → r.length < i.length) :
    ∀ (n m : Nat) (inp : Bytes), inp.length ≤ n → inp.length ≤ m →
      parseMembers pv n inp = parseMembers pv m inp := by
  intro n
  induction n with
  | zero =>
    intro m inp hn _
    have : inp = [] := List.length_eq_zero.mp (Nat.le_zero.mp hn)
    subst this
    cases m with
    | zero => rfl
    | succ m => simp [parseMembers]
  | succ n ih =>
    intro m inp hn hm
    cases m with
    | zero =>
      have : inp = [] := List.length_eq_zero.mp (Nat.le_zero.mp hm)
      subst this
      simp [parseMembers]
    | succ m =>
      unfold parseMembers
      split
      · rename_i rest0
        rcases hk : scanString rest0 with _ | ⟨k, rest1⟩
        · rfl
        · simp only
          have h0 := scanString_length _ _ _ hk
          have h1 := skipSpace_length rest1
          split
          · rename_i rest2 heq2
            rw [heq2] at h1
            simp only [List.length_cons] at h1
            have h2 := skipSpace_length rest2
            rcases hv : pv (skipSpace rest2) with _ | ⟨v, rest3⟩
            · rfl
            · simp only
              have h3 := hpv _ _ _ hv
              have h4 := skipSpace_length rest3
              split
              · rename_i rest4 heq4
                rw [heq4] at h4
                simp only [List.length_cons] at h4
                have h6 := skipSpace_length rest4
                simp only [List.length_cons] at hn hm
                rw [ih m (skipSpace rest4) (by omega) (by omega)]
              · rfl
              · rfl
          · rfl
      · rfl

/-- The bounds that `parseValue` passes to `parseItems` and `parseMembers`, the
length of the input, can be replaced by any larger bound. -/
theorem parseValue_fuel_adequate (depth n : Nat) (inp : Bytes) (h : inp.length ≤ n) :
    parseItems (parseValue depth) n inp = parseItems (parseValue depth) inp.length inp ∧
    parseMembers (parseValue depth) n inp = parseMembers (parseValue depth) inp.length inp :=
  ⟨parseItems_fuel _ (parseValue_length depth) n inp.length inp h (Nat.le_refl _),
    parseMembers_fuel _ (parseValue_length depth) n inp.length inp h (Nat.le_refl _)⟩

/-! ## String literals that the scanner accepts always unquote -/

/-- What the scanner returns for a string is an accepted text followed by the
closing quote. -/
theorem scanString_body (inp k r : Bytes) (h : scanString inp = some (k, r)) :
    ∃ body, k = body ++ [0x22] ∧ StringBody body := by
  induction inp using scanString.induct generalizing k r with
  | case1 => simp [scanString] at h
  | case2 rest =>
    simp only [scanString, Option.some.injEq, Prod.mk.injEq] at h
    exact ⟨[], by rw [← h.1]; rfl, StringBody.nil⟩
  | case3 a b c d rest hhex ih =>
    simp only [scanString, hhex, and_self, if_true, Option.map_eq_some'] at h
    obtain ⟨x, hx, hxr⟩ := h
    simp only [Prod.mk.injEq] at hxr
    obtain ⟨body, hb, hsb⟩ := ih x.1 x.2 hx
    exact ⟨0x5C :: 0x75 :: a :: b :: c :: d :: body, by rw [← hxr.1, hb]; rfl,
      StringBody.unicode a b c d body hhex hsb⟩
  | case4 a b c d rest hhex =>
    simp [scanString, hhex] at h
  | case5 e rest hne he ih =>
    rw [scanString] at h
    · simp only [he, if_true, Option.map_eq_some'] at h
      obtain ⟨x, hx, hxr⟩ := h
      simp only [Prod.mk.injEq] at hxr
      obtain ⟨body, hb, hsb⟩ := ih x.1 x.2 hx
      exact ⟨0x5C :: e :: body, by rw [← hxr.1, hb]; rfl, StringBody.escape e body he hsb⟩
    · exact hne
  | case6 e rest hne he =>
    rw [scanString] at h
    · simp [he] at h
    · exact hne
  | case7 c rest h1 h2 h3 hc =>
    rw [scanString] at h
    · simp [hc] at h
    · exact h1
    · exact h2
    · exact h3
  | case8 c rest h1 h2 h3 hc ih =>
    rw [scanString] at h
    · simp only [hc, if_false, Option.map_eq_some'] at h
      obtain ⟨x, hx, hxr⟩ := h
      simp only [Prod.mk.injEq] at hxr
      obtain ⟨body, hb, hsb⟩ := ih x.1 x.2 hx
      exact ⟨c :: body, by rw [← hxr.1, hb]; rfl,
        StringBody.plain c body hc (fun hq => h1 hq) hsb⟩
    · exact h1
    · exact h2
    · exact h3

/-- Dropping one byte that is not below `0x80` from an accepted text. -/
theorem StringBody_tail (c : Nat) (rest : Bytes) (hc : 0x80 ≤ c)
    (h : StringBody (c :: rest)) : StringBody rest := by
  cases h with
  | unicode => omega
  | escape => omega
  | plain _ _ _ _ hr => exact hr

/-- The width that `utf8.DecodeRune` reports on a first byte that is not ASCII:
one byte, or two to four with continuation bytes that are not ASCII either. -/
theorem decodeRune_width (c : Nat) (rest : Bytes) (hc : 0x80 ≤ c) :
    (decodeRune (c :: rest)).2 = 1 ∨
    ((decodeRune (c :: rest)).2 = 2 ∧ ∃ b1 r, rest = b1 :: r ∧ 0x80 ≤ b1) ∨
    ((decodeRune (c :: rest)).2 = 3 ∧ ∃ b1 b2 r, rest = b1 :: b2 :: r ∧ 0x80 ≤ b1 ∧ 0x80 ≤ b2) ∨
    ((decodeRune (c :: rest)).2 = 4 ∧
      ∃ b1 b2 b3 r, rest = b1 :: b2 :: b3 :: r ∧ 0x80 ≤ b1 ∧ 0x80 ≤ b2 ∧ 0x80 ≤ b3) := by
  have h1 : ¬ c < 0x80 := by omega
  have hlo : 0x80 ≤ (if c = 0xE0 then 0xA0 else if c = 0xF0 then 0x90 else 0x80) := by
    split_ifs <;> omega
  by_cases h2 : c < 0xC2 ∨ 0xF4 < c
  · left
    simp only [decodeRune, h1, h2, if_false, if_true]
  · simp only [decodeRune, h1, h2, if_false]
    generalize (if c = 0xE0 then 0xA0 else if c = 0xF0 then 0x90 else 0x80) = lo at hlo ⊢
    generalize (if c = 0xED then 0x9F else if c = 0xF4 then 0x8F else 0xBF) = hi
    generalize (if c < 0xE0 then 2 else if c < 0xF0 then 3 else 4) = sz
    by_cases hlen : rest.length + 1 < sz
    · left
      simp only [hlen, if_true]
    · simp only [hlen, if_false]
      cases rest with
      | nil => left; rfl
      | cons b1 r1 =>
        simp only
        by_cases h4 : b1 < lo ∨ hi < b1
        · left
          simp only [h4, if_true]
        · have hb1 : 0x80 ≤ b1 := by omega
          simp only [h4, if_false]
          by_cases h5 : sz ≤ 2
          · right; left
            simp only [h5, if_true]
            exact ⟨trivial, b1, r1, rfl, hb1⟩
          · simp only [h5, if_false]
            cases r1 with
            | nil => left; rfl
            | cons b2 r2 =>
              simp only
              by_cases h6 : b2 < 0x80 ∨ 0xBF < b2
              · left
                simp only [h6, if_true]
              · have hb2 : 0x80 ≤ b2 := by omega
                simp only [h6, if_false]
                by_cases h7 : sz ≤ 3
                · right; right; left
                  simp only [h7, if_true]
                  exact ⟨trivial, b1, b2, r2, rfl, hb1, hb2⟩
                · simp only [h7, if_false]
                  cases r2 with
                  | nil => left; rfl
                  | cons b3 r3 =>
                    simp only
                    by_cases h8 : b3 < 0x80 ∨ 0xBF < b3
                    · left
                      simp only [h8, if_true]
                    · have hb3 : 0x80 ≤ b3 := by omega
                      right; right; right
                      simp only [h8, if_false]
                      exact ⟨trivial, b1, b2, b3, r3, rfl, hb1, hb2, hb3⟩

/-- After a `\\u` escape that `getu4` reads, the rest of an accepted text is an
accepted text. -/
theorem StringBody_drop_unicode (s : Bytes) (x : Nat) (h : StringBody s)
    (hg : getu4 s = some x) : StringBody (s.drop 6) ∧ 6 ≤ s.length := by
  cases h with
  | nil => simp [getu4] at hg
  | unicode a b c d rest hhex hr => exact ⟨hr, by simp⟩
  | escape e rest he hr =>
    simp only [List.mem_cons, List.mem_singleton, List.not_mem_nil, or_false] at he
    unfold getu4 at hg
    split at hg
    · rename_i heq
      simp only [List.cons.injEq] at heq
      omega
    · simp at hg
  | plain c rest h1 h2 hr =>
    unfold getu4 at hg
    split at hg
    · rename_i heq
      simp only [List.cons.injEq] at heq
      omega
    · simp at hg

/-- A surrogate pair is decoded only where a second code unit was read. -/
theorem utf16DecodeRune_ne (r1 : Nat) (r2 : Option Nat)
    (h : utf16DecodeRune r1 r2 ≠ RuneError) : ∃ x, r2 = some x := by
  cases r2 with
  | none => exact absurd rfl h
  | some x => exact ⟨x, rfl⟩

/-- Dropping what `utf8.DecodeRune` consumed at a byte that is not ASCII from an
accepted text leaves an accepted, shorter text. -/
theorem StringBody_drop_rune (c : Nat) (rest : Bytes) (hc : 0x80 ≤ c)
    (h : StringBody (c :: rest)) :
    StringBody ((c :: rest).drop (decodeRune (c :: rest)).2) ∧
    ((c :: rest).drop (decodeRune (c :: rest)).2).length ≤ rest.length := by
  have h0 := StringBody_tail c rest hc h
  rcases decodeRune_width c rest hc with hw | ⟨hw, b1, r, hr, hb1⟩ |
      ⟨hw, b1, b2, r, hr, hb1, hb2⟩ | ⟨hw, b1, b2, b3, r, hr, hb1, hb2, hb3⟩
  · rw [hw]
    exact ⟨h0, by simp⟩
  · rw [hw]
    subst hr
    exact ⟨StringBody_tail b1 r hb1 h0, by simp⟩
  · rw [hw]
    subst hr
    refine ⟨StringBody_tail b2 r hb2 (StringBody_tail b1 _ hb1 h0), ?_⟩
    simp only [List.drop_succ_cons, List.drop_zero, List.length_cons]
    omega
  · rw [hw]
    subst hr
    refine ⟨StringBody_tail b3 r hb3 (StringBody_tail b2 _ hb2 (StringBody_tail b1 _ hb1 h0)), ?_⟩
    simp only [List.drop_succ_cons, List.drop_zero, List.length_cons]
    omega

/-- Mapping keeps a result. -/
theorem isSome_map_of {α β : Type} (f : α → β) (o : Option α) (h : o.isSome = true) :
    (o.map f).isSome = true := by
  cases o with
  | none => exact h
  | some _ => rfl

/-- The loop of `unquoteBytes` succeeds on every text the scanner accepts, within
as many rounds as the text has bytes. -/
theorem unquoteLoop_isSome (fuel : Nat) : ∀ s : Bytes, StringBody s → s.length ≤ fuel →
    (unquoteLoop fuel s).isSome = true := by
  induction fuel with
  | zero =>
    intro s _ hl
    have : s = [] := List.length_eq_zero.mp (by omega)
    subst this
    rfl
  | succ fuel ih =>
    intro s hs hl
    cases hs with
    | nil => rfl
    | unicode a b c d rest hhex hr =>
      simp only [List.length_cons] at hl
      have hg : getu4 (0x5C :: 0x75 :: a :: b :: c :: d :: rest) =
          some (hexVal a * 4096 + hexVal b * 256 + hexVal c * 16 + hexVal d) := by
        simp only [getu4, hhex, and_self, if_true]
      simp only [unquoteLoop, if_true, hg]
      split_ifs with h1 h2
      · obtain ⟨x, hx⟩ := utf16DecodeRune_ne _ _ h2
        simp only [List.drop_succ_cons, List.drop_zero] at hx
        obtain ⟨hd, hlen⟩ := StringBody_drop_unicode rest x hr hx
        apply isSome_map_of
        apply ih
        · simpa only [List.drop_succ_cons, List.drop_zero] using hd
        · simp only [List.drop_succ_cons, List.length_drop]
          omega
      · apply isSome_map_of
        apply ih
        · simpa only [List.drop_succ_cons, List.drop_zero] using hr
        · simp only [List.drop_succ_cons, List.drop_zero]
          omega
      · apply isSome_map_of
        apply ih
        · simpa only [List.drop_succ_cons, List.drop_zero] using hr
        · simp only [List.drop_succ_cons, List.drop_zero]
          omega
    | escape e rest he hr =>
      simp only [List.length_cons] at hl
      simp only [List.mem_cons, List.mem_singleton, List.not_mem_nil, or_false] at he
      have hne : e ≠ 0x75 := by omega
      simp only [unquoteLoop, if_true, hne, if_false]
      have ih' := ih rest hr (by omega)
      rcases he with he | he | he | he | he | he | he | he <;> subst he <;>
        simpa using ih'
    | plain c rest h1 h2 hr =>
      simp only [List.length_cons] at hl
      have hne : c ≠ 0x5C := by omega
      have hq : ¬ (c = 0x22 ∨ c < 0x20) := by omega
      simp only [unquoteLoop, hne, hq, if_false]
      split_ifs with h3
      · apply isSome_map_of
        exact ih rest hr (by omega)
      · apply isSome_map_of
        obtain ⟨hd, hlen⟩ := StringBody_drop_rune c rest (by omega)
          (StringBody.plain c rest h1 h2 hr)
        exact ih _ hd (by omega)

/-- Go `unquoteBytes` succeeds on every string literal that the scanner returns. -/
theorem unquoteBytes_of_scanString (inp k r : Bytes) (h : scanString inp = some (k, r)) :
    ∃ t, unquoteBytes (0x22 :: k) = some t := by
  obtain ⟨body, hk, hb⟩ := scanString_body inp k r h
  subst hk
  have := unquoteLoop_isSome (body ++ [0x22]).length body hb (by simp)
  obtain ⟨t, ht⟩ := Option.isSome_iff_exists.mp this
  simp only [List.length_append, List.length_singleton] at ht
  exact ⟨t, by simp [unquoteBytes, ht]⟩

/-- Every key that `parseMembers` returns is a string literal that unquotes. -/
theorem parseMembers_keys (pv : Bytes → Option (JSON × Bytes)) :
    ∀ (n : Nat) (inp : Bytes) (ms : List (Bytes × JSON)) (rest : Bytes),
      parseMembers pv n inp = some (ms, rest) →
      ∀ kv ∈ ms, ∃ t, unquoteBytes kv.1 = some t := by
  intro n
  induction n with
  | zero => intro inp ms rest h; simp [parseMembers] at h
  | succ n ih =>
    intro inp ms rest h
    unfold parseMembers at h
    split at h
    · rename_i rest0
      rcases hk : scanString rest0 with _ | ⟨k, rest1⟩
      · simp [hk] at h
      · simp only [hk] at h
        split at h
        · rename_i rest2 _
          rcases hv : pv (skipSpace rest2) with _ | ⟨v, rest3⟩
          · simp [hv] at h
          · simp only [hv] at h
            split at h
            · rename_i rest4 _
              simp only [Option.map_eq_some'] at h
              obtain ⟨r, hr, hrr⟩ := h
              simp only [Prod.mk.injEq] at hrr
              intro kv hkv
              rw [← hrr.1] at hkv
              rcases List.mem_cons.mp hkv with rfl | hkv
              · exact unquoteBytes_of_scanString rest0 k rest1 hk
              · exact ih _ r.1 r.2 hr kv hkv
            · simp only [Option.some.injEq, Prod.mk.injEq] at h
              intro kv hkv
              rw [← h.1] at hkv
              simp only [List.mem_singleton] at hkv
              subst hkv
              exact unquoteBytes_of_scanString rest0 k rest1 hk
            · simp at h
        · simp at h
    · simp at h

/-- The keys of an object that the scanner returns unquote, and so does a string
that it returns. -/
theorem parseValue_unquotes (depth : Nat) (inp rest : Bytes) (v : JSON)
    (h : parseValue depth inp = some (v, rest)) :
    (∀ lit, v = JSON.string lit → ∃ t, unquoteBytes lit = some t) ∧
    (∀ raw ms, v = JSON.object raw ms → ∀ kv ∈ ms, ∃ t, unquoteBytes kv.1 = some t) := by
  unfold parseValue at h
  cases inp with
  | nil => simp at h
  | cons c tl =>
    simp only at h
    split_ifs at h
    · simp only [Option.map_eq_some'] at h
      obtain ⟨r, hr, hrr⟩ := h
      simp only [Prod.mk.injEq] at hrr
      rw [← hrr.1]
      refine ⟨?_, fun raw ms hv => by simp at hv⟩
      intro lit hl
      simp only [JSON.string.injEq] at hl
      rw [← hl]
      exact unquoteBytes_of_scanString tl r.1 r.2 hr
    · split at h
      · simp only [Option.some.injEq, Prod.mk.injEq] at h
        rw [← h.1]
        exact ⟨fun _ hv => by simp at hv, fun _ _ hv => by simp at hv⟩
      · simp at h
    · split at h
      · simp only [Option.some.injEq, Prod.mk.injEq] at h
        rw [← h.1]
        exact ⟨fun _ hv => by simp at hv, fun _ _ hv => by simp at hv⟩
      · simp at h
    · split at h
      · simp only [Option.some.injEq, Prod.mk.injEq] at h
        rw [← h.1]
        exact ⟨fun _ hv => by simp at hv, fun _ _ hv => by simp at hv⟩
      · simp at h
    · split at h
      · simp at h
      · split at h
        · simp only [Option.some.injEq, Prod.mk.injEq] at h
          rw [← h.1]
          exact ⟨fun _ hv => by simp at hv, fun _ _ hv => by simp at hv⟩
        · simp only [Option.map_eq_some'] at h
          obtain ⟨r, _, hrr⟩ := h
          simp only [Prod.mk.injEq] at hrr
          rw [← hrr.1]
          exact ⟨fun _ hv => by simp at hv, fun _ _ hv => by simp at hv⟩
    · split at h
      · simp at h
      · split at h
        · simp only [Option.some.injEq, Prod.mk.injEq] at h
          rw [← h.1]
          refine ⟨fun _ hv => by simp at hv, fun raw ms hv => ?_⟩
          simp only [JSON.object.injEq] at hv
          rw [← hv.2]
          simp
        · simp only [Option.map_eq_some'] at h
          obtain ⟨r, hr, hrr⟩ := h
          simp only [Prod.mk.injEq] at hrr
          rw [← hrr.1]
          refine ⟨fun _ hv => by simp at hv, fun raw ms hv => ?_⟩
          simp only [JSON.object.injEq] at hv
          rw [← hv.2]
          exact parseMembers_keys _ _ _ _ _ hr
    · simp only [Option.map_eq_some'] at h
      obtain ⟨r, _, hrr⟩ := h
      simp only [Prod.mk.injEq] at hrr
      rw [← hrr.1]
      exact ⟨fun _ hv => by simp at hv, fun _ _ hv => by simp at hv⟩

/-- Storing a scanned value into a Go `string` never meets a literal that does not
unquote: the branch where Go panics is not reached. -/
theorem storeString_scanned (v : JSON) (cur : Bytes) (hs : v.scanned) :
    (storeString v cur).2 ≠ some Error.invalidJSON := by
  obtain ⟨d, i, r, hp⟩ := hs
  cases v with
  | null => simp [storeString]
  | bool b => simp [storeString, typeError]
  | number l => simp [storeString, typeError]
  | string l =>
    obtain ⟨t, ht⟩ := (parseValue_unquotes d i r _ hp).1 l rfl
    simp [storeString, ht]
  | array raw l => simp [storeString, typeError]
  | object raw l => simp [storeString, typeError]

/-- The keys of a scanned object unquote, so no key is read as the empty name for
want of a value. -/
theorem scanned_keys (raw : Bytes) (ms : List (Bytes × JSON))
    (h : (JSON.object raw ms).scanned) : ∀ kv ∈ ms, ∃ t, unquoteBytes kv.1 = some t := by
  obtain ⟨d, i, r, hp⟩ := h
  exact (parseValue_unquotes d i r _ hp).2 raw ms rfl

/-! ## Encoding every event type, and targets left untouched on error -/

/-- C13, counterexample. The value `3` of the integer type `EventType` is none of
the three constants: `MarshalJSON` succeeds and emits `"unknown"`, which is none of
the three wire literals. -/
theorem EventType_MarshalJSON_unknown :
    EventType.MarshalJSON 3 = (str "\"unknown\"", none) ∧
    str "\"unknown\"" ≠ str "\"message_created\"" ∧
    str "\"unknown\"" ≠ str "\"message_updated\"" ∧
    str "\"unknown\"" ≠ str "\"mention_to_me\"" := by
  decide!

/-- C13, amended. For every value `e` of `EventType`, `MarshalJSON` returns no
error; it emits the JSON string of the wire literal of `e` when `e` is one of the
three constants and the JSON string `"unknown"` for every other integer. -/
theorem EventType_MarshalJSON_total (e : EventType) :
    EventType.MarshalJSON e =
      (if e = MessageCreated then str "\"message_created\""
       else if e = MessageUpdated then str "\"message_updated\""
       else if e = MentionToMe then str "\"mention_to_me\""
       else str "\"unknown\"", none) := by
  have h0 : MarshalString (str "message_created") = (str "\"message_created\"", none) := by
    decide!
  have h1 : MarshalString (str "message_updated") = (str "\"message_updated\"", none) := by
    decide!
  have h2 : MarshalString (str "mention_to_me") = (str "\"mention_to_me\"", none) := by
    decide!
  have h3 : MarshalString (str "unknown") = (str "\"unknown\"", none) := by
    decide!
  unfold EventType.MarshalJSON EventType.String
  split_ifs
  · exact h0
  · exact h1
  · exact h2
  · exact h3

/-- C16. Where `EventType.UnmarshalJSON` returns an error, `*e` is what it was
before the call, and so is `*t` where `Time.UnmarshalJSON` returns an error; a
target that has changed was assigned on the path that returns `nil`. Both methods
do return errors: on a string that is no event type and on a number with a
fraction, with the targets untouched. -/
theorem UnmarshalJSON_atomic (e : EventType) (t : Time) (data : Bytes) :
    ((EventType.UnmarshalJSON e data).2 ≠ none → (EventType.UnmarshalJSON e data).1 = e) ∧
    ((EventType.UnmarshalJSON e data).1 ≠ e → (EventType.UnmarshalJSON e data).2 = none) ∧
    ((Time.UnmarshalJSON t data).2 ≠ none → (Time.UnmarshalJSON t data).1 = t) ∧
    ((Time.UnmarshalJSON t data).1 ≠ t → (Time.UnmarshalJSON t data).2 = none) ∧
    EventType.UnmarshalJSON e (str "\"bogus\"") =
      (e, some (Error.errorString (str "invalid EventType bogus"))) ∧
    EventType.UnmarshalJSON e (str "12") =
      (e, some (Error.errorString (str "data should be a string, got 12"))) ∧
    Time.UnmarshalJSON t (str "1.5") =
      (t, some (Error.errorString (str "data should be number, got 1.5"))) := by
  have hE : (EventType.UnmarshalJSON e data).2 ≠ none →
      (EventType.UnmarshalJSON e data).1 = e := by
    unfold EventType.UnmarshalJSON
    rcases UnmarshalString data [] with ⟨s, _ | err⟩
    · simp only
      split_ifs <;> simp
    · simp
  have hT : (Time.UnmarshalJSON t data).2 ≠ none → (Time.UnmarshalJSON t data).1 = t := by
    unfold Time.UnmarshalJSON
    rcases UnmarshalInt64 data 0 with ⟨s, _ | err⟩
    · simp
    · simp
  have b1 : UnmarshalString (str "\"bogus\"") [] = (str "bogus", none) := by decide!
  have b2 : UnmarshalString (str "12") [] =
      ([], some (Error.unmarshalType (str "number") (str "string"))) := by decide!
  have b3 : UnmarshalInt64 (str "1.5") 0 =
      (0, some (Error.unmarshalType (str "number 1.5") (str "int64"))) := by decide!
  refine ⟨hE, ?_, hT, ?_, ?_, ?_, ?_⟩
  · intro hne
    by_contra hc
    exact hne (hE hc)
  · intro hne
    by_contra hc
    exact hne (hT hc)
  · simp only [EventType.UnmarshalJSON, b1]
    have : str "bogus" ≠ str "message_created" ∧ str "bogus" ≠ str "message_updated" ∧
        str "bogus" ≠ str "mention_to_me" := by decide!
    simp [this.1, this.2.1, this.2.2]
    decide!
  · simp only [EventType.UnmarshalJSON, b2]
    simp
    decide!
  · simp only [Time.UnmarshalJSON, b3]
    simp
    decide!

/-! ## The secret has no effect on the result of Parse -/

/-- C14. For a `POST` request with a non-empty signature header whose body is read
without error, `Parse` returns the same hook and the same error for any two
secrets, whatever `SignedBy` makes of them: the hook holds the signature, the body
and the payload that `json.Unmarshal` decoded from the body, and the error is the
one `json.Unmarshal` returned. -/
theorem Parse_ignores_secret (s1 s2 : Bytes) (req : Request)
    (hm : EqualFold req.Method (str "POST") = true)
    (hs : req.Header.Get (str "X-ChatWorkWebhookSignature") ≠ [])
    (hb : req.Body.2 = none) :
    Parse s1 req = Parse s2 req ∧
    Parse s1 req =
      (some { Signature := req.Header.Get (str "X-ChatWorkWebhookSignature"),
              RawPayload := req.Body.1,
              Payload := (Unmarshal req.Body.1 WebhookPayload.zero).1 },
        (Unmarshal req.Body.1 WebhookPayload.zero).2) := by
  have hn := New_of_post req hm hs
  rw [hb] at hn
  have h : ∀ s, Parse s req =
      (some { Signature := req.Header.Get (str "X-ChatWorkWebhookSignature"),
              RawPayload := req.Body.1,
              Payload := (Unmarshal req.Body.1 WebhookPayload.zero).1 },
        (Unmarshal req.Body.1 WebhookPayload.zero).2) := by
    intro s
    rw [Parse_of_New s req _ hn]
    simp [newHook]
  exact ⟨(h s1).trans (h s2).symm, h s1⟩

/-- C14 at the request of the tests, for the secret of the tests, which verifies
the signature, and for a secret that is not base64, on which `SignedBy` returns the
error of the decoder. -/
theorem Parse_ignores_secret_witness :
    (newHook testSignature testBody).SignedBy testToken = none ∧
    (newHook testSignature testBody).SignedBy (str "***") = some (Error.corruptInput 0) ∧
    Parse testToken (postRequest testBody testSignature) =
      Parse (str "***") (postRequest testBody testSignature) ∧
    Parse testToken (postRequest testBody testSignature) =
      (some { Signature :=
                (postRequest testBody testSignature).Header.Get (str "X-ChatWorkWebhookSignature"),
              RawPayload := testBody,
              Payload := (Unmarshal testBody WebhookPayload.zero).1 },
        (Unmarshal testBody WebhookPayload.zero).2) :=
  ⟨by set_option maxRecDepth 1000000 in decide!, by set_option maxRecDepth 1000000 in decide!,
    Parse_ignores_secret testToken (str "***") (postRequest testBody testSignature)
      (postRequest_Method _ _) (by rw [postRequest_Get]; decide!) rfl⟩

/-! ## Encoding a time stamp rounds down -/

/-- C12, counterexample. The instant half a second before the epoch,
`time.Unix(-1, 500000000)`: its Unix time is `-0.5` seconds, which truncated toward
zero is `0`, and `MarshalJSON` emits `-1`. -/
theorem Time_MarshalJSON_before_epoch :
    (timeUnix (-1) 500000000).unixNanoseconds = -500000000 ∧
    (timeUnix (-1) 500000000).truncatedUnix = 0 ∧
    Time.MarshalJSON { Time := timeUnix (-1) 500000000 } = (str "-1", none) ∧
    FormatInt 0 = str "0" := by
  decide!

/-- C12, amended. For every `Time` whose nanoseconds are below one second, as Go
keeps them, `MarshalJSON` returns no error and emits the decimal text of the Unix
time in seconds rounded down, toward minus infinity, as an `int64`. The `int64`
is the rounded number itself when the seconds since the epoch are in range. The
rounding agrees with truncation toward zero for an instant at or after the epoch and
for one with no fraction of a second, and is one less for any other. -/
theorem Time_MarshalJSON_floor (t : Time) (hn : t.Time.Nanosecond < 1000000000) :
    Time.MarshalJSON t =
      (FormatInt (wrapInt64 (t.Time.unixNanoseconds / 1000000000)), none) ∧
    (-2 ^ 63 ≤ t.Time.sec - unixToInternal ∧ t.Time.sec - unixToInternal < 2 ^ 63 →
      wrapInt64 (t.Time.unixNanoseconds / 1000000000) =
        t.Time.unixNanoseconds / 1000000000) ∧
    (0 ≤ t.Time.unixNanoseconds ∨ t.Time.Nanosecond = 0 →
      t.Time.unixNanoseconds / 1000000000 = t.Time.truncatedUnix) ∧
    (t.Time.unixNanoseconds < 0 ∧ t.Time.Nanosecond ≠ 0 →
      t.Time.unixNanoseconds / 1000000000 = t.Time.truncatedUnix - 1) := by
  have hq : t.Time.unixNanoseconds / 1000000000 = t.Time.sec - unixToInternal := by
    unfold GoTime.unixNanoseconds
    omega
  refine ⟨?_, ?_, ?_, ?_⟩
  · rw [hq]
    rfl
  · intro hr
    rw [hq]
    unfold wrapInt64
    norm_num at hr ⊢
    omega
  · rintro (h0 | h0)
    · unfold GoTime.truncatedUnix
      rw [Int.tdiv_eq_ediv h0 (by norm_num)]
    · unfold GoTime.truncatedUnix
      rw [hq]
      unfold GoTime.unixNanoseconds
      rw [h0]
      simp
  · rintro ⟨hneg, hne⟩
    unfold GoTime.truncatedUnix
    have hpos : 0 ≤ -t.Time.unixNanoseconds := by omega
    have h1 : Int.tdiv t.Time.unixNanoseconds 1000000000 =
        -((-t.Time.unixNanoseconds) / 1000000000) := by
      rw [← Int.tdiv_eq_ediv hpos (by norm_num), Int.neg_tdiv, neg_neg]
    rw [h1, hq]
    unfold GoTime.unixNanoseconds at hpos ⊢
    omega

/-- The amended C12 at half a second before the epoch and at half a second after
it. -/
theorem Time_MarshalJSON_floor_witness :
    Time.MarshalJSON { Time := timeUnix (-1) 500000000 } =
      (FormatInt (wrapInt64 ((timeUnix (-1) 500000000).unixNanoseconds / 1000000000)), none) ∧
    (timeUnix (-1) 500000000).unixNanoseconds / 1000000000 = -1 ∧
    (timeUnix 0 500000000).unixNanoseconds / 1000000000 = 0 :=
  ⟨(Time_MarshalJSON_floor { Time := timeUnix (-1) 500000000 } (by decide!)).1,
    by decide!, by decide!⟩

/-! ## Objects that lack the top-level keys -/

/-- Decoding a member into one field of a `WebhookPayload` leaves the other fields
as they are. -/
theorem storePayloadField_others (f : PayloadField) (v : JSON) (p : WebhookPayload)
    (saved : Option Error) :
    (f ≠ PayloadField.SettingID → (storePayloadField f v p saved).val.SettingID = p.SettingID) ∧
    (f ≠ PayloadField.Typ → (storePayloadField f v p saved).val.Typ = p.Typ) ∧
    (f ≠ PayloadField.Time → (storePayloadField f v p saved).val.Time = p.Time) ∧
    (f ≠ PayloadField.Event → (storePayloadField f v p saved).val.Event = p.Event) := by
  cases f <;> simp [storePayloadField]

/-- A field of `WebhookPayload` that no key of the object selects holds after the
decoder's loop what it held before, whether the loop ends with an error or not. -/
theorem objectPayload_untouched (ms : List (Bytes × JSON)) (f : PayloadField)
    (hno : ∀ m ∈ ms, lookupField payloadFields ((unquoteBytes m.1).getD []) ≠ some f) :
    ∀ (p : WebhookPayload) (saved : Option Error),
      (f = PayloadField.SettingID → (objectPayload ms p saved).val.SettingID = p.SettingID) ∧
      (f = PayloadField.Typ → (objectPayload ms p saved).val.Typ = p.Typ) ∧
      (f = PayloadField.Time → (objectPayload ms p saved).val.Time = p.Time) ∧
      (f = PayloadField.Event → (objectPayload ms p saved).val.Event = p.Event) := by
  induction ms with
  | nil => intro p saved; simp [objectPayload]
  | cons m ms ih =>
    intro p saved
    obtain ⟨k, v⟩ := m
    have ih' := ih (fun m hm => hno m (List.mem_cons_of_mem _ hm))
    have hk := hno (k, v) (List.mem_cons_self _ _)
    simp only [objectPayload]
    rcases hl : lookupField payloadFields ((unquoteBytes k).getD []) with _ | g
    · exact ih' p saved
    · have hg : g ≠ f := by
        intro hgf
        rw [hl, hgf] at hk
        exact hk rfl
      obtain ⟨o1, o2, o3, o4⟩ := storePayloadField_others g v p saved
      rcases ha : (storePayloadField g v p saved).abort with _ | e
      · obtain ⟨i1, i2, i3, i4⟩ :=
          ih' (storePayloadField g v p saved).val (storePayloadField g v p saved).saved
        simp only [ha]
        refine ⟨fun h => ?_, fun h => ?_, fun h => ?_, fun h => ?_⟩
        · rw [i1 h, o1 (h ▸ hg)]
        · rw [i2 h, o2 (h ▸ hg)]
        · rw [i3 h, o3 (h ▸ hg)]
        · rw [i4 h, o4 (h ▸ hg)]
      · simp only [ha]
        refine ⟨fun h => ?_, fun h => ?_, fun h => ?_, fun h => ?_⟩
        · exact o1 (h ▸ hg)
        · exact o2 (h ▸ hg)
        · exact o3 (h ▸ hg)
        · exact o4 (h ▸ hg)

/-- An object none of whose keys selects a field of `WebhookPayload` is decoded
without a change and without an error. -/
theorem objectPayload_no_field (ms : List (Bytes × JSON))
    (hno : ∀ m ∈ ms, lookupField payloadFields ((unquoteBytes m.1).getD []) = none) :
    ∀ (p : WebhookPayload) (saved : Option Error),
      (objectPayload ms p saved).val = p ∧ (objectPayload ms p saved).saved = saved ∧
      (objectPayload ms p saved).abort = none := by
  induction ms with
  | nil => intro p saved; simp [objectPayload]
  | cons m ms ih =>
    intro p saved
    obtain ⟨k, v⟩ := m
    have hk := hno (k, v) (List.mem_cons_self _ _)
    simp only at hk
    simp only [objectPayload, hk]
    exact ih (fun m hm => hno m (List.mem_cons_of_mem _ hm)) p saved

/-- C15. Decoding a JSON object into the zero `WebhookPayload`: a field that no key
of the object selects keeps its zero value, the empty string for `SettingID`,
`MessageCreated` for `Type`, the zero `time.Time` for `Time` and eight `nil`
pointers for `Event`, and an object none of whose keys selects a field decodes
without error to the zero payload. So does the body with no member. The zero
`time.Time` is not the Unix epoch: it lies 62135596800 seconds before it. A body
whose only member is `webhook_event_type` with `message_created` decodes to the
same `Type` as the body with no member. -/
theorem Unmarshal_missing_keys (data raw : Bytes) (ms : List (Bytes × JSON))
    (hparse : parseJSON data = some (JSON.object raw ms)) :
    ((∀ m ∈ ms, lookupField payloadFields ((unquoteBytes m.1).getD []) ≠
        some PayloadField.SettingID) →
      (Unmarshal data WebhookPayload.zero).1.SettingID = []) ∧
    ((∀ m ∈ ms, lookupField payloadFields ((unquoteBytes m.1).getD []) ≠
        some PayloadField.Typ) →
      (Unmarshal data WebhookPayload.zero).1.Typ = MessageCreated) ∧
    ((∀ m ∈ ms, lookupField payloadFields ((unquoteBytes m.1).getD []) ≠
        some PayloadField.Time) →
      (Unmarshal data WebhookPayload.zero).1.Time = { Time := GoTime.zero }) ∧
    ((∀ m ∈ ms, lookupField payloadFields ((unquoteBytes m.1).getD []) ≠
        some PayloadField.Event) →
      (Unmarshal data WebhookPayload.zero).1.Event =
        { MessageID := none, RoomID := none, Body := none, SendTime := none,
          UpdateTime := none, AccountID := none, FromAccountID := none,
          ToAccountID := none }) ∧
    ((∀ m ∈ ms, lookupField payloadFields ((unquoteBytes m.1).getD []) = none) →
      Unmarshal data WebhookPayload.zero = (WebhookPayload.zero, none)) ∧
    Unmarshal emptyObjectBody WebhookPayload.zero =
      ({ SettingID := [], Typ := MessageCreated, Time := { Time := GoTime.zero },
         Event :=
           { MessageID := none, RoomID := none, Body := none, SendTime := none,
             UpdateTime := none, AccountID := none, FromAccountID := none,
             ToAccountID := none } }, none) ∧
    GoTime.zero ≠ timeUnix 0 0 ∧ GoTime.zero.Unix = -62135596800 ∧
    (timeUnix 0 0).Unix = 0 ∧
    (Unmarshal typeOnlyBody WebhookPayload.zero).2 = none ∧
    (Unmarshal typeOnlyBody WebhookPayload.zero).1.Typ =
      (Unmarshal emptyObjectBody WebhookPayload.zero).1.Typ := by
  have hval : (Unmarshal data WebhookPayload.zero).1 =
      (objectPayload ms WebhookPayload.zero none).val := by
    simp [Unmarshal, hparse]
  refine ⟨fun h => ?_, fun h => ?_, fun h => ?_, fun h => ?_, fun h => ?_, ?_, ?_, ?_, ?_,
    ?_, ?_⟩
  · rw [hval, (objectPayload_untouched ms _ h WebhookPayload.zero none).1 rfl]
    rfl
  · rw [hval, (objectPayload_untouched ms _ h WebhookPayload.zero none).2.1 rfl]
    rfl
  · rw [hval, (objectPayload_untouched ms _ h WebhookPayload.zero none).2.2.1 rfl]
    rfl
  · rw [hval, (objectPayload_untouched ms _ h WebhookPayload.zero none).2.2.2 rfl]
    rfl
  · obtain ⟨h1, h2, h3⟩ := objectPayload_no_field ms h WebhookPayload.zero none
    simp [Unmarshal, hparse, h1, h2, h3]
  · decide!
  · decide!
  · decide!
  · decide!
  · set_option maxRecDepth 1000000 in decide!
  · set_option maxRecDepth 1000000 in decide!

/-- C15 at the body with no member, through `json.Unmarshal` and through `Parse`:
no error and the zero payload. -/
theorem Unmarshal_missing_keys_witness :
    Unmarshal emptyObjectBody WebhookPayload.zero = (WebhookPayload.zero, none) ∧
    Parse testToken (postRequest emptyObjectBody testSignature) =
      (some { Signature := testSignature, RawPayload := emptyObjectBody,
              Payload := WebhookPayload.zero }, none) := by
  have h := (Unmarshal_missing_keys emptyObjectBody emptyObjectBody []
    (parseJSON_of_parsesTo (by decide!))).2.2.2.2.1 (by simp)
  refine ⟨h, ?_⟩
  have hn := New_of_post (postRequest emptyObjectBody testSignature)
    (postRequest_Method _ _) (by rw [postRequest_Get]; decide!)
  rw [postRequest_Get] at hn
  have hn' : New (postRequest emptyObjectBody testSignature) =
      (some (newHook testSignature emptyObjectBody), none) := hn
  rw [Parse_of_New testToken _ _ hn']
  simp only [newHook]
  rw [h]

/-! ## Absent and present fields of an event -/

/-- Decoding a member into one field of a `WebhookEvent` leaves the other fields
as they are. -/
theorem storeEventField_get_other (f g : EventField) (v : JSON) (ev : WebhookEvent)
    (h : g ≠ f) : (storeEventField g v ev).val.get f = ev.get f := by
  cases g <;> cases f <;> first | exact absurd rfl h | rfl

/-- A member whose key does not select the field `f` leaves `f` as it is. -/
theorem eventStep_untouched (ev : WebhookEvent) (m : Bytes × JSON) (f : EventField)
    (h : lookupField eventFields ((unquoteBytes m.1).getD []) ≠ some f) :
    (eventStep ev m).get f = ev.get f := by
  unfold eventStep
  rcases hl : lookupField eventFields ((unquoteBytes m.1).getD []) with _ | g
  · rfl
  · have hg : g ≠ f := by
      intro hgf
      rw [hl, hgf] at h
      exact h rfl
    exact storeEventField_get_other f g m.2 ev hg

/-- Members none of whose keys selects the field `f` leave `f` as it is. -/
theorem foldl_eventStep_untouched (l : List (Bytes × JSON)) (f : EventField)
    (h : ∀ m ∈ l, lookupField eventFields ((unquoteBytes m.1).getD []) ≠ some f) :
    ∀ ev : WebhookEvent, (l.foldl eventStep ev).get f = ev.get f := by
  induction l with
  | nil => intro ev; rfl
  | cons m l ih =>
    intro ev
    rw [List.foldl_cons, ih (fun x hx => h x (List.mem_cons_of_mem _ hx)),
      eventStep_untouched ev m f (h m (List.mem_cons_self _ _))]

/-- Decoding a string literal into `message_id` or `body`: no error, and the field
points to the value of the literal, whatever it held before. -/
theorem storeEventField_string (f : EventField) (lit s : Bytes) (ev : WebhookEvent)
    (hf : f = EventField.MessageID ∨ f = EventField.Body)
    (hu : unquoteBytes lit = some s) :
    (storeEventField f (JSON.string lit) ev).abort = none ∧
    (storeEventField f (JSON.string lit) ev).saved = none ∧
    (storeEventField f (JSON.string lit) ev).val.get f = some (FieldValue.string s) := by
  rcases hf with rfl | rfl <;>
    simp [storeEventField, storeStringPtr_string lit s _ hu, WebhookEvent.get]

/-- Decoding the decimal text of an integer of 64 bits into one of the integer
fields or one of the time fields: no error, and the field points to the integer,
or to `time.Unix(n, 0)`, whatever it held before. -/
theorem storeEventField_number (f : EventField) (n : Int) (ev : WebhookEvent)
    (hf : f ≠ EventField.MessageID ∧ f ≠ EventField.Body)
    (hlo : -2 ^ 63 ≤ n) (hhi : n < 2 ^ 63) :
    (storeEventField f (JSON.number (FormatInt n)) ev).abort = none ∧
    (storeEventField f (JSON.number (FormatInt n)) ev).saved = none ∧
    (storeEventField f (JSON.number (FormatInt n)) ev).val.get f =
      some (if f = EventField.SendTime ∨ f = EventField.UpdateTime then
        FieldValue.time { Time := timeUnix n 0 } else FieldValue.int n) := by
  cases f
  · exact absurd rfl hf.1
  · simp [storeEventField, storeIntPtr_FormatInt n _ hlo hhi, WebhookEvent.get]
  · exact absurd rfl hf.2
  · simp [storeEventField, storeTimePtr_FormatInt n _ hlo hhi, WebhookEvent.get]
  · simp [storeEventField, storeTimePtr_FormatInt n _ hlo hhi, WebhookEvent.get]
  · simp [storeEventField, storeIntPtr_FormatInt n _ hlo hhi, WebhookEvent.get]
  · simp [storeEventField, storeIntPtr_FormatInt n _ hlo hhi, WebhookEvent.get]
  · simp [storeEventField, storeIntPtr_FormatInt n _ hlo hhi, WebhookEvent.get]

/-- An event object in which every member whose key selects a field has a value of
the kind of that field, a string literal for `message_id` and `body` and the decimal
text of an integer of 64 bits for the others: the decoder neither stops nor saves
an error, and the event is the fold of `eventStep` over the members. -/
theorem objectEvent_of_kinds (es : List (Bytes × JSON))
    (hkind : ∀ m ∈ es, ∀ f, lookupField eventFields ((unquoteBytes m.1).getD []) = some f →
      ((f = EventField.MessageID ∨ f = EventField.Body) ∧
        ∃ lit s, m.2 = JSON.string lit ∧ unquoteBytes lit = some s) ∨
      ((f ≠ EventField.MessageID ∧ f ≠ EventField.Body) ∧
        ∃ n : Int, -2 ^ 63 ≤ n ∧ n < 2 ^ 63 ∧ m.2 = JSON.number (FormatInt n)))
    (ev : WebhookEvent) (saved : Option Error) :
    (objectEvent es ev saved).val = es.foldl eventStep ev ∧
    (objectEvent es ev saved).saved = saved ∧ (objectEvent es ev saved).abort = none := by
  apply objectEvent_of_clean
  intro m hm f hf z
  rcases hkind m hm f hf with ⟨hfs, lit, s, hv, hu⟩ | ⟨hfn, n, hlo, hhi, hv⟩
  · rw [hv]
    exact ⟨(storeEventField_string f lit s z hfs hu).1,
      (storeEventField_string f lit s z hfs hu).2.1⟩
  · rw [hv]
    exact ⟨(storeEventField_number f n z hfn hlo hhi).1,
      (storeEventField_number f n z hfn hlo hhi).2.1⟩

/-- The field that the key of a member selects, once the members after it select
other fields, holds at the end what that member stored. -/
theorem foldl_eventStep_last (pre post : List (Bytes × JSON)) (k : Bytes) (v : JSON)
    (f : EventField) (ev : WebhookEvent)
    (hsel : lookupField eventFields ((unquoteBytes k).getD []) = some f)
    (hpost : ∀ m ∈ post, lookupField eventFields ((unquoteBytes m.1).getD []) ≠ some f) :
    ((pre ++ (k, v) :: post).foldl eventStep ev).get f =
      (storeEventField f v (pre.foldl eventStep ev)).val.get f := by
  rw [List.foldl_append, List.foldl_cons, foldl_eventStep_untouched post f hpost]
  simp only [eventStep, hsel]

/-- A payload object whose members are, in any order, the setting id as a string,
the event type as written by `MarshalJSON`, the event time as the decimal text of
an `int64` and an event object that the decoder reads without an error:
`json.Unmarshal` stores the four fields and returns no error. -/
theorem Unmarshal_of_event (body raw rawE : Bytes) (ms es : List (Bytes × JSON))
    (kS vS kT kN kE s : Bytes) (ty : EventType) (N : Int)
    (hparse : parseJSON body = some (JSON.object raw ms))
    (hms : ms.Perm [(kS, JSON.string vS), (kT, JSON.string (EventType.MarshalJSON ty).1),
      (kN, JSON.number (FormatInt N)), (kE, JSON.object rawE es)])
    (hkS : unquoteBytes kS = some (str "webhook_setting_id"))
    (hkT : unquoteBytes kT = some (str "webhook_event_type"))
    (hkN : unquoteBytes kN = some (str "webhook_event_time"))
    (hkE : unquoteBytes kE = some (str "webhook_event"))
    (hvS : unquoteBytes vS = some s)
    (hty : ty = MessageCreated ∨ ty = MessageUpdated ∨ ty = MentionToMe)
    (hN : -2 ^ 63 ≤ N ∧ N < 2 ^ 63)
    (hev : ∀ (ev : WebhookEvent) (saved : Option Error),
      (objectEvent es ev saved).val = es.foldl eventStep ev ∧
      (objectEvent es ev saved).saved = saved ∧ (objectEvent es ev saved).abort = none) :
    Unmarshal body WebhookPayload.zero =
      ({ SettingID := s, Typ := ty, Time := { Time := timeUnix N 0 },
         Event := es.foldl eventStep WebhookEvent.zero }, none) := by
  have lS : lookupField payloadFields (str "webhook_setting_id") = some PayloadField.SettingID := by
    decide!
  have lT : lookupField payloadFields (str "webhook_event_type") = some PayloadField.Typ := by
    decide!
  have lN : lookupField payloadFields (str "webhook_event_time") = some PayloadField.Time := by
    decide!
  have lE : lookupField payloadFields (str "webhook_event") = some PayloadField.Event := by
    decide!
  have hT := fun e => EventType_UnmarshalJSON_Marshal ty e hty
  have hTime := fun t => Time_UnmarshalJSON_FormatInt t N hN.1 hN.2
  have pS : ∀ z, payloadStep z (kS, JSON.string vS) = { z with SettingID := s } := by
    intro z; simp [payloadStep, hkS, lS, storePayloadField, storeString, hvS]
  have pT : ∀ z, payloadStep z (kT, JSON.string (EventType.MarshalJSON ty).1) =
      { z with Typ := ty } := by
    intro z; simp [payloadStep, hkT, lT, storePayloadField, JSON.raw, hT]
  have pN : ∀ z, payloadStep z (kN, JSON.number (FormatInt N)) =
      { z with Time := { Time := timeUnix N 0 } } := by
    intro z; simp [payloadStep, hkN, lN, storePayloadField, JSON.raw, hTime]
  have pE : ∀ z, payloadStep z (kE, JSON.object rawE es) =
      { z with Event := es.foldl eventStep z.Event } := by
    intro z
    simp [payloadStep, hkE, lE, storePayloadField, storeEvent, (hev z.Event none).1]
  have hclean : ∀ m ∈ ms, ∀ f,
      lookupField payloadFields ((unquoteBytes m.1).getD []) = some f →
      ∀ p saved, (storePayloadField f m.2 p saved).abort = none ∧
        (storePayloadField f m.2 p saved).saved = saved ∧
        (storePayloadField f m.2 p saved).val = (storePayloadField f m.2 p none).val := by
    intro m hm f hf p saved
    have hm' := hms.mem_iff.mp hm
    simp only [List.mem_cons, List.mem_singleton, List.not_mem_nil, or_false] at hm'
    rcases hm' with rfl | rfl | rfl | rfl
    · simp only [hkS, Option.getD_some, lS, Option.some.injEq] at hf
      subst hf; simp [storePayloadField, storeString, hvS, saveError_none]
    · simp only [hkT, Option.getD_some, lT, Option.some.injEq] at hf
      subst hf; simp [storePayloadField, JSON.raw, hT]
    · simp only [hkN, Option.getD_some, lN, Option.some.injEq] at hf
      subst hf; simp [storePayloadField, JSON.raw, hTime]
    · simp only [hkE, Option.getD_some, lE, Option.some.injEq] at hf
      subst hf
      simp [storePayloadField, storeEvent, (hev p.Event saved).1, (hev p.Event saved).2.1,
        (hev p.Event saved).2.2, (hev p.Event none).1]
  obtain ⟨hval, hsv, hab⟩ := objectPayload_of_clean ms hclean WebhookPayload.zero none
  simp only [Unmarshal, hparse, hval, hsv, hab]
  rw [← List.Perm.foldl_eq' hms.symm ?_ WebhookPayload.zero]
  · simp only [List.foldl_cons, List.foldl_nil, pS, pT, pN, pE]
    rfl
  · intro x hx y hy z
    simp only [List.mem_cons, List.mem_singleton, List.not_mem_nil, or_false] at hx hy
    rcases hx with rfl | rfl | rfl | rfl <;> rcases hy with rfl | rfl | rfl | rfl <;>
      simp only [pS, pT, pN, pE]

/-- C11. A payload object with, in any order, the setting id, an event type that
is any of the three, the event time and a `webhook_event` object in which every
member whose key selects a field has a value of the kind of that field (a string
literal for `message_id` and `body`, the decimal text of an integer of 64 bits for
the other six): `json.Unmarshal` returns no error and stores the event type; each of
the eight fields that no key of the event object selects is `nil`; and a field
that a key selects is not `nil` and holds the value of the last member that selects
it, the value of the literal, the integer, or `time.Unix(n, 0)`, zero included. -/
theorem Unmarshal_absence_tolerance (body raw rawE : Bytes) (ms es : List (Bytes × JSON))
    (kS vS kT kN kE s : Bytes) (ty : EventType) (N : Int)
    (hparse : parseJSON body = some (JSON.object raw ms))
    (hms : ms.Perm [(kS, JSON.string vS), (kT, JSON.string (EventType.MarshalJSON ty).1),
      (kN, JSON.number (FormatInt N)), (kE, JSON.object rawE es)])
    (hkS : unquoteBytes kS = some (str "webhook_setting_id"))
    (hkT : unquoteBytes kT = some (str "webhook_event_type"))
    (hkN : unquoteBytes kN = some (str "webhook_event_time"))
    (hkE : unquoteBytes kE = some (str "webhook_event"))
    (hvS : unquoteBytes vS = some s)
    (hty : ty = MessageCreated ∨ ty = MessageUpdated ∨ ty = MentionToMe)
    (hN : -2 ^ 63 ≤ N ∧ N < 2 ^ 63)
    (hkind : ∀ m ∈ es, ∀ f, lookupField eventFields ((unquoteBytes m.1).getD []) = some f →
      ((f = EventField.MessageID ∨ f = EventField.Body) ∧
        ∃ lit s, m.2 = JSON.string lit ∧ unquoteBytes lit = some s) ∨
      ((f ≠ EventField.MessageID ∧ f ≠ EventField.Body) ∧
        ∃ n : Int, -2 ^ 63 ≤ n ∧ n < 2 ^ 63 ∧ m.2 = JSON.number (FormatInt n))) :
    (Unmarshal body WebhookPayload.zero).2 = none ∧
    (Unmarshal body WebhookPayload.zero).1.Typ = ty ∧
    ∀ f : EventField,
      ((∀ m ∈ es, lookupField eventFields ((unquoteBytes m.1).getD []) ≠ some f) →
        (Unmarshal body WebhookPayload.zero).1.Event.get f = none) ∧
      (∀ (pre post : List (Bytes × JSON)) (k : Bytes) (v : JSON),
        es = pre ++ (k, v) :: post →
        lookupField eventFields ((unquoteBytes k).getD []) = some f →
        (∀ m ∈ post, lookupField eventFields ((unquoteBytes m.1).getD []) ≠ some f) →
        (∀ lit x, v = JSON.string lit → unquoteBytes lit = some x →
          (Unmarshal body WebhookPayload.zero).1.Event.get f = some (FieldValue.string x)) ∧
        (∀ n : Int, -2 ^ 63 ≤ n → n < 2 ^ 63 → v = JSON.number (FormatInt n) →
          (Unmarshal body WebhookPayload.zero).1.Event.get f =
            some (if f = EventField.SendTime ∨ f = EventField.UpdateTime then
              FieldValue.time { Time := timeUnix n 0 } else FieldValue.int n))) := by
  have hU := Unmarshal_of_event body raw rawE ms es kS vS kT kN kE s ty N hparse hms
    hkS hkT hkN hkE hvS hty hN (objectEvent_of_kinds es hkind)
  rw [hU]
  refine ⟨rfl, rfl, fun f => ⟨fun habs => ?_, ?_⟩⟩
  · have hz : WebhookEvent.zero.get f = none := by cases f <;> rfl
    exact (foldl_eventStep_untouched es f habs WebhookEvent.zero).trans hz
  · intro pre post k v hes hsel hpost
    have hmem : (k, v) ∈ es := by
      rw [hes]
      exact List.mem_append_right _ (List.mem_cons_self _ _)
    have hlast : (es.foldl eventStep WebhookEvent.zero).get f =
        (storeEventField f v (pre.foldl eventStep WebhookEvent.zero)).val.get f := by
      rw [hes]
      exact foldl_eventStep_last pre post k v f WebhookEvent.zero hsel hpost
    refine ⟨fun lit x hv hu => ?_, fun n hlo hhi hv => ?_⟩
    · show (es.foldl eventStep WebhookEvent.zero).get f = _
      rw [hlast, hv]
      rcases hkind (k, v) hmem f hsel with ⟨hfs, _⟩ | ⟨_, m, _, _, hvn⟩
      · exact (storeEventField_string f lit x _ hfs hu).2.2
      · rw [hv] at hvn
        exact absurd hvn (by simp)
    · show (es.foldl eventStep WebhookEvent.zero).get f = _
      rw [hlast, hv]
      rcases hkind (k, v) hmem f hsel with ⟨_, lit, x, hvs, _⟩ | ⟨hfn, _⟩
      · rw [hv] at hvs
        exact absurd hvs (by simp)
      · exact (storeEventField_number f n _ hfn hlo hhi).2.2

/-- The fields that the keys of the event object of `mentionBody` select. -/
theorem mentionEventMembers_fields :
    mentionEventMembers.map
        (fun m => lookupField eventFields ((unquoteBytes m.1).getD [])) =
      [some EventField.FromAccountID, some EventField.ToAccountID, some EventField.RoomID,
        some EventField.MessageID, some EventField.Body, some EventField.SendTime,
        some EventField.UpdateTime] := by
  decide!

/-- C11 at a body of type `mention_to_me` without `account_id` and with
`update_time` set to `0`: no error, `AccountID` is `nil`, `UpdateTime` points to
`time.Unix(0, 0)` and `FromAccountID` to its integer. -/
theorem Unmarshal_absence_tolerance_witness :
    (Unmarshal mentionBody WebhookPayload.zero).2 = none ∧
    (Unmarshal mentionBody WebhookPayload.zero).1.Typ = MentionToMe ∧
    (Unmarshal mentionBody WebhookPayload.zero).1.Event.get EventField.AccountID = none ∧
    (Unmarshal mentionBody WebhookPayload.zero).1.Event.get EventField.UpdateTime =
      some (FieldValue.time { Time := timeUnix 0 0 }) ∧
    (Unmarshal mentionBody WebhookPayload.zero).1.Event.get EventField.FromAccountID =
      some (FieldValue.int 1484814) := by
  have hsel := mentionEventMembers_fields
  simp only [mentionEventMembers, List.map_cons, List.map_nil, List.cons.injEq, and_true] at hsel
  obtain ⟨s1, s2, s3, s4, s5, s6, s7⟩ := hsel
  have hkind : ∀ m ∈ mentionEventMembers, ∀ f,
      lookupField eventFields ((unquoteBytes m.1).getD []) = some f →
      ((f = EventField.MessageID ∨ f = EventField.Body) ∧
        ∃ lit s, m.2 = JSON.string lit ∧ unquoteBytes lit = some s) ∨
      ((f ≠ EventField.MessageID ∧ f ≠ EventField.Body) ∧
        ∃ n : Int, -2 ^ 63 ≤ n ∧ n < 2 ^ 63 ∧ m.2 = JSON.number (FormatInt n)) := by
    intro m hm f hf
    simp only [mentionEventMembers, List.mem_cons, List.mem_singleton, List.not_mem_nil,
      or_false] at hm
    rcases hm with rfl | rfl | rfl | rfl | rfl | rfl | rfl
    · rw [s1] at hf
      cases hf
      exact Or.inr ⟨⟨by decide, by decide⟩, 1484814, by norm_num, by norm_num, rfl⟩
    · rw [s2] at hf
      cases hf
      exact Or.inr ⟨⟨by decide, by decide⟩, 1484815, by norm_num, by norm_num, rfl⟩
    · rw [s3] at hf
      cases hf
      exact Or.inr ⟨⟨by decide, by decide⟩, 36818150, by norm_num, by norm_num, rfl⟩
    · rw [s4] at hf
      cases hf
      exact Or.inl ⟨Or.inl rfl, str "\"984676321621704704\"", str "984676321621704704", rfl,
        by decide!⟩
    · rw [s5] at hf
      cases hf
      exact Or.inl ⟨Or.inr rfl, str "\"test\"", str "test", rfl, by decide!⟩
    · rw [s6] at hf
      cases hf
      exact Or.inr ⟨⟨by decide, by decide⟩, 1511238729, by norm_num, by norm_num, rfl⟩
    · rw [s7] at hf
      cases hf
      exact Or.inr ⟨⟨by decide, by decide⟩, 0, by norm_num, by norm_num, rfl⟩
  have h := Unmarshal_absence_tolerance mentionBody mentionBody mentionEventText
    mentionMembers mentionEventMembers
    (str "\"webhook_setting_id\"") (str "\"246\"") (str "\"webhook_event_type\"")
    (str "\"webhook_event_time\"") (str "\"webhook_event\"") (str "246") MentionToMe 1511238729
    (parseJSON_of_parsesTo (by set_option maxRecDepth 1000000 in decide!))
    (List.Perm.refl _) (by decide!) (by decide!) (by decide!) (by decide!) (by decide!)
    (Or.inr (Or.inr rfl)) (by norm_num) hkind
  refine ⟨h.1, h.2.1, ?_, ?_, ?_⟩
  · apply (h.2.2 EventField.AccountID).1
    intro m hm
    simp only [mentionEventMembers, List.mem_cons, List.mem_singleton, List.not_mem_nil,
      or_false] at hm
    rcases hm with rfl | rfl | rfl | rfl | rfl | rfl | rfl
    · rw [s1]; decide
    · rw [s2]; decide
    · rw [s3]; decide
    · rw [s4]; decide
    · rw [s5]; decide
    · rw [s6]; decide
    · rw [s7]; decide
  · have hu := ((h.2.2 EventField.UpdateTime).2
      (mentionEventMembers.take 6) [] (str "\"update_time\"") (JSON.number (FormatInt 0))
      rfl s7 (by simp)).2 0 (by norm_num) (by norm_num) rfl
    simpa using hu
  · have hu := ((h.2.2 EventField.FromAccountID).2
      [] (mentionEventMembers.drop 1) (str "\"from_account_id\"")
      (JSON.number (FormatInt 1484814)) rfl s1 (by
        intro m hm
        simp only [mentionEventMembers, List.drop_succ_cons, List.drop_zero, List.mem_cons,
          List.mem_singleton, List.not_mem_nil, or_false] at hm
        rcases hm with rfl | rfl | rfl | rfl | rfl | rfl
        · rw [s2]; decide
        · rw [s3]; decide
        · rw [s4]; decide
        · rw [s5]; decide
        · rw [s6]; decide
        · rw [s7]; decide)).2 1484814 (by norm_num) (by norm_num) rfl
    simpa using hu

end Chatworkhook
